import Mathlib

/-!
Verification of the BF2 "visible mesh" binary codec
(`io_scene_bf2/core/bf2/bf2_mesh/bf2_visiblemesh.py`).

Shallow embedding conventions:
* Python floats are modelled as exact rationals (`ℚ`); IEEE-754 rounding and
  special values are outside the scope of the verified claims, except that the
  value `float("inf")` used as the bounds sentinel is modelled explicitly by
  the type `FlQ`.
* The binary file is modelled as a list of typed tokens (`Tok`): each
  `write_dword` / `write_word` / `write_byte` / `write_string` / float write /
  `write_raw` of the vertex buffer emits one token, and the corresponding read
  consumes one.  `FileUtils` itself is not part of the sources; its read/write
  primitives are modelled from the spec (little-endian fixed-width fields,
  length-prefixed strings, truncated read = CorruptFile).
* Python exceptions are modelled by `Except Err`; the constructors follow the
  spec's error taxonomy (KeyError on an unknown declaration type is
  `unsupportedVertexFormat`, an invalid enum code is `unknownEnumValue`,
  `struct.error` is `structError`, IndexError / size mismatches are
  `corruptFile`, and so on).
* Mutation of Python objects is modelled by explicit state passing: a method
  that mutates `self` returns the updated record.
-/

/-- Error taxonomy of the codec (spec §7, mapped from the Python exceptions). -/
inductive Err where
  | corruptFile
  | unsupportedPrimitiveType
  | unsupportedVertexFormat
  | unknownEnumValue
  | missingVertexAttribute
  | emptyMaterialBounds
  | structError
  | zeroDivision
  | typeError
deriving DecidableEq, Repr

/-- One cell of the flat vertex buffer: a 4-byte float or a single byte
(`struct` formats `f` and `B`). -/
inductive VCell where
  | f (q : ℚ)
  | b (n : ℕ)
deriving DecidableEq, Repr

/-- Kind of a vertex-buffer cell, as named by a `struct` format character. -/
inductive CellKind where
  | kf
  | kb
deriving DecidableEq, Repr

/-- Byte width of a cell (float = 4 bytes, byte = 1). -/
def VCell.width : VCell → ℕ
  | .f _ => 4
  | .b _ => 1

/-- Byte width of a cell kind. -/
def CellKind.width : CellKind → ℕ
  | .kf => 4
  | .kb => 1

/-- Kind of a concrete cell. -/
def VCell.kind : VCell → CellKind
  | .f _ => .kf
  | .b _ => .kb

/-- Total byte length of a cell list (`len(vertex_buffer)` in bytes). -/
def cellsBytes (l : List VCell) : ℕ := (l.map VCell.width).sum

/-- `struct.calcsize` of a format, the format being a list of cell kinds. -/
def fmtSize (fmt : List CellKind) : ℕ := (fmt.map CellKind.width).sum

/-- D3D vertex declaration element types (`class D3DDECLTYPE`). -/
inductive D3DDECLTYPE where
  | float1 | float2 | float3 | float4 | d3dcolor
  | ubyte4 | short2 | short4 | ubyte4n | short2n | short4n
  | ushort2n | ushort4n | udec3 | dec3n | float16x2 | float16x4
  | unusedT
deriving DecidableEq, Repr

namespace D3DDECLTYPE

/-- Integer code of each declaration type (the enum values 0–17). -/
def code : D3DDECLTYPE → ℕ
  | .float1 => 0 | .float2 => 1 | .float3 => 2 | .float4 => 3
  | .d3dcolor => 4 | .ubyte4 => 5 | .short2 => 6 | .short4 => 7
  | .ubyte4n => 8 | .short2n => 9 | .short4n => 10 | .ushort2n => 11
  | .ushort4n => 12 | .udec3 => 13 | .dec3n => 14 | .float16x2 => 15
  | .float16x4 => 16 | .unusedT => 17

/-- Conversion of a file word to a declaration type; `none` models the
`ValueError` of `D3DDECLTYPE(value)` on an unknown code. -/
def ofCode : ℕ → Option D3DDECLTYPE
  | 0 => some .float1 | 1 => some .float2 | 2 => some .float3
  | 3 => some .float4 | 4 => some .d3dcolor | 5 => some .ubyte4
  | 6 => some .short2 | 7 => some .short4 | 8 => some .ubyte4n
  | 9 => some .short2n | 10 => some .short4n | 11 => some .ushort2n
  | 12 => some .ushort4n | 13 => some .udec3 | 14 => some .dec3n
  | 15 => some .float16x2 | 16 => some .float16x4 | 17 => some .unusedT
  | _ => none

/-- `get_struct_fmt`: the `struct` format of the supported declaration types;
`none` models the `KeyError` on every other type (the fatal
`UnsupportedVertexFormat` of the spec). -/
def getStructFmt : D3DDECLTYPE → Option (List CellKind)
  | .float1 => some [.kf]
  | .float2 => some [.kf, .kf]
  | .float3 => some [.kf, .kf, .kf]
  | .float4 => some [.kf, .kf, .kf, .kf]
  | .d3dcolor => some [.kb, .kb, .kb, .kb]
  | .unusedT => some []
  | _ => none

end D3DDECLTYPE

/-- D3D vertex declaration semantic usages (`class D3DDECLUSAGE`),
including the BF2 custom texcoord channels. -/
inductive D3DDECLUSAGE where
  | position | blendweight | blendindices | normal | psize
  | texcoord0 | tangent | binormal | tessfactor | positiont
  | color | fog | depth | sample
  | texcoord1 | texcoord2 | texcoord3 | texcoord4
deriving DecidableEq, Repr

namespace D3DDECLUSAGE

/-- Integer code of each usage (enum values, texcoordN = N <<< 8 ||| 5). -/
def code : D3DDECLUSAGE → ℕ
  | .position => 0 | .blendweight => 1 | .blendindices => 2
  | .normal => 3 | .psize => 4 | .texcoord0 => 5 | .tangent => 6
  | .binormal => 7 | .tessfactor => 8 | .positiont => 9
  | .color => 10 | .fog => 11 | .depth => 12 | .sample => 13
  | .texcoord1 => 261 | .texcoord2 => 517 | .texcoord3 => 773
  | .texcoord4 => 1029

/-- Conversion of a file word to a usage; `none` models the `ValueError`
of `D3DDECLUSAGE(value)` on an unknown code. -/
def ofCode : ℕ → Option D3DDECLUSAGE
  | 0 => some .position | 1 => some .blendweight | 2 => some .blendindices
  | 3 => some .normal | 4 => some .psize | 5 => some .texcoord0
  | 6 => some .tangent | 7 => some .binormal | 8 => some .tessfactor
  | 9 => some .positiont | 10 => some .color | 11 => some .fog
  | 12 => some .depth | 13 => some .sample
  | 261 => some .texcoord1 | 517 => some .texcoord2
  | 773 => some .texcoord3 | 1029 => some .texcoord4
  | _ => none

end D3DDECLUSAGE

/-- A vertex: optional typed values for the fixed semantic channels
(`class Vertex`; every field starts as `None`). -/
structure Vertex where
  position : Option (List VCell) := none
  blendweight : Option (List VCell) := none
  blendindices : Option (List VCell) := none
  normal : Option (List VCell) := none
  psize : Option (List VCell) := none
  texcoord0 : Option (List VCell) := none
  texcoord1 : Option (List VCell) := none
  texcoord2 : Option (List VCell) := none
  texcoord3 : Option (List VCell) := none
  texcoord4 : Option (List VCell) := none
  tangent : Option (List VCell) := none
  binormal : Option (List VCell) := none
  tessfactor : Option (List VCell) := none
  positiont : Option (List VCell) := none
  color : Option (List VCell) := none
  fog : Option (List VCell) := none
  depth : Option (List VCell) := none
  sample : Option (List VCell) := none
deriving DecidableEq, Repr

namespace Vertex

/-- `getattr(vertex, usage.name.lower())`. -/
def get (u : D3DDECLUSAGE) (v : Vertex) : Option (List VCell) :=
  match u with
  | .position => v.position | .blendweight => v.blendweight
  | .blendindices => v.blendindices | .normal => v.normal
  | .psize => v.psize | .texcoord0 => v.texcoord0
  | .texcoord1 => v.texcoord1 | .texcoord2 => v.texcoord2
  | .texcoord3 => v.texcoord3 | .texcoord4 => v.texcoord4
  | .tangent => v.tangent | .binormal => v.binormal
  | .tessfactor => v.tessfactor | .positiont => v.positiont
  | .color => v.color | .fog => v.fog | .depth => v.depth
  | .sample => v.sample

/-- `setattr(vertex, usage.name.lower(), value)`. -/
def set (u : D3DDECLUSAGE) (x : List VCell) (v : Vertex) : Vertex :=
  match u with
  | .position => { v with position := some x }
  | .blendweight => { v with blendweight := some x }
  | .blendindices => { v with blendindices := some x }
  | .normal => { v with normal := some x }
  | .psize => { v with psize := some x }
  | .texcoord0 => { v with texcoord0 := some x }
  | .texcoord1 => { v with texcoord1 := some x }
  | .texcoord2 => { v with texcoord2 := some x }
  | .texcoord3 => { v with texcoord3 := some x }
  | .texcoord4 => { v with texcoord4 := some x }
  | .tangent => { v with tangent := some x }
  | .binormal => { v with binormal := some x }
  | .tessfactor => { v with tessfactor := some x }
  | .positiont => { v with positiont := some x }
  | .color => { v with color := some x }
  | .fog => { v with fog := some x }
  | .depth => { v with depth := some x }
  | .sample => { v with sample := some x }

end Vertex

/-- A Python float that is either a finite value (a rational in this model)
or `float("inf")`, the sentinel used when initialising Lod bounds. -/
inductive FlQ where
  | q (x : ℚ)
  | inf
deriving DecidableEq, Repr

/-- `a < b` for a finite float `a` and a possibly-infinite float `b`
(every finite value is below `inf`). -/
def FlQ.ltQ (a : ℚ) : FlQ → Bool
  | .q y => a < y
  | .inf => true

/-- A 3-component vector of finite floats (`Vec3` of `bf2_common`, which is
not among the sources; modelled from the spec as an (x, y, z) triple). -/
structure Vec3 where
  x : ℚ
  y : ℚ
  z : ℚ
deriving DecidableEq, Repr

namespace Vec3

/-- Modelled from the spec: component-wise vector subtraction
(`Vec3.sub` of the missing `bf2_common`). -/
def sub (a b : Vec3) : Vec3 := ⟨a.x - b.x, a.y - b.y, a.z - b.z⟩

/-- Modelled from the spec: component-wise vector addition
(`Vec3.add` of the missing `bf2_common`). -/
def add (a b : Vec3) : Vec3 := ⟨a.x + b.x, a.y + b.y, a.z + b.z⟩

/-- Modelled from the spec: scalar multiplication
(`Vec3.scale` of the missing `bf2_common`). -/
def scale (k : ℚ) (a : Vec3) : Vec3 := ⟨k * a.x, k * a.y, k * a.z⟩

/-- Modelled from the spec: the dot product
(`Vec3.dot_product` of the missing `bf2_common`). -/
def dot (a b : Vec3) : ℚ := a.x * b.x + a.y * b.y + a.z * b.z

/-- Component access `v[i]` for i = 0, 1, 2 (used by `save_parts_rigs`). -/
def comp (a : Vec3) : ℕ → ℚ
  | 0 => a.x
  | 1 => a.y
  | _ => a.z

end Vec3

/-- One token of the modelled binary stream; each `FileUtils` read/write
primitive moves exactly one token. -/
inductive Tok where
  | dword (n : ℕ)
  | word (n : ℕ)
  | byte (n : ℕ)
  | flt (x : FlQ)
  | str (s : String)
  | vraw (cells : List VCell)
deriving DecidableEq, Repr

abbrev Toks := List Tok

@[simp] theorem exceptBind_ok {α β : Type} (a : α) (f : α → Except Err β) :
    (Except.ok a >>= f) = f a := rfl

@[simp] theorem exceptBind_err {α β : Type} (e : Err) (f : α → Except Err β) :
    ((Except.error e : Except Err α) >>= f) = .error e := rfl

@[simp] theorem exceptPure_eq {α : Type} (a : α) :
    (pure a : Except Err α) = .ok a := rfl

/-- Modelled from the spec: `FileUtils.read_dword` (4-byte little-endian
unsigned integer; a wrong-typed or missing field is a truncated read,
i.e. `CorruptFile`). -/
def readDword : Toks → Except Err (ℕ × Toks)
  | .dword n :: r => .ok (n, r)
  | _ => .error .corruptFile

/-- Modelled from the spec: `FileUtils.read_word` (2-byte unsigned integer). -/
def readWord : Toks → Except Err (ℕ × Toks)
  | .word n :: r => .ok (n, r)
  | _ => .error .corruptFile

/-- Modelled from the spec: `FileUtils.read_byte`. -/
def readByte : Toks → Except Err (ℕ × Toks)
  | .byte n :: r => .ok (n, r)
  | _ => .error .corruptFile

/-- Modelled from the spec: one float read of `Vec3.load` (bounds floats may
carry the `inf` sentinel). -/
def readFloat : Toks → Except Err (FlQ × Toks)
  | .flt x :: r => .ok (x, r)
  | _ => .error .corruptFile

/-- Modelled from the spec: `FileUtils.read_string` (dword length prefix
followed by that many bytes). -/
def readString : Toks → Except Err (String × Toks)
  | .str s :: r => .ok (s, r)
  | _ => .error .corruptFile

/-- Modelled from the spec: `FileUtils.read_raw(n)` for the vertex buffer;
a size mismatch is a truncated read (`CorruptFile`). -/
def readRaw (n : ℕ) : Toks → Except Err (List VCell × Toks)
  | .vraw cells :: r => if cellsBytes cells = n then .ok (cells, r) else .error .corruptFile
  | _ => .error .corruptFile

/-- Modelled from the spec: `FileUtils.read_word(count=n)` reading the index
buffer as a list of words. -/
def readWords : ℕ → Toks → Except Err (List ℕ × Toks)
  | 0, ts => .ok ([], ts)
  | n + 1, ts => do
    let (w, ts) ← readWord ts
    let (ws, ts) ← readWords n ts
    .ok (w :: ws, ts)

/-- Modelled from the spec: `load_n_elems` of `bf2_common` — read `n`
consecutive elements with the given element loader. -/
def loadN {α : Type} (p : Toks → Except Err (α × Toks)) :
    ℕ → Toks → Except Err (List α × Toks)
  | 0, ts => .ok ([], ts)
  | n + 1, ts => do
    let (a, ts) ← p ts
    let (l, ts) ← loadN p n ts
    .ok (a :: l, ts)

/-- Modelled from the spec: `FileUtils.write_dword`; a value outside the
4-byte range cannot be packed (`struct.error`). -/
def wDword (n : ℕ) : Except Err Toks :=
  if n < 4294967296 then .ok [.dword n] else .error .structError

/-- Modelled from the spec: `FileUtils.write_word`. -/
def wWord (n : ℕ) : Except Err Toks :=
  if n < 65536 then .ok [.word n] else .error .structError

/-- Modelled from the spec: `FileUtils.write_byte`. -/
def wByte (n : ℕ) : Except Err Toks :=
  if n < 256 then .ok [.byte n] else .error .structError

/-- Modelled from the spec: `FileUtils.write_string`
(dword length prefix plus bytes, as one token). -/
def wString (s : String) : Except Err Toks := .ok [.str s]

/-- Modelled from the spec: one float write of `Vec3.save`. -/
def wFloat (x : FlQ) : Toks := [.flt x]

@[simp] theorem readDword_cons (n : ℕ) (r : Toks) :
    readDword (.dword n :: r) = .ok (n, r) := rfl

@[simp] theorem readWord_cons (n : ℕ) (r : Toks) :
    readWord (.word n :: r) = .ok (n, r) := rfl

@[simp] theorem readByte_cons (n : ℕ) (r : Toks) :
    readByte (.byte n :: r) = .ok (n, r) := rfl

@[simp] theorem readFloat_cons (x : FlQ) (r : Toks) :
    readFloat (.flt x :: r) = .ok (x, r) := rfl

@[simp] theorem readString_cons (s : String) (r : Toks) :
    readString (.str s :: r) = .ok (s, r) := rfl

theorem wDword_lt {n : ℕ} (h : n < 4294967296) : wDword n = .ok [.dword n] := by
  simp [wDword, h]

theorem wWord_lt {n : ℕ} (h : n < 65536) : wWord n = .ok [.word n] := by
  simp [wWord, h]

/-- The alpha transparency modes (`MaterialWithTransparency.AlphaMode`). -/
inductive AlphaMode where
  | amNone
  | amBlend
  | amTest
deriving DecidableEq, Repr

namespace AlphaMode

/-- Integer code of each alpha mode (NONE = 0, ALPHA_BLEND = 1, ALPHA_TEST = 2). -/
def code : AlphaMode → ℕ
  | .amNone => 0
  | .amBlend => 1
  | .amTest => 2

/-- Conversion of a file dword to an alpha mode; `none` models the
`ValueError` of `AlphaMode(value)` on an unknown code. -/
def ofCode : ℕ → Option AlphaMode
  | 0 => some .amNone
  | 1 => some .amBlend
  | 2 => some .amTest
  | _ => none

end AlphaMode

/-- One row of the vertex declaration table (`class VertexAttribute`);
`flag` and `offset` start as `None` and are filled by load or export. -/
structure VAttr where
  flag : Option ℕ := none
  offset : Option ℕ := none
  declType : D3DDECLTYPE
  declUsage : D3DDECLUSAGE
deriving DecidableEq, Repr

/-- The flag word marking a used declaration row (`VertexAttribute.USED`). -/
def vaUSED : ℕ := 0

/-- The flag word marking an unused declaration row (`VertexAttribute.UNUSED`). -/
def vaUNUSED : ℕ := 255

/-- A material (`class Material`, merged with the extra fields of
`MaterialWithTransparency`; a plain-mesh material simply never has its
alpha fields populated). -/
structure Material where
  fxfile : String := ""
  technique : String := ""
  maps : List String := []
  vertices : List Vertex := []
  faces : List (ℕ × ℕ × ℕ) := []
  vstart : Option ℕ := none
  istart : Option ℕ := none
  inum : Option ℕ := none
  vnum : Option ℕ := none
  u4 : Option ℕ := none
  u5 : Option ℕ := none
  minB : Option Vec3 := none
  maxB : Option Vec3 := none
  alphaMode : Option AlphaMode := none
  faceSets : Option (List (List (ℕ × ℕ × ℕ))) := none
  alphaBlendIndexnum : Option ℕ := none
deriving DecidableEq, Repr

/-- A sorting plane (`class Plane`). -/
structure Plane where
  point : Vec3
  normal : Vec3
deriving DecidableEq, Repr

/-- A level of detail (`class Lod`): stored bounds and the material list. -/
structure Lod where
  minB : Option (FlQ × FlQ × FlQ) := none
  maxB : Option (FlQ × FlQ × FlQ) := none
  materials : List Material := []
deriving DecidableEq, Repr

/-- A geom (`class Geom`): its list of Lods. -/
structure Geom where
  lods : List Lod := []
deriving DecidableEq, Repr

/-- The document (`class BF2VisibleMesh`): geoms plus the declaration table.
Whether the mesh kind is transparency-capable (`_GEOM_TYPE._LOD_TYPE
._MATERIAL_TYPE` a subclass of `MaterialWithTransparency`) and the class
version `_VERSION` are passed to load/export as parameters, since the
concrete subclasses live outside this file's sources. -/
structure Doc where
  geoms : List Geom := []
  vertexAttributes : List VAttr := []
deriving DecidableEq, Repr

/-- `ALPHA_BLEND_FACE_SET_COUNT` (same as the 3ds max exporter). -/
def ALPHA_BLEND_FACE_SET_COUNT : ℕ := 8

abbrev Face3 := ℕ × ℕ × ℕ

/-- `struct.pack`/`struct.unpack` compatibility of a value list with a format:
the element counts and kinds must match. -/
def cellsMatchFmt : List CellKind → List VCell → Bool
  | [], [] => true
  | k :: ks, v :: vs => v.kind = k && cellsMatchFmt ks vs
  | _, _ => false

/-- `struct.pack(fmt, *value)`: fails with `struct.error` when the value does
not fit the format. -/
def packCells (fmt : List CellKind) (vals : List VCell) : Except Err (List VCell) :=
  if cellsMatchFmt fmt vals then .ok vals else .error .structError

/-- `struct.unpack(fmt, data)`: fails with `struct.error` on a length
mismatch; reinterpretation of misaligned bytes is not modelled and is also an
error here. -/
def unpackCells (fmt : List CellKind) (cells : List VCell) : Except Err (List VCell) :=
  if cellsMatchFmt fmt cells then .ok cells else .error .structError

/-- Drop `off` leading bytes of a cell buffer (`vertex_buffer[off:]`);
`none` when the buffer is too short or the cut is not on a cell boundary. -/
def dropCells : List VCell → ℕ → Option (List VCell)
  | cs, 0 => some cs
  | [], _ + 1 => none
  | c :: cs, off + 1 =>
    if c.width ≤ off + 1 then dropCells cs (off + 1 - c.width) else none

/-- Take `sz` leading bytes of a cell buffer (`buf[:sz]`). -/
def takeCells : List VCell → ℕ → Option (List VCell)
  | _, 0 => some []
  | [], _ + 1 => none
  | c :: cs, sz + 1 =>
    if c.width ≤ sz + 1 then (takeCells cs (sz + 1 - c.width)).map (c :: ·) else none

/-- `vertex_buffer[off : off + sz]`. -/
def sliceCells (cs : List VCell) (off sz : ℕ) : Option (List VCell) :=
  (dropCells cs off).bind (fun rest => takeCells rest sz)

/-- Decode one declaration row into one vertex channel
(inner loop of `Material.load_vertices`). -/
def decodeAttr (declSize : ℕ) (buf : List VCell) (i : ℕ) (a : VAttr) (v : Vertex) :
    Except Err Vertex :=
  if a.flag = some vaUNUSED then .ok v
  else
    match a.declType.getStructFmt with
    | none => .error .unsupportedVertexFormat
    | some fmt =>
      match a.offset with
      | none => .error .typeError
      | some off =>
        match sliceCells buf (i * declSize + off) (fmtSize fmt) with
        | none => .error .structError
        | some data => do
          let value ← unpackCells fmt data
          .ok (v.set a.declUsage value)

/-- Decode all declaration rows of vertex number `i`
(one iteration of the outer loop of `Material.load_vertices`). -/
def decodeVertexAux (declSize : ℕ) (buf : List VCell) (i : ℕ) :
    List VAttr → Vertex → Except Err Vertex
  | [], v => .ok v
  | a :: rest, v => do
    let v' ← decodeAttr declSize buf i a v
    decodeVertexAux declSize buf i rest v'

/-- Decode the vertices numbered `i, i+1, …, i+n-1` from the shared buffer. -/
def loadVerticesRange (declSize : ℕ) (attrs : List VAttr) (buf : List VCell) :
    ℕ → ℕ → Except Err (List Vertex)
  | _, 0 => .ok []
  | i, n + 1 => do
    let v ← decodeVertexAux declSize buf i attrs {}
    let vs ← loadVerticesRange declSize attrs buf (i + 1) n
    .ok (v :: vs)

/-- `Material.load_vertices`. -/
def Material.loadVertices (declSize : ℕ) (attrs : List VAttr) (buf : List VCell)
    (mat : Material) : Except Err Material :=
  match mat.vstart, mat.vnum with
  | some vs, some vn => do
    let verts ← loadVerticesRange declSize attrs buf vs vn
    .ok { mat with vertices := verts }
  | _, _ => .error .typeError

/-- Encode one vertex against the declaration table
(inner loop of `Material.save_vertices`). -/
def encodeVertex (attrs : List VAttr) (v : Vertex) : Except Err (List VCell) :=
  match attrs with
  | [] => .ok []
  | a :: rest =>
    if a.flag = some vaUNUSED then encodeVertex rest v
    else
      match a.declType.getStructFmt with
      | none => .error .unsupportedVertexFormat
      | some fmt =>
        match v.get a.declUsage with
        | none => .error .missingVertexAttribute
        | some value => do
          let packed ← packCells fmt value
          let tail ← encodeVertex rest v
          .ok (packed ++ tail)

/-- Encode a vertex list into consecutive buffer records. -/
def encodeVertices (attrs : List VAttr) : List Vertex → Except Err (List VCell)
  | [] => .ok []
  | v :: vs => do
    let c ← encodeVertex attrs v
    let cs ← encodeVertices attrs vs
    .ok (c ++ cs)

/-- `Material.save_vertices`: records the material's vertex range and returns
the cells appended to the shared vertex buffer. -/
def Material.saveVertices (attrs : List VAttr) (vstart : ℕ) (mat : Material) :
    Except Err (Material × List VCell) := do
  let cells ← encodeVertices attrs mat.vertices
  .ok ({ mat with vstart := some vstart, vnum := some mat.vertices.length }, cells)

/-- `index_buffer[i]`; an out-of-range access is a fatal IndexError. -/
def ibGet (ib : List ℕ) (i : ℕ) : Except Err ℕ :=
  match ib.get? i with
  | some v => .ok v
  | none => .error .corruptFile

/-- Read consecutive index triples starting at `i`
(`range(istart, istart + inum, 3)` runs `⌈inum/3⌉` times). -/
def readFaceTriples (ib : List ℕ) : ℕ → ℕ → Except Err (List Face3)
  | _, 0 => .ok []
  | i, steps + 1 => do
    let a ← ibGet ib i
    let b ← ibGet ib (i + 1)
    let c ← ibGet ib (i + 2)
    let rest ← readFaceTriples ib (i + 3) steps
    .ok ((a, b, c) :: rest)

/-- `Material.load_faces` (the plain, single-ordering path). -/
def Material.loadFacesPlain (ib : List ℕ) (mat : Material) : Except Err Material :=
  match mat.istart, mat.inum with
  | some is, some n => do
    let fs ← readFaceTriples ib is ((n + 2) / 3)
    .ok { mat with faces := fs }
  | _, _ => .error .typeError

/-- `Material.save_faces` (plain path): records the material's index range and
returns the indices appended to the shared index buffer plus `_inum`. -/
def Material.saveFacesPlain (istart : ℕ) (mat : Material) : Material × List ℕ × ℕ :=
  let n := mat.faces.length * 3
  ({ mat with inum := some n, istart := some istart },
   (mat.faces.map (fun f => [f.1, f.2.1, f.2.2])).flatten, n)

/-- A position channel as a `Vec3` (`Vec3(*vertex.position)`); anything but
three floats is a TypeError. -/
def posToVec3 : Option (List VCell) → Except Err Vec3
  | some [.f a, .f b, .f c] => .ok ⟨a, b, c⟩
  | _ => .error .typeError

/-- The position vectors of a vertex list. -/
def positionsOf : List Vertex → Except Err (List Vec3)
  | [] => .ok []
  | v :: vs => do
    let p ← posToVec3 v.position
    let ps ← positionsOf vs
    .ok (p :: ps)

/-- Component-wise minimum. -/
def vmin (a b : Vec3) : Vec3 := ⟨min a.x b.x, min a.y b.y, min a.z b.z⟩

/-- Component-wise maximum. -/
def vmax (a b : Vec3) : Vec3 := ⟨max a.x b.x, max a.y b.y, max a.z b.z⟩

/-- Modelled from the spec: `calc_bounds` of the missing `bf2_common` —
the axis-aligned bounding box (component-wise min and max) of a non-empty
point list. -/
def calcBoundsVecs (p0 : Vec3) (ps : List Vec3) : Vec3 × Vec3 :=
  (ps.foldl vmin p0, ps.foldl vmax p0)

/-- `Material.calc_bounds`: fails on an empty vertex list, otherwise stores
and returns the bounds of the vertex positions. -/
def Material.calcBounds (mat : Material) : Except Err (Vec3 × Vec3 × Material) :=
  match mat.vertices with
  | [] => .error .emptyMaterialBounds
  | v0 :: vs => do
    let p0 ← posToVec3 v0.position
    let ps ← positionsOf vs
    let (mn, mx) := calcBoundsVecs p0 ps
    .ok (mn, mx, { mat with minB := some mn, maxB := some mx })

/-- Stable insertion into a sorted list: the new element goes in front of the
first element it is `le`-below-or-equal to. -/
def pyInsert {α : Type} (le : α → α → Bool) (x : α) : List α → List α
  | [] => [x]
  | y :: ys => if le x y then x :: y :: ys else y :: pyInsert le x ys

/-- Python's `sorted`: a stable sort.  For the total orders used by the codec
every stable sort computes the same list, so it is modelled by stable
insertion sort. -/
def pySorted {α : Type} (le : α → α → Bool) : List α → List α
  | [] => []
  | x :: xs => pyInsert le x (pySorted le xs)

/-- Python `<` on an index triple (tuple comparison is lexicographic). -/
def faceLt (f g : Face3) : Bool :=
  f.1 < g.1 || (f.1 = g.1 && (f.2.1 < g.2.1 || (f.2.1 = g.2.1 && f.2.2 < g.2.2)))

/-- Python `≤` on the pairs `(distance, face)` compared by `sorted`:
lexicographic on the distance, then on the face triple. -/
def pairLe (a b : ℚ × Face3) : Bool :=
  decide (a.1 < b.1) || (a.1 = b.1 && (faceLt a.2 b.2 || a.2 = b.2))

/-- `self.vertices[v]` followed by `Vec3(*vertex.position)`. -/
def vertPos (verts : List Vertex) (i : ℕ) : Except Err Vec3 :=
  match verts.get? i with
  | some v => posToVec3 v.position
  | none => .error .corruptFile

/-- The centroid of one face: the three vertex positions added onto `Vec3()`
and scaled by `1/3` (`_save_faces_alpha_blend`, first loop). -/
def faceCentroid (verts : List Vertex) (f : Face3) : Except Err Vec3 := do
  let p1 ← vertPos verts f.1
  let p2 ← vertPos verts f.2.1
  let p3 ← vertPos verts f.2.2
  .ok (Vec3.scale (1 / 3) (((Vec3.mk 0 0 0).add p1).add p2 |>.add p3))

/-- `face_mid_points`: the centroid of every face. -/
def faceMids (verts : List Vertex) : List Face3 → Except Err (List Vec3)
  | [] => .ok []
  | f :: fs => do
    let c ← faceCentroid verts f
    let cs ← faceMids verts fs
    .ok (c :: cs)

/-- The sort key of one face for one plane: the absolute dot product of
(centroid − plane point) with the plane normal. -/
def sortKey (pl : Plane) (c : Vec3) : ℚ := |Vec3.dot (c.sub pl.point) pl.normal|

/-- The indices appended for one sorting plane: the faces zipped with their
distances, sorted by Python tuple comparison, then flattened
(`for _, face in sorted(zip(face_dist_to_plane, self.faces))`). -/
def planeBlock (pl : Plane) (mids : List Vec3) (faces : List Face3) : List ℕ :=
  ((pySorted pairLe ((mids.map (sortKey pl)).zip faces)).map
    (fun p => [p.2.1, p.2.2.1, p.2.2.2])).flatten

/-- The geometric primitives of `_get_sorting_planes` that live in the missing
`bf2_common` module, abstracted as parameters.  Modelled from the spec:
`dist0 v` is the distance from the origin to `v` (needs a square root), and
`rotNormal i` is the vector `(0, 0, -1)` rotated around the up axis by
`360/(2·8) + i·(360/8)` degrees (needs sine/cosine).  No verified claim
depends on the numeric values of either. -/
structure GeoParams where
  dist0 : Vec3 → ℚ
  rotNormal : ℕ → Vec3

/-- `MaterialWithTransparency._get_sorting_planes`: 8 planes whose normals are
the rotated `(0,0,-1)` and whose points are the normals scaled by the bound
radius. -/
def Material.getSortingPlanes (gp : GeoParams) (mat : Material) :
    Except Err (List Plane × Material) := do
  let (mn, mx, mat') ← mat.calcBounds
  let maxRadius := max (gp.dist0 mx) (gp.dist0 mn)
  .ok ((List.range ALPHA_BLEND_FACE_SET_COUNT).map (fun i =>
    let n := gp.rotNormal i
    { point := Vec3.scale maxRadius n, normal := n }), mat')

/-- `MaterialWithTransparency._save_faces_alpha_blend`: for every sorting
plane, append one full sorted ordering of the faces; returns the updated
material, the appended indices and the Python return value
`_inum * len(sorting_planes)`. -/
def Material.saveFacesAlphaBlend (gp : GeoParams) (istart : ℕ) (mat : Material) :
    Except Err (Material × List ℕ × ℕ) := do
  let (planes, mat') ← mat.getSortingPlanes gp
  let n := mat.faces.length * 3
  let mids ← faceMids mat.vertices mat.faces
  let out := (planes.map (fun pl => planeBlock pl mids mat.faces)).flatten
  .ok ({ mat' with inum := some n, istart := some istart }, out, n * planes.length)

/-- `MaterialWithTransparency.save_faces` (with the plain `Material.save_faces`
for non-transparency mesh kinds): ALPHA_BLEND materials take the sorted
multi-ordering path, everything else the plain path. -/
def Material.saveFacesDispatch (transp : Bool) (gp : GeoParams) (istart : ℕ)
    (mat : Material) : Except Err (Material × List ℕ × ℕ) :=
  if transp ∧ mat.alphaMode = some .amBlend then mat.saveFacesAlphaBlend gp istart
  else .ok (mat.saveFacesPlain istart)

/-- Slice the `i`-th, `(i+1)`-th, … face set out of the shared index buffer
(`MaterialWithTransparency.load_faces`, ALPHA_BLEND branch). -/
def loadFaceSets (ib : List ℕ) (istart n : ℕ) : ℕ → ℕ → Except Err (List (List Face3))
  | _, 0 => .ok []
  | i, c + 1 => do
    let s ← readFaceTriples ib (istart + i * n) ((n + 2) / 3)
    let rest ← loadFaceSets ib istart n (i + 1) c
    .ok (s :: rest)

/-- `MaterialWithTransparency.load_faces`, ALPHA_BLEND branch: read
`_alpha_blend_indexnum` face sets; the first becomes the active face list. -/
def Material.loadFacesAlphaBlend (ib : List ℕ) (mat : Material) : Except Err Material :=
  match mat.istart, mat.inum, mat.alphaBlendIndexnum with
  | some is, some n, some abn => do
    let sets ← loadFaceSets ib is n 0 abn
    match sets with
    | [] => .error .corruptFile
    | s0 :: _ => .ok { mat with faceSets := some sets, faces := s0 }
  | _, _, _ => .error .typeError

/-- `load_faces` dispatch: ALPHA_BLEND materials of transparency-capable
meshes load all face sets, everything else the plain triple list. -/
def Material.loadFacesDispatch (transp : Bool) (ib : List ℕ) (mat : Material) :
    Except Err Material :=
  if transp ∧ mat.alphaMode = some .amBlend then mat.loadFacesAlphaBlend ib
  else mat.loadFacesPlain ib

/-- `self._min[i] = mat_min[i] if mat_min[i] < self._min[i]` for one
component of the Lod minimum (accumulator starts at `inf`). -/
def updMin (cur : FlQ) (v : ℚ) : FlQ := if FlQ.ltQ v cur then .q v else cur

/-- `self._max[i] = mat_max[i] if mat_max[i] > self._max[i]` for one
component of the Lod maximum (accumulator starts at `0.0`). -/
def updMax (cur v : ℚ) : ℚ := if cur < v then v else cur

/-- The material loop of `Lod.save_parts_rigs`: widen the accumulated bounds
by each material's freshly computed bounds. -/
def savePartsRigsGo : List Material → (FlQ × FlQ × FlQ) → (ℚ × ℚ × ℚ) →
    Except Err (List Material × (FlQ × FlQ × FlQ) × (ℚ × ℚ × ℚ))
  | [], mn, mx => .ok ([], mn, mx)
  | m :: ms, mn, mx => do
    let (bmin, bmax, m') ← m.calcBounds
    let mn' := (updMin mn.1 bmin.x, updMin mn.2.1 bmin.y, updMin mn.2.2 bmin.z)
    let mx' := (updMax mx.1 bmax.x, updMax mx.2.1 bmax.y, updMax mx.2.2 bmax.z)
    let (ms', mnf, mxf) ← savePartsRigsGo ms mn' mx'
    .ok (m' :: ms', mnf, mxf)

/-- `Lod.save_parts_rigs`: recompute the bounds from the materials (min
initialised to `(inf, inf, inf)`, max to `(0, 0, 0)`) and write exactly the
min and max corners as floats.  Note the saver takes no version and never
writes the legacy extra vector. -/
def Lod.savePartsRigs (lod : Lod) : Except Err (Lod × Toks) := do
  let (ms', mn, mx) ← savePartsRigsGo lod.materials (.inf, .inf, .inf) (0, 0, 0)
  let mxF : FlQ × FlQ × FlQ := (.q mx.1, .q mx.2.1, .q mx.2.2)
  .ok ({ lod with materials := ms', minB := some mn, maxB := some mxF },
    [.flt mn.1, .flt mn.2.1, .flt mn.2.2, .flt mxF.1, .flt mxF.2.1, .flt mxF.2.2])

/-- Read one 3-float vector (`Vec3.load`). -/
def readVec3F (ts : Toks) : Except Err ((FlQ × FlQ × FlQ) × Toks) := do
  let (a, ts) ← readFloat ts
  let (b, ts) ← readFloat ts
  let (c, ts) ← readFloat ts
  .ok ((a, b, c), ts)

/-- `Lod.load_parts_rigs`: read min and max corners; for format versions ≤ 6
additionally read and discard one legacy vector. -/
def Lod.loadPartsRigs (version : ℕ) (lod : Lod) (ts : Toks) : Except Err (Lod × Toks) := do
  let (mn, ts) ← readVec3F ts
  let (mx, ts) ← readVec3F ts
  if version ≤ 6 then do
    let (_, ts) ← readVec3F ts
    .ok ({ lod with minB := some mn, maxB := some mx }, ts)
  else
    .ok ({ lod with minB := some mn, maxB := some mx }, ts)

/-- `write_dword` of an offset/count field that Python would hold as `None`
until assigned (`TypeError` if still unassigned). -/
def optDword : Option ℕ → Except Err Toks
  | some n => wDword n
  | none => .error .typeError

/-- `write_word` of a flag/offset field that may still be `None`. -/
def optWord : Option ℕ → Except Err Toks
  | some n => wWord n
  | none => .error .typeError

/-- `Material.load` (the part shared by both material classes). -/
def Material.loadCommon (ts : Toks) : Except Err (Material × Toks) := do
  let (fx, ts) ← readString ts
  let (tech, ts) ← readString ts
  let (mc, ts) ← readDword ts
  let (mps, ts) ← loadN readString mc ts
  let (vs, ts) ← readDword ts
  let (is, ts) ← readDword ts
  let (n, ts) ← readDword ts
  let (vn, ts) ← readDword ts
  let (u4, ts) ← readDword ts
  let (u5, ts) ← readDword ts
  .ok ({ fxfile := fx, technique := tech, maps := mps, vstart := some vs,
         istart := some is, inum := some n, vnum := some vn,
         u4 := some u4, u5 := some u5 }, ts)

/-- `Material.load` / `MaterialWithTransparency.load`: the transparency
subclass first reads the alpha-mode dword and remembers the document's
alpha-blend face-set count. -/
def Material.loadRow (transp : Bool) (abn : Option ℕ) (ts : Toks) :
    Except Err (Material × Toks) :=
  if transp then do
    let (amc, ts) ← readDword ts
    match AlphaMode.ofCode amc with
    | none => .error .unknownEnumValue
    | some mode => do
      let (m, ts) ← Material.loadCommon ts
      .ok ({ m with alphaMode := some mode, alphaBlendIndexnum := abn }, ts)
  else Material.loadCommon ts

/-- `Material.save` (the part shared by both classes): strings, map list,
the ranges assigned during buffer saving, and two literal zero dwords in
place of the loaded reserved values. -/
def Material.saveCommon (mat : Material) : Except Err Toks := do
  let t1 ← wString mat.fxfile
  let t2 ← wString mat.technique
  let t3 ← wDword mat.maps.length
  let t4 := mat.maps.map Tok.str
  let t5 ← optDword mat.vstart
  let t6 ← optDword mat.istart
  let t7 ← optDword mat.inum
  let t8 ← optDword mat.vnum
  let t9 ← wDword 0
  let t10 ← wDword 0
  .ok (t1 ++ t2 ++ t3 ++ t4 ++ t5 ++ t6 ++ t7 ++ t8 ++ t9 ++ t10)

/-- `Material.save` / `MaterialWithTransparency.save`: the transparency
subclass first writes the alpha-mode dword. -/
def Material.saveRow (transp : Bool) (mat : Material) : Except Err Toks :=
  if transp then do
    let am ← match mat.alphaMode with
      | some m => wDword m.code
      | none => .error .typeError
    let rest ← mat.saveCommon
    .ok (am ++ rest)
  else mat.saveCommon

/-- `VertexAttribute.load`: flag word, offset word, and the two enum words
(an unknown enum code is a fatal ValueError). -/
def VAttr.loadRow (ts : Toks) : Except Err (VAttr × Toks) := do
  let (fl, ts) ← readWord ts
  let (off, ts) ← readWord ts
  let (dt, ts) ← readWord ts
  let (du, ts) ← readWord ts
  match D3DDECLTYPE.ofCode dt with
  | none => .error .unknownEnumValue
  | some t =>
    match D3DDECLUSAGE.ofCode du with
    | none => .error .unknownEnumValue
    | some u => .ok ({ flag := some fl, offset := some off, declType := t, declUsage := u }, ts)

/-- `VertexAttribute.save`. -/
def VAttr.saveRow (a : VAttr) : Except Err Toks := do
  let w1 ← optWord a.flag
  let w2 ← optWord a.offset
  let w3 ← wWord a.declType.code
  let w4 ← wWord a.declUsage.code
  .ok (w1 ++ w2 ++ w3 ++ w4)

/-- `MeshHeader.load`: reserved dword, version, three reserved dwords, one
reserved byte; only the version is kept. -/
def MeshHeader.load (ts : Toks) : Except Err (ℕ × Toks) := do
  let (_, ts) ← readDword ts
  let (v, ts) ← readDword ts
  let (_, ts) ← readDword ts
  let (_, ts) ← readDword ts
  let (_, ts) ← readDword ts
  let (_, ts) ← readByte ts
  .ok (v, ts)

/-- `MeshHeader.save`. -/
def MeshHeader.save (version : ℕ) : Except Err Toks := do
  let a ← wDword 0
  let b ← wDword version
  let c ← wDword 0
  let d ← wDword 0
  let e ← wDword 0
  let g ← wByte 0
  .ok (a ++ b ++ c ++ d ++ e ++ g)

/-- `Geom.load`: the lod count; each `Lod.load` reads nothing and yields an
empty Lod. -/
def Geom.loadSkel (ts : Toks) : Except Err (Geom × Toks) := do
  let (n, ts) ← readDword ts
  .ok ({ lods := List.replicate n {} }, ts)

/-- `Geom.save`: the lod count (`Lod.save` writes nothing). -/
def Geom.saveSkel (g : Geom) : Except Err Toks := wDword g.lods.length

/-- The geom-count loop of the export geometry skeleton. -/
def geomSkels : List Geom → Except Err Toks
  | [] => .ok []
  | g :: gs => do
    let t ← g.saveSkel
    let ts ← geomSkels gs
    .ok (t ++ ts)

/-- The declaration rows written by export: unused-flagged in-memory rows are
skipped; a retained row is written marked used with the accumulated byte
offset, and the accumulator grows by the row's `struct.calcsize`. -/
def declRows (acc : ℕ) : List VAttr → Except Err (Toks × ℕ)
  | [] => .ok ([], acc)
  | a :: rest =>
    if a.flag = some vaUNUSED then declRows acc rest
    else do
      let row ← VAttr.saveRow { a with offset := some acc, flag := some vaUSED }
      match a.declType.getStructFmt with
      | none => .error .unsupportedVertexFormat
      | some fmt => do
        let (rows, sz) ← declRows (acc + fmtSize fmt) rest
        .ok (row ++ rows, sz)

/-- The trailing dummy attribute written by export:
`VertexAttribute(D3DDECLTYPE.UNUSED, 0)` with offset 0, flagged unused. -/
def sentinelRow : Toks := [.word vaUNUSED, .word 0, .word 17, .word 0]

/-- The declaration-table section of export: a count of `N + 1`, the retained
rows, and the unused sentinel; also yields the vertex record byte size. -/
def exportDecl (attrs : List VAttr) : Except Err (Toks × ℕ) := do
  let cnt ← wDword (attrs.length + 1)
  let (rows, declSize) ← declRows 0 attrs
  .ok (cnt ++ rows ++ sentinelRow, declSize)

/-- `write_word(index_buffer)`: every index as one word. -/
def wWords : List ℕ → Except Err Toks
  | [] => .ok []
  | n :: ns => do
    let t ← wWord n
    let ts ← wWords ns
    .ok (t ++ ts)

/-- The material loop of export's buffer phase: each material appends its
vertex cells and face indices, advancing the shared `vstart`/`istart`
counters; also tracks whether any ALPHA_BLEND material was seen. -/
def saveMatBuffers (transp : Bool) (gp : GeoParams) (attrs : List VAttr) :
    List Material → ℕ → ℕ →
    Except Err (List Material × List VCell × List ℕ × ℕ × ℕ × Bool)
  | [], vstart, istart => .ok ([], [], [], vstart, istart, false)
  | m :: ms, vstart, istart => do
    let isAB := transp && m.alphaMode = some .amBlend
    let (m1, cells) ← m.saveVertices attrs vstart
    let (m2, idxs, ret) ← Material.saveFacesDispatch transp gp istart m1
    let (ms', cs, ix, vEnd, iEnd, hab) ←
      saveMatBuffers transp gp attrs ms (vstart + m.vertices.length) (istart + ret)
    .ok (m2 :: ms', cells ++ cs, idxs ++ ix, vEnd, iEnd, isAB || hab)

/-- The lod loop of export's buffer phase. -/
def saveLodBuffers (transp : Bool) (gp : GeoParams) (attrs : List VAttr) :
    List Lod → ℕ → ℕ →
    Except Err (List Lod × List VCell × List ℕ × ℕ × ℕ × Bool)
  | [], vstart, istart => .ok ([], [], [], vstart, istart, false)
  | l :: ls, vstart, istart => do
    let (ms', cells, ix, vs1, is1, h1) ← saveMatBuffers transp gp attrs l.materials vstart istart
    let (ls', cells2, ix2, vs2, is2, h2) ← saveLodBuffers transp gp attrs ls vs1 is1
    .ok ({ l with materials := ms' } :: ls', cells ++ cells2, ix ++ ix2, vs2, is2, h1 || h2)

/-- The geom loop of export's buffer phase. -/
def saveGeomBuffers (transp : Bool) (gp : GeoParams) (attrs : List VAttr) :
    List Geom → ℕ → ℕ →
    Except Err (List Geom × List VCell × List ℕ × ℕ × ℕ × Bool)
  | [], vstart, istart => .ok ([], [], [], vstart, istart, false)
  | g :: gs, vstart, istart => do
    let (ls', cells, ix, vs1, is1, h1) ← saveLodBuffers transp gp attrs g.lods vstart istart
    let (gs', cells2, ix2, vs2, is2, h2) ← saveGeomBuffers transp gp attrs gs vs1 is1
    .ok ({ lods := ls' } :: gs', cells ++ cells2, ix ++ ix2, vs2, is2, h1 || h2)

/-- The per-lod bounds loop of export (`lod.save_parts_rigs` per geom per lod). -/
def saveBoundsLods : List Lod → Except Err (List Lod × Toks)
  | [] => .ok ([], [])
  | l :: ls => do
    let (l', t1) ← l.savePartsRigs
    let (ls', t2) ← saveBoundsLods ls
    .ok (l' :: ls', t1 ++ t2)

/-- The per-geom bounds loop of export. -/
def saveBoundsGeoms : List Geom → Except Err (List Geom × Toks)
  | [] => .ok ([], [])
  | g :: gs => do
    let (ls', t1) ← saveBoundsLods g.lods
    let (gs', t2) ← saveBoundsGeoms gs
    .ok ({ lods := ls' } :: gs', t1 ++ t2)

/-- The material rows of one lod's table. -/
def matRows (transp : Bool) : List Material → Except Err Toks
  | [] => .ok []
  | m :: ms => do
    let t ← m.saveRow transp
    let ts ← matRows transp ms
    .ok (t ++ ts)

/-- `Lod.save_materials`: the material count followed by each material row. -/
def Lod.saveMaterials (transp : Bool) (l : Lod) : Except Err Toks := do
  let c ← wDword l.materials.length
  let rows ← matRows transp l.materials
  .ok (c ++ rows)

/-- The per-lod material-table loop of export. -/
def saveMatTablesLods (transp : Bool) : List Lod → Except Err Toks
  | [] => .ok []
  | l :: ls => do
    let t ← l.saveMaterials transp
    let ts ← saveMatTablesLods transp ls
    .ok (t ++ ts)

/-- The per-geom material-table loop of export. -/
def saveMatTablesGeoms (transp : Bool) : List Geom → Except Err Toks
  | [] => .ok []
  | g :: gs => do
    let t ← saveMatTablesLods transp g.lods
    let ts ← saveMatTablesGeoms transp gs
    .ok (t ++ ts)

/-- `BF2VisibleMesh.export`: header, geometry skeleton, declaration table,
primitive type, record size, shared buffers, optional alpha-blend face-set
count, per-lod bounds and per-lod material tables. -/
def bf2Export (gp : GeoParams) (version : ℕ) (transp : Bool) (d : Doc) :
    Except Err Toks := do
  let hdr ← MeshHeader.save version
  let gc ← wDword d.geoms.length
  let skel ← geomSkels d.geoms
  let (decl, declSize) ← exportDecl d.vertexAttributes
  let prim ← wDword 4
  let dsz ← wDword declSize
  let (geoms1, cells, idxs, _, _, hab) ← saveGeomBuffers transp gp d.vertexAttributes d.geoms 0 0
  let vcnt ← if declSize = 0 then .error .zeroDivision else wDword (cellsBytes cells / declSize)
  let icnt ← wDword idxs.length
  let iToks ← wWords idxs
  let abTok ← if transp then
      (if hab then wDword ALPHA_BLEND_FACE_SET_COUNT else wDword 0)
    else .ok []
  let (geoms2, bounds) ← saveBoundsGeoms geoms1
  let mats ← saveMatTablesGeoms transp geoms2
  .ok (hdr ++ gc ++ skel ++ decl ++ prim ++ dsz ++ vcnt ++ [.vraw cells] ++
       icnt ++ iToks ++ abTok ++ bounds ++ mats)

/-- The per-lod bounds loop of load. -/
def loadBoundsLods (version : ℕ) : List Lod → Toks → Except Err (List Lod × Toks)
  | [], ts => .ok ([], ts)
  | l :: ls, ts => do
    let (l', ts) ← l.loadPartsRigs version ts
    let (ls', ts) ← loadBoundsLods version ls ts
    .ok (l' :: ls', ts)

/-- The per-geom bounds loop of load. -/
def loadBoundsGeoms (version : ℕ) : List Geom → Toks → Except Err (List Geom × Toks)
  | [], ts => .ok ([], ts)
  | g :: gs, ts => do
    let (ls', ts) ← loadBoundsLods version g.lods ts
    let (gs', ts) ← loadBoundsGeoms version gs ts
    .ok ({ lods := ls' } :: gs', ts)

/-- Decode each loaded material's vertices and faces from the shared buffers,
in table order. -/
def enrichMats (transp : Bool) (declSize : ℕ) (attrs : List VAttr)
    (vbuf : List VCell) (ib : List ℕ) : List Material → Except Err (List Material)
  | [] => .ok []
  | m :: ms => do
    let m1 ← m.loadVertices declSize attrs vbuf
    let m2 ← m1.loadFacesDispatch transp ib
    let rest ← enrichMats transp declSize attrs vbuf ib ms
    .ok (m2 :: rest)

/-- `Lod.load_materials` followed by the per-material vertex/face decode. -/
def Lod.loadMaterials (transp : Bool) (declSize : ℕ) (attrs : List VAttr)
    (vbuf : List VCell) (ib : List ℕ) (abn : Option ℕ) (l : Lod) (ts : Toks) :
    Except Err (Lod × Toks) := do
  let (mc, ts) ← readDword ts
  let (mats, ts) ← loadN (Material.loadRow transp abn) mc ts
  let mats' ← enrichMats transp declSize attrs vbuf ib mats
  .ok ({ l with materials := mats' }, ts)

/-- The per-lod material-table loop of load. -/
def loadMatsLods (transp : Bool) (declSize : ℕ) (attrs : List VAttr)
    (vbuf : List VCell) (ib : List ℕ) (abn : Option ℕ) :
    List Lod → Toks → Except Err (List Lod × Toks)
  | [], ts => .ok ([], ts)
  | l :: ls, ts => do
    let (l', ts) ← l.loadMaterials transp declSize attrs vbuf ib abn ts
    let (ls', ts) ← loadMatsLods transp declSize attrs vbuf ib abn ls ts
    .ok (l' :: ls', ts)

/-- The per-geom material-table loop of load. -/
def loadMatsGeoms (transp : Bool) (declSize : ℕ) (attrs : List VAttr)
    (vbuf : List VCell) (ib : List ℕ) (abn : Option ℕ) :
    List Geom → Toks → Except Err (List Geom × Toks)
  | [], ts => .ok ([], ts)
  | g :: gs, ts => do
    let (ls', ts) ← loadMatsLods transp declSize attrs vbuf ib abn g.lods ts
    let (gs', ts) ← loadMatsGeoms transp declSize attrs vbuf ib abn gs ts
    .ok ({ lods := ls' } :: gs', ts)

/-- The load steps before the primitive-type dword: header, geometry
skeleton, declaration table (with the trailing unused sentinel popped;
an empty table makes `vertex_attributes[-1]` a fatal IndexError). -/
def loadPreamble (ts : Toks) : Except Err ((ℕ × List Geom × List VAttr) × Toks) := do
  let (version, ts) ← MeshHeader.load ts
  let (gc, ts) ← readDword ts
  let (geoms, ts) ← loadN Geom.loadSkel gc ts
  let (ac, ts) ← readDword ts
  let (attrs0, ts) ← loadN VAttr.loadRow ac ts
  match attrs0.getLast? with
  | none => .error .corruptFile
  | some la =>
    .ok ((version, geoms,
      if la.flag = some vaUNUSED then attrs0.dropLast else attrs0), ts)

/-- `BF2VisibleMesh.load`: preamble, primitive-type validation, shared
buffers, optional alpha-blend face-set count, bounds, material tables. -/
def bf2Load (transp : Bool) (ts : Toks) : Except Err (Doc × Toks) := do
  let ((version, geoms, attrs), ts) ← loadPreamble ts
  let (p, ts) ← readDword ts
  if 1 ≤ p ∧ p ≤ 6 then
    if p ≠ 4 then .error .unsupportedPrimitiveType
    else do
      let (declSize, ts) ← readDword ts
      let (vcnt, ts) ← readDword ts
      let (vbuf, ts) ← readRaw (declSize * vcnt) ts
      let (icnt, ts) ← readDword ts
      let (ib, ts) ← readWords icnt ts
      let (abn, ts) ← (if transp then do
          let (n, ts) ← readDword ts
          .ok (some n, ts)
        else .ok (none, ts) : Except Err (Option ℕ × Toks))
      let (geoms, ts) ← loadBoundsGeoms version geoms ts
      let (geoms, ts) ← loadMatsGeoms transp declSize attrs vbuf ib abn geoms ts
      .ok (⟨geoms, attrs⟩, ts)
  else .error .unknownEnumValue

/-- `BF2VisibleMesh.__init__` reading a file: load, then the pointer must
stand exactly at the file's end. -/
def bf2LoadFile (transp : Bool) (ts : Toks) : Except Err Doc := do
  let (d, rest) ← bf2Load transp ts
  if rest = [] then .ok d else .error .corruptFile

instance exceptDecEq {ε α : Type} [DecidableEq ε] [DecidableEq α] :
    DecidableEq (Except ε α) := fun x y =>
  match x, y with
  | .ok a, .ok b =>
    if h : a = b then isTrue (by rw [h]) else isFalse (fun c => by cases c; exact h rfl)
  | .error a, .error b =>
    if h : a = b then isTrue (by rw [h]) else isFalse (fun c => by cases c; exact h rfl)
  | .ok _, .error _ => isFalse (fun c => by cases c)
  | .error _, .ok _ => isFalse (fun c => by cases c)

theorem bindOk_iff {α β : Type} {x : Except Err α} {f : α → Except Err β} {b : β} :
    x >>= f = .ok b ↔ ∃ a, x = .ok a ∧ f a = .ok b := by
  cases x <;> simp

theorem okBind {α β : Type} {x : Except Err α} {f : α → Except Err β} {a : α}
    (h : x = .ok a) : x >>= f = f a := by subst h; rfl

@[simp] theorem optDword_some (n : ℕ) : optDword (some n) = wDword n := rfl

@[simp] theorem optWord_some (n : ℕ) : optWord (some n) = wWord n := rfl

/-- Claim helper: the shape of a successful `Material.saveCommon`. -/
theorem saveCommon_shape {mat : Material} {t : Toks}
    (h : Material.saveCommon mat = .ok t) :
    ∃ pre, t = pre ++ [.dword 0, .dword 0] := by
  unfold Material.saveCommon at h
  rw [wString, wString] at h
  simp only [exceptBind_ok] at h
  rw [bindOk_iff] at h
  obtain ⟨t3, h3, h⟩ := h
  rw [bindOk_iff] at h
  obtain ⟨t5, h5, h⟩ := h
  rw [bindOk_iff] at h
  obtain ⟨t6, h6, h⟩ := h
  rw [bindOk_iff] at h
  obtain ⟨t7, h7, h⟩ := h
  rw [bindOk_iff] at h
  obtain ⟨t8, h8, h⟩ := h
  rw [bindOk_iff] at h
  obtain ⟨t9, h9, h⟩ := h
  rw [bindOk_iff] at h
  obtain ⟨t10, h10, h⟩ := h
  rw [show wDword 0 = Except.ok [Tok.dword 0] from rfl] at h9 h10
  cases h9
  cases h10
  simp only [exceptPure_eq, Except.ok.injEq] at h
  subst h
  refine ⟨[Tok.str mat.fxfile] ++ [Tok.str mat.technique] ++ t3 ++
    mat.maps.map Tok.str ++ t5 ++ t6 ++ t7 ++ t8, ?_⟩
  simp

theorem wDword_ok_iff {n : ℕ} {t : Toks} :
    wDword n = .ok t ↔ n < 4294967296 ∧ t = [.dword n] := by
  unfold wDword
  split <;> simp_all [eq_comm]

theorem wWord_ok_iff {n : ℕ} {t : Toks} :
    wWord n = .ok t ↔ n < 65536 ∧ t = [.word n] := by
  unfold wWord
  split <;> simp_all [eq_comm]

theorem optDword_ok_iff {o : Option ℕ} {t : Toks} :
    optDword o = .ok t ↔ ∃ v, o = some v ∧ v < 4294967296 ∧ t = [.dword v] := by
  cases o <;> simp [optDword, wDword_ok_iff]

theorem optWord_ok_iff {o : Option ℕ} {t : Toks} :
    optWord o = .ok t ↔ ∃ v, o = some v ∧ v < 65536 ∧ t = [.word v] := by
  cases o <;> simp [optWord, wWord_ok_iff]

theorem loadStrings_append (l : List String) (rest : Toks) :
    loadN readString l.length (l.map Tok.str ++ rest) = .ok (l, rest) := by
  induction l with
  | nil => rfl
  | cons s ss ih => simp [loadN, ih]

theorem alphaMode_ofCode_code (m : AlphaMode) : AlphaMode.ofCode m.code = some m := by
  cases m <;> rfl

/-- Parsing back a written material row: the strings, map list and ranges
survive, the two reserved dwords come back as the written zeros, and for a
transparency-capable mesh the alpha mode survives. -/
theorem saveRow_parse {transp : Bool} {abn : Option ℕ} {mat : Material} {t rest : Toks}
    (h : Material.saveRow transp mat = .ok t) :
    ∃ v i n vn, mat.vstart = some v ∧ mat.istart = some i ∧
      mat.inum = some n ∧ mat.vnum = some vn ∧
      Material.loadRow transp abn (t ++ rest) =
        .ok ({ fxfile := mat.fxfile, technique := mat.technique, maps := mat.maps,
               vstart := some v, istart := some i, inum := some n, vnum := some vn,
               u4 := some 0, u5 := some 0,
               alphaMode := if transp then mat.alphaMode else none,
               alphaBlendIndexnum := if transp then abn else none }, rest) := by
  have common : ∀ t2 rest2, Material.saveCommon mat = .ok t2 →
      ∃ v i n vn, mat.vstart = some v ∧ mat.istart = some i ∧
        mat.inum = some n ∧ mat.vnum = some vn ∧
        Material.loadCommon (t2 ++ rest2) =
          .ok ({ fxfile := mat.fxfile, technique := mat.technique, maps := mat.maps,
                 vstart := some v, istart := some i, inum := some n, vnum := some vn,
                 u4 := some 0, u5 := some 0 }, rest2) := by
    intro t2 rest2 h2
    unfold Material.saveCommon at h2
    rw [wString, wString] at h2
    simp only [exceptBind_ok] at h2
    rw [bindOk_iff] at h2
    obtain ⟨t3, h3, h2⟩ := h2
    rw [bindOk_iff] at h2
    obtain ⟨t5, h5, h2⟩ := h2
    rw [bindOk_iff] at h2
    obtain ⟨t6, h6, h2⟩ := h2
    rw [bindOk_iff] at h2
    obtain ⟨t7, h7, h2⟩ := h2
    rw [bindOk_iff] at h2
    obtain ⟨t8, h8, h2⟩ := h2
    rw [bindOk_iff] at h2
    obtain ⟨t9, h9, h2⟩ := h2
    rw [bindOk_iff] at h2
    obtain ⟨t10, h10, h2⟩ := h2
    rw [wDword_ok_iff] at h3
    rw [optDword_ok_iff] at h5 h6 h7 h8
    obtain ⟨v, hv, _, rfl⟩ := h5
    obtain ⟨i, hi, _, rfl⟩ := h6
    obtain ⟨n, hn, _, rfl⟩ := h7
    obtain ⟨vn, hvn, _, rfl⟩ := h8
    rw [show wDword 0 = Except.ok [Tok.dword 0] from rfl] at h9 h10
    cases h9
    cases h10
    obtain ⟨_, rfl⟩ := h3
    simp only [exceptPure_eq, Except.ok.injEq] at h2
    subst h2
    refine ⟨v, i, n, vn, hv, hi, hn, hvn, ?_⟩
    simp [Material.loadCommon, loadStrings_append]
  cases transp with
  | false => exact common t rest h
  | true =>
    unfold Material.saveRow at h
    rw [if_pos rfl] at h
    match hm : mat.alphaMode with
    | none => rw [hm] at h; simp at h
    | some m =>
      rw [hm] at h
      rw [bindOk_iff] at h
      obtain ⟨ta, ha, h⟩ := h
      rw [bindOk_iff] at h
      obtain ⟨tb, hb, h⟩ := h
      simp only [exceptPure_eq, Except.ok.injEq] at h
      subst h
      obtain ⟨v, i, n, vn, hv, hi, hn, hvn, hload⟩ := common tb rest hb
      refine ⟨v, i, n, vn, hv, hi, hn, hvn, ?_⟩
      rw [wDword_ok_iff] at ha
      obtain ⟨_, rfl⟩ := ha
      simp [Material.loadRow, alphaMode_ofCode_code, hload, hm]

/-- A material-row token stream whose two reserved dwords are 7 and 9. -/
def c3Toks : Toks :=
  [.str "a", .str "b", .dword 0, .dword 1, .dword 2, .dword 3, .dword 4,
   .dword 7, .dword 9]

/-- Claim C3 counterexample: loading a material row whose reserved dwords are
7 and 9 stores them in memory, but saving that material writes two zero
dwords, not the values that were read — `Material.save` writes literal
zeros for the reserved fields. -/
theorem C3_counterexample :
    (∃ m, Material.loadCommon c3Toks = .ok (m, []) ∧ m.u4 = some 7 ∧ m.u5 = some 9 ∧
      Material.saveCommon m = .ok [.str "a", .str "b", .dword 0, .dword 1, .dword 2,
        .dword 3, .dword 4, .dword 0, .dword 0]) ∧
    (Except.ok [Tok.str "a", .str "b", .dword 0, .dword 1, .dword 2, .dword 3,
        .dword 4, .dword 0, .dword 0] ≠
      (.ok [Tok.str "a", .str "b", .dword 0, .dword 1, .dword 2, .dword 3,
        .dword 4, .dword 7, .dword 9] : Except Err Toks)) := by
  refine ⟨⟨_, rfl, rfl, rfl, rfl⟩, by decide⟩

/-- Claim C3 (amended): the two reserved dwords of a material row are read
at load, but every successful save writes two zero dwords in their place, so
a round-trip recovers zeros rather than the loaded values. -/
theorem C3_theorem (transp : Bool) (abn : Option ℕ) (mat : Material) (t rest : Toks)
    (h : Material.saveRow transp mat = .ok t) :
    (∃ pre, t = pre ++ [.dword 0, .dword 0]) ∧
    (∃ m', Material.loadRow transp abn (t ++ rest) = .ok (m', rest) ∧
      m'.u4 = some 0 ∧ m'.u5 = some 0) := by
  constructor
  · cases transp with
    | false => exact saveCommon_shape h
    | true =>
      unfold Material.saveRow at h
      rw [if_pos rfl] at h
      match hm : mat.alphaMode with
      | none => rw [hm] at h; simp at h
      | some m =>
        rw [hm] at h
        rw [bindOk_iff] at h
        obtain ⟨ta, ha, h⟩ := h
        rw [bindOk_iff] at h
        obtain ⟨tb, hb, h⟩ := h
        simp only [exceptPure_eq, Except.ok.injEq] at h
        subst h
        obtain ⟨pre, hpre⟩ := saveCommon_shape hb
        exact ⟨ta ++ pre, by simp [hpre]⟩
  · obtain ⟨v, i, n, vn, _, _, _, _, hload⟩ := @saveRow_parse _ abn _ _ rest h
    exact ⟨_, hload, rfl, rfl⟩

/-- The concrete material used to witness the amended claim C3. -/
def c3Mat : Material :=
  { vstart := some 1, istart := some 2, inum := some 3, vnum := some 4,
    u4 := some 7, u5 := some 9 }

/-- Witness for the amended claim C3 at a concrete loaded-like material. -/
theorem C3_witness :
    (∃ pre, [Tok.str "", .str "", .dword 0, .dword 1, .dword 2, .dword 3, .dword 4,
      .dword 0, .dword 0] = pre ++ [.dword 0, .dword 0]) ∧
    (∃ m', Material.loadRow false none ([Tok.str "", .str "", .dword 0, .dword 1,
      .dword 2, .dword 3, .dword 4, .dword 0, .dword 0] ++ []) = .ok (m', []) ∧
      m'.u4 = some 0 ∧ m'.u5 = some 0) :=
  C3_theorem false none c3Mat _ [] rfl

/-- Helper vertex with only a position channel. -/
def mkPosVertex (a b c : ℚ) : Vertex := { position := some [.f a, .f b, .f c] }

/-- A one-material Lod for the claim C5 counterexample. -/
def c5Lod : Lod := { materials := [{ vertices := [mkPosVertex 1 2 3] }] }

/-- Claim C5 counterexample: `save_parts_rigs` writes exactly the six bounds
floats and no extra legacy vector — so much so that the loader at version 6,
which does expect the extra vector, fails on the saver's own output. -/
theorem C5_counterexample :
    (∃ l', Lod.savePartsRigs c5Lod = .ok (l',
      [.flt (.q 1), .flt (.q 2), .flt (.q 3), .flt (.q 1), .flt (.q 2), .flt (.q 3)])) ∧
    Lod.loadPartsRigs 6 {}
      [.flt (.q 1), .flt (.q 2), .flt (.q 3), .flt (.q 1), .flt (.q 2), .flt (.q 3)] =
      .error .corruptFile := by
  exact ⟨⟨_, rfl⟩, rfl⟩

/-- Claim C5 (amended): for format versions ≤ 6 the loader skips one extra
reserved 3-float vector after the bounds corners while versions above 6 read
only the six corner floats; the saver has no version branch and always writes
exactly the six corner floats, never the extra vector. -/
theorem C5_theorem (version : ℕ) (lod lod2 : Lod) (a b c d e f g h i : FlQ)
    (rest : Toks) :
    (version ≤ 6 →
      Lod.loadPartsRigs version lod ([.flt a, .flt b, .flt c, .flt d, .flt e, .flt f,
        .flt g, .flt h, .flt i] ++ rest) =
        .ok ({ lod with minB := some (a, b, c), maxB := some (d, e, f) }, rest)) ∧
    (6 < version →
      Lod.loadPartsRigs version lod ([.flt a, .flt b, .flt c, .flt d, .flt e, .flt f]
        ++ rest) =
        .ok ({ lod with minB := some (a, b, c), maxB := some (d, e, f) }, rest)) ∧
    (∀ l' t, Lod.savePartsRigs lod2 = .ok (l', t) →
      ∃ x1 x2 x3 x4 x5 x6, t = [.flt x1, .flt x2, .flt x3, .flt x4, .flt x5, .flt x6]) := by
  refine ⟨fun hv => ?_, fun hv => ?_, fun l' t ht => ?_⟩
  · simp [Lod.loadPartsRigs, readVec3F, hv]
  · simp [Lod.loadPartsRigs, readVec3F, Nat.not_le.mpr hv]
  · unfold Lod.savePartsRigs at ht
    rw [bindOk_iff] at ht
    obtain ⟨⟨ms', mn, mx⟩, _, ht⟩ := ht
    simp only [exceptPure_eq, Except.ok.injEq, Prod.mk.injEq] at ht
    exact ⟨_, _, _, _, _, _, ht.2.symm⟩

/-- Witness for the amended claim C5: version 6 consumes nine floats,
version 10 consumes six, and a concrete save emits exactly six. -/
theorem C5_witness :
    (Lod.loadPartsRigs 6 {} ([.flt (.q 0), .flt (.q 0), .flt (.q 0), .flt (.q 1),
      .flt (.q 1), .flt (.q 1), .flt (.q 5), .flt (.q 5), .flt (.q 5)] ++ []) =
      .ok ({ minB := some (.q 0, .q 0, .q 0), maxB := some (.q 1, .q 1, .q 1),
             materials := [] }, [])) ∧
    (Lod.loadPartsRigs 10 {} ([.flt (.q 0), .flt (.q 0), .flt (.q 0), .flt (.q 1),
      .flt (.q 1), .flt (.q 1)] ++ []) =
      .ok ({ minB := some (.q 0, .q 0, .q 0), maxB := some (.q 1, .q 1, .q 1),
             materials := [] }, [])) ∧
    (∃ x1 x2 x3 x4 x5 x6, [Tok.flt (.q 1), .flt (.q 2), .flt (.q 3), .flt (.q 1),
      .flt (.q 2), .flt (.q 3)] = [Tok.flt x1, .flt x2, .flt x3, .flt x4, .flt x5, .flt x6]) := by
  obtain ⟨h1, h2, h3⟩ := C5_theorem 6 {} c5Lod (.q 0) (.q 0) (.q 0) (.q 1) (.q 1) (.q 1)
    (.q 5) (.q 5) (.q 5) []
  obtain ⟨h4, h5, h6⟩ := C5_theorem 10 {} c5Lod (.q 0) (.q 0) (.q 0) (.q 1) (.q 1) (.q 1)
    (.q 5) (.q 5) (.q 5) []
  exact ⟨h1 (by decide), h5 (by decide), h3 _ _ rfl⟩

/-- The per-material bounds of a material list, used to state the Lod-bounds
claim (each entry is one material's freshly computed (min, max)). -/
def matBoundsList : List Material → Except Err (List (Vec3 × Vec3))
  | [] => .ok []
  | m :: ms => do
    let (mn, mx, _) ← m.calcBounds
    let r ← matBoundsList ms
    .ok ((mn, mx) :: r)

/-- The triple-accumulator min fold of `save_parts_rigs`. -/
def foldBMin (bs : List (Vec3 × Vec3)) (mn : FlQ × FlQ × FlQ) : FlQ × FlQ × FlQ :=
  bs.foldl (fun acc p => (updMin acc.1 p.1.x, updMin acc.2.1 p.1.y, updMin acc.2.2 p.1.z)) mn

/-- The triple-accumulator max fold of `save_parts_rigs`. -/
def foldBMax (bs : List (Vec3 × Vec3)) (mx : ℚ × ℚ × ℚ) : ℚ × ℚ × ℚ :=
  bs.foldl (fun acc p => (updMax acc.1 p.2.x, updMax acc.2.1 p.2.y, updMax acc.2.2 p.2.z)) mx

theorem savePartsRigsGo_spec :
    ∀ (mats : List Material) (bs : List (Vec3 × Vec3)) (mn : FlQ × FlQ × FlQ)
      (mx : ℚ × ℚ × ℚ), matBoundsList mats = .ok bs →
      ∃ ms', savePartsRigsGo mats mn mx = .ok (ms', foldBMin bs mn, foldBMax bs mx) := by
  intro mats
  induction mats with
  | nil =>
    intro bs mn mx hb
    cases hb
    exact ⟨[], rfl⟩
  | cons m ms ih =>
    intro bs mn mx hb
    unfold matBoundsList at hb
    rw [bindOk_iff] at hb
    obtain ⟨⟨bmn, bmx, m'⟩, hcb, hb⟩ := hb
    rw [bindOk_iff] at hb
    obtain ⟨r, hr, hb⟩ := hb
    simp only [exceptPure_eq, Except.ok.injEq] at hb
    subst hb
    obtain ⟨ms', hgo⟩ := ih r
      (updMin mn.1 bmn.x, updMin mn.2.1 bmn.y, updMin mn.2.2 bmn.z)
      (updMax mx.1 bmx.x, updMax mx.2.1 bmx.y, updMax mx.2.2 bmx.z) hr
    refine ⟨m' :: ms', ?_⟩
    unfold savePartsRigsGo
    rw [okBind hcb]
    simp only [exceptBind_ok]
    rw [okBind hgo]
    simp [foldBMin, foldBMax]

theorem updMin_q (c v : ℚ) : updMin (.q c) v = .q (min v c) := by
  by_cases h : v < c
  · simp [updMin, FlQ.ltQ, h, min_eq_left h.le]
  · simp [updMin, FlQ.ltQ, h, min_eq_right (not_lt.mp h)]

theorem updMax_eq (c v : ℚ) : updMax c v = max c v := by
  by_cases h : c < v
  · simp [updMax, h, max_eq_right h.le]
  · simp [updMax, h, max_eq_left (not_lt.mp h)]

theorem updMin_inf (v : ℚ) : updMin .inf v = .q v := rfl

theorem foldBMin_comp (bs : List (Vec3 × Vec3)) (mn : FlQ × FlQ × FlQ) :
    foldBMin bs mn = ((bs.map (fun p => p.1.x)).foldl updMin mn.1,
      (bs.map (fun p => p.1.y)).foldl updMin mn.2.1,
      (bs.map (fun p => p.1.z)).foldl updMin mn.2.2) := by
  induction bs generalizing mn with
  | nil => rfl
  | cons b bs ih => simp [foldBMin, List.foldl_cons, ih (updMin mn.1 b.1.x, _, _), foldBMin] at ih ⊢; rw [ih]

theorem foldBMax_comp (bs : List (Vec3 × Vec3)) (mx : ℚ × ℚ × ℚ) :
    foldBMax bs mx = ((bs.map (fun p => p.2.x)).foldl updMax mx.1,
      (bs.map (fun p => p.2.y)).foldl updMax mx.2.1,
      (bs.map (fun p => p.2.z)).foldl updMax mx.2.2) := by
  induction bs generalizing mx with
  | nil => rfl
  | cons b bs ih => simp [foldBMax, List.foldl_cons, foldBMax] at ih ⊢; rw [ih]

theorem foldUpdMin_q (l : List ℚ) (c : ℚ) :
    l.foldl updMin (.q c) = .q (l.foldl min c) := by
  induction l generalizing c with
  | nil => rfl
  | cons v vs ih => rw [List.foldl_cons, updMin_q, List.foldl_cons, min_comm v c, ih]

theorem foldUpdMax_eq (l : List ℚ) (c : ℚ) :
    l.foldl updMax c = l.foldl max c := by
  induction l generalizing c with
  | nil => rfl
  | cons v vs ih => rw [List.foldl_cons, updMax_eq, List.foldl_cons, ih]

/-- The component-wise minimum of the materials' min corners (the first
material's corner extended by the rest). -/
def specLodMin (b0 : Vec3 × Vec3) (brest : List (Vec3 × Vec3)) : Vec3 :=
  ⟨(brest.map (fun p => p.1.x)).foldl min b0.1.x,
   (brest.map (fun p => p.1.y)).foldl min b0.1.y,
   (brest.map (fun p => p.1.z)).foldl min b0.1.z⟩

/-- The component-wise maximum of the materials' max corners and the `0.0`
sentinel the accumulator starts from. -/
def specLodMax0 (bs : List (Vec3 × Vec3)) : Vec3 :=
  ⟨(bs.map (fun p => p.2.x)).foldl max 0,
   (bs.map (fun p => p.2.y)).foldl max 0,
   (bs.map (fun p => p.2.z)).foldl max 0⟩

/-- A one-material Lod with strictly negative coordinates, for the claim C4
counterexample. -/
def c4Lod : Lod := { materials := [{ vertices := [mkPosVertex (-1) (-2) (-3)] }] }

/-- Claim C4 counterexample: with a single material whose bounds are
min = max = (-1, -2, -3), the written max corner is the untouched (0, 0, 0)
sentinel, not the materials' maximum corner (-1, -2, -3) the claim demands. -/
theorem C4_counterexample :
    (∃ mn mx m', Material.calcBounds { vertices := [mkPosVertex (-1) (-2) (-3)] } =
      .ok (mn, mx, m') ∧ mx = ⟨-1, -2, -3⟩) ∧
    (∃ l', Lod.savePartsRigs c4Lod = .ok (l',
      [.flt (.q (-1)), .flt (.q (-2)), .flt (.q (-3)),
       .flt (.q 0), .flt (.q 0), .flt (.q 0)])) ∧
    ([Tok.flt (.q 0), .flt (.q 0), .flt (.q 0)] ≠
      [Tok.flt (.q (-1)), .flt (.q (-2)), .flt (.q (-3))]) :=
  ⟨⟨_, _, _, rfl, rfl⟩, ⟨_, rfl⟩, by decide⟩

/-- Claim C4 (amended): on every save the Lod bounds are recomputed fresh
from the materials — the stored bounds are ignored — with the written min the
component-wise minimum over the materials' min corners and the written max
the component-wise maximum of the materials' max corners *and the (0,0,0)
sentinel* the accumulator is initialised with. -/
theorem C4_theorem (lod : Lod) (bs : List (Vec3 × Vec3)) (b0 : Vec3 × Vec3)
    (brest : List (Vec3 × Vec3)) (hb : matBoundsList lod.materials = .ok bs)
    (hbs : bs = b0 :: brest) :
    (∃ l', Lod.savePartsRigs lod = .ok (l',
      [.flt (.q (specLodMin b0 brest).x), .flt (.q (specLodMin b0 brest).y),
       .flt (.q (specLodMin b0 brest).z), .flt (.q (specLodMax0 bs).x),
       .flt (.q (specLodMax0 bs).y), .flt (.q (specLodMax0 bs).z)])) ∧
    (∀ mb xb, ∃ l'', Lod.savePartsRigs { lod with minB := mb, maxB := xb } =
      .ok (l'',
      [.flt (.q (specLodMin b0 brest).x), .flt (.q (specLodMin b0 brest).y),
       .flt (.q (specLodMin b0 brest).z), .flt (.q (specLodMax0 bs).x),
       .flt (.q (specLodMax0 bs).y), .flt (.q (specLodMax0 bs).z)])) := by
  have key : ∀ (l2 : Lod), l2.materials = lod.materials →
      ∃ l', Lod.savePartsRigs l2 = .ok (l',
        [.flt (.q (specLodMin b0 brest).x), .flt (.q (specLodMin b0 brest).y),
         .flt (.q (specLodMin b0 brest).z), .flt (.q (specLodMax0 bs).x),
         .flt (.q (specLodMax0 bs).y), .flt (.q (specLodMax0 bs).z)]) := by
    intro l2 hmats
    obtain ⟨ms', hgo⟩ := savePartsRigsGo_spec l2.materials bs (.inf, .inf, .inf) (0, 0, 0)
      (by rw [hmats]; exact hb)
    have hmn : foldBMin bs (.inf, .inf, .inf) =
        (.q (specLodMin b0 brest).x, .q (specLodMin b0 brest).y,
         .q (specLodMin b0 brest).z) := by
      subst hbs
      rw [foldBMin, List.foldl_cons]
      show foldBMin brest (updMin .inf b0.1.x, updMin .inf b0.1.y, updMin .inf b0.1.z) = _
      rw [updMin_inf, updMin_inf, updMin_inf, foldBMin_comp,
        foldUpdMin_q, foldUpdMin_q, foldUpdMin_q]
      rfl
    have hmx : foldBMax bs (0, 0, 0) =
        ((specLodMax0 bs).x, (specLodMax0 bs).y, (specLodMax0 bs).z) := by
      rw [foldBMax_comp, foldUpdMax_eq, foldUpdMax_eq, foldUpdMax_eq]
      rfl
    have hres : Lod.savePartsRigs l2 = .ok
        ({ l2 with
             materials := ms',
             minB := some (.q (specLodMin b0 brest).x, .q (specLodMin b0 brest).y, .q (specLodMin b0 brest).z),
             maxB := some (.q (specLodMax0 bs).x, .q (specLodMax0 bs).y, .q (specLodMax0 bs).z) },
         [.flt (.q (specLodMin b0 brest).x), .flt (.q (specLodMin b0 brest).y),
          .flt (.q (specLodMin b0 brest).z), .flt (.q (specLodMax0 bs).x),
          .flt (.q (specLodMax0 bs).y), .flt (.q (specLodMax0 bs).z)]) := by
      unfold Lod.savePartsRigs
      rw [okBind hgo, hmn, hmx]
    exact ⟨_, hres⟩
  exact ⟨key lod rfl, fun mb xb => key _ rfl⟩

/-- The two-material list used to witness the amended claim C4. -/
def c4wMats : List Material :=
  [{ vertices := [mkPosVertex 1 2 3] }, { vertices := [mkPosVertex (-4) 5 (-6)] }]

/-- Witness for the amended claim C4 at a two-material Lod. -/
theorem C4_witness :
    (∃ l', Lod.savePartsRigs { materials := c4wMats } = .ok (l',
      [.flt (.q (specLodMin (⟨1, 2, 3⟩, ⟨1, 2, 3⟩) [(⟨-4, 5, -6⟩, ⟨-4, 5, -6⟩)]).x),
       .flt (.q (specLodMin (⟨1, 2, 3⟩, ⟨1, 2, 3⟩) [(⟨-4, 5, -6⟩, ⟨-4, 5, -6⟩)]).y),
       .flt (.q (specLodMin (⟨1, 2, 3⟩, ⟨1, 2, 3⟩) [(⟨-4, 5, -6⟩, ⟨-4, 5, -6⟩)]).z),
       .flt (.q (specLodMax0 [(⟨1, 2, 3⟩, ⟨1, 2, 3⟩), (⟨-4, 5, -6⟩, ⟨-4, 5, -6⟩)]).x),
       .flt (.q (specLodMax0 [(⟨1, 2, 3⟩, ⟨1, 2, 3⟩), (⟨-4, 5, -6⟩, ⟨-4, 5, -6⟩)]).y),
       .flt (.q (specLodMax0 [(⟨1, 2, 3⟩, ⟨1, 2, 3⟩), (⟨-4, 5, -6⟩, ⟨-4, 5, -6⟩)]).z)])) ∧
    (∀ mb xb, ∃ l'', Lod.savePartsRigs { minB := mb, maxB := xb, materials := c4wMats } =
      .ok (l'',
      [.flt (.q (specLodMin (⟨1, 2, 3⟩, ⟨1, 2, 3⟩) [(⟨-4, 5, -6⟩, ⟨-4, 5, -6⟩)]).x),
       .flt (.q (specLodMin (⟨1, 2, 3⟩, ⟨1, 2, 3⟩) [(⟨-4, 5, -6⟩, ⟨-4, 5, -6⟩)]).y),
       .flt (.q (specLodMin (⟨1, 2, 3⟩, ⟨1, 2, 3⟩) [(⟨-4, 5, -6⟩, ⟨-4, 5, -6⟩)]).z),
       .flt (.q (specLodMax0 [(⟨1, 2, 3⟩, ⟨1, 2, 3⟩), (⟨-4, 5, -6⟩, ⟨-4, 5, -6⟩)]).x),
       .flt (.q (specLodMax0 [(⟨1, 2, 3⟩, ⟨1, 2, 3⟩), (⟨-4, 5, -6⟩, ⟨-4, 5, -6⟩)]).y),
       .flt (.q (specLodMax0 [(⟨1, 2, 3⟩, ⟨1, 2, 3⟩), (⟨-4, 5, -6⟩, ⟨-4, 5, -6⟩)]).z)])) :=
  C4_theorem { materials := c4wMats }
    [(⟨1, 2, 3⟩, ⟨1, 2, 3⟩), (⟨-4, 5, -6⟩, ⟨-4, 5, -6⟩)]
    (⟨1, 2, 3⟩, ⟨1, 2, 3⟩) [(⟨-4, 5, -6⟩, ⟨-4, 5, -6⟩)] rfl rfl

/-- A minimal valid preamble (header, zero geoms, a declaration table holding
only the unused sentinel), ending just before the primitive-type dword. -/
def c9Pre : Toks :=
  [.dword 0, .dword 11, .dword 0, .dword 0, .dword 0, .byte 0,
   .dword 0,
   .dword 1, .word 255, .word 0, .word 17, .word 0]

/-- Claim C9 counterexample: a primitive-type dword of 7 — not a value of the
primitive-type enum — fails with the enum-conversion error
(`UnknownEnumValue`), not with `UnsupportedPrimitiveType` as the claim states
for "any value other than triangle list". -/
theorem C9_counterexample :
    bf2Load false (c9Pre ++ [.dword 7]) = .error .unknownEnumValue ∧
    Err.unknownEnumValue ≠ Err.unsupportedPrimitiveType := by
  exact ⟨rfl, by decide⟩

/-- Claim C9 (amended): after the preamble, a primitive-type dword that is a
valid enum code other than triangle list (4) fails with
`UnsupportedPrimitiveType`, and a dword outside the enum fails with
`UnknownEnumValue`; in both cases the failure is decided before any vertex or
index buffer is parsed — the result is the same for every continuation of the
stream. -/
theorem C9_theorem (transp : Bool) (ts : Toks) (st : ℕ × List Geom × List VAttr)
    (p : ℕ) (rest : Toks) (hpre : loadPreamble ts = .ok (st, .dword p :: rest)) :
    (1 ≤ p ∧ p ≤ 6 ∧ p ≠ 4 → bf2Load transp ts = .error .unsupportedPrimitiveType) ∧
    (¬(1 ≤ p ∧ p ≤ 6) → bf2Load transp ts = .error .unknownEnumValue) := by
  obtain ⟨v, g, a⟩ := st
  constructor
  · rintro ⟨h1, h2, h3⟩
    unfold bf2Load
    rw [hpre]
    simp only [exceptBind_ok, readDword_cons]
    rw [if_pos ⟨h1, h2⟩, if_pos h3]
  · intro hcond
    unfold bf2Load
    rw [hpre]
    simp only [exceptBind_ok, readDword_cons]
    rw [if_neg hcond]

/-- Witness for the amended claim C9: the triangle-strip code 5 gives
`UnsupportedPrimitiveType`, the non-enum code 7 gives `UnknownEnumValue`. -/
theorem C9_witness :
    bf2Load false (c9Pre ++ [.dword 5]) = .error .unsupportedPrimitiveType ∧
    bf2Load true (c9Pre ++ [.dword 7]) = .error .unknownEnumValue :=
  ⟨(C9_theorem false (c9Pre ++ [.dword 5]) (11, [], []) 5 [] (by rfl)).1
      ⟨by decide, by decide, by decide⟩,
   (C9_theorem true (c9Pre ++ [.dword 7]) (11, [], []) 7 [] (by rfl)).2 (by decide)⟩

theorem declType_ofCode_code (t : D3DDECLTYPE) : D3DDECLTYPE.ofCode t.code = some t := by
  cases t <;> rfl

theorem declUsage_ofCode_code (u : D3DDECLUSAGE) : D3DDECLUSAGE.ofCode u.code = some u := by
  cases u <;> rfl

theorem declType_code_lt (t : D3DDECLTYPE) : t.code < 65536 := by
  cases t <;> decide

theorem declUsage_code_lt (u : D3DDECLUSAGE) : u.code < 65536 := by
  cases u <;> decide

/-- The `struct.calcsize` of an attribute's format (0 for an unsupported
type, which export rejects before this is ever used). -/
def attrSize (a : VAttr) : ℕ := ((a.declType.getStructFmt).map fmtSize).getD 0

/-- The declaration table as export rewrites it: every row marked used, with
sequentially accumulated byte offsets. -/
def layoutAttrs (acc : ℕ) : List VAttr → List VAttr
  | [] => []
  | a :: rest => { a with flag := some vaUSED, offset := some acc } ::
      layoutAttrs (acc + attrSize a) rest

/-- The in-memory attribute parsed back from the written unused sentinel row. -/
def sentinelAttr : VAttr :=
  { flag := some vaUNUSED, offset := some 0, declType := .unusedT, declUsage := .position }

theorem layoutAttrs_length (acc : ℕ) (attrs : List VAttr) :
    (layoutAttrs acc attrs).length = attrs.length := by
  induction attrs generalizing acc with
  | nil => rfl
  | cons a rest ih => simp [layoutAttrs, ih]

/-- Written declaration rows round-trip: under a table with no unused-flagged
rows, `declRows` emits 4 words per attribute, computes the record size as the
sum of the element sizes, and parsing the rows back yields the laid-out
attributes (used flags, accumulated offsets). -/
theorem declRows_spec :
    ∀ (attrs : List VAttr) (acc : ℕ) (t : Toks) (sz : ℕ),
    (∀ a ∈ attrs, a.flag ≠ some vaUNUSED) →
    declRows acc attrs = .ok (t, sz) →
    sz = acc + (attrs.map attrSize).sum ∧ t.length = 4 * attrs.length ∧
    ∀ rest, loadN VAttr.loadRow attrs.length (t ++ rest) =
      .ok (layoutAttrs acc attrs, rest) := by
  intro attrs
  induction attrs with
  | nil =>
    intro acc t sz hU h
    unfold declRows at h
    simp only [Except.ok.injEq, Prod.mk.injEq] at h
    obtain ⟨rfl, rfl⟩ := h
    exact ⟨by simp, by simp, fun rest => rfl⟩
  | cons a rest ih =>
    intro acc t sz hU h
    unfold declRows at h
    rw [if_neg (hU a (List.mem_cons_self a rest))] at h
    rw [bindOk_iff] at h
    obtain ⟨row, hrow, h⟩ := h
    match hf : a.declType.getStructFmt with
    | none => rw [hf] at h; simp at h
    | some fmt =>
      rw [hf] at h
      rw [bindOk_iff] at h
      obtain ⟨⟨rows, sz'⟩, hrows, h⟩ := h
      simp only [exceptPure_eq, Except.ok.injEq, Prod.mk.injEq] at h
      obtain ⟨rfl, rfl⟩ := h
      obtain ⟨hsz, hlen, hparse⟩ := ih (acc + fmtSize fmt) rows sz'
        (fun b hb => hU b (List.mem_cons_of_mem a hb)) hrows
      unfold VAttr.saveRow at hrow
      simp only [optWord_some] at hrow
      rw [bindOk_iff] at hrow
      obtain ⟨w1, hw1, hrow⟩ := hrow
      rw [bindOk_iff] at hrow
      obtain ⟨w2, hw2, hrow⟩ := hrow
      rw [bindOk_iff] at hrow
      obtain ⟨w3, hw3, hrow⟩ := hrow
      rw [bindOk_iff] at hrow
      obtain ⟨w4, hw4, hrow⟩ := hrow
      simp only [exceptPure_eq, Except.ok.injEq] at hrow
      subst hrow
      rw [wWord_ok_iff] at hw1 hw2 hw3 hw4
      obtain ⟨_, rfl⟩ := hw1
      obtain ⟨hacc, rfl⟩ := hw2
      obtain ⟨_, rfl⟩ := hw3
      obtain ⟨_, rfl⟩ := hw4
      have hsize : attrSize a = fmtSize fmt := by simp [attrSize, hf]
      refine ⟨by simp [hsize, hsz, Nat.add_assoc], by (simp [hlen]; omega), ?_⟩
      intro r2
      show loadN VAttr.loadRow (rest.length + 1) _ = _
      have hrowparse : VAttr.loadRow (Tok.word vaUSED :: Tok.word acc ::
          Tok.word a.declType.code :: Tok.word a.declUsage.code :: (rows ++ r2)) =
          .ok ({ a with flag := some vaUSED, offset := some acc }, rows ++ r2) := by
        unfold VAttr.loadRow
        simp only [readWord_cons, exceptBind_ok]
        rw [declType_ofCode_code, declUsage_ofCode_code]
      unfold loadN
      simp only [List.append_assoc, List.cons_append, List.nil_append]
      rw [okBind hrowparse]
      simp only [exceptBind_ok]
      rw [okBind (hparse r2)]
      simp [layoutAttrs, hsize]

theorem layoutAttrs_flags (acc : ℕ) (attrs : List VAttr) :
    ∀ a' ∈ layoutAttrs acc attrs, a'.flag = some vaUSED := by
  induction attrs generalizing acc with
  | nil => intro a' h; cases h
  | cons a rest ih =>
    intro a' h
    rw [layoutAttrs] at h
    rcases List.mem_cons.mp h with h | h
    · subst h; rfl
    · exact ih _ a' h

theorem loadN_add {α : Type} (p : Toks → Except Err (α × Toks)) :
    ∀ (n : ℕ) (m : ℕ) (ts ts1 ts2 : Toks) (l1 l2 : List α),
    loadN p n ts = .ok (l1, ts1) → loadN p m ts1 = .ok (l2, ts2) →
    loadN p (n + m) ts = .ok (l1 ++ l2, ts2) := by
  intro n
  induction n with
  | zero =>
    intro m ts ts1 ts2 l1 l2 h1 h2
    unfold loadN at h1
    simp only [Except.ok.injEq, Prod.mk.injEq] at h1
    obtain ⟨rfl, rfl⟩ := h1
    simpa using h2
  | succ k ih =>
    intro m ts ts1 ts2 l1 l2 h1 h2
    unfold loadN at h1
    rw [bindOk_iff] at h1
    obtain ⟨⟨a, ts'⟩, hstep, h1⟩ := h1
    rw [bindOk_iff] at h1
    obtain ⟨⟨l', ts''⟩, hrest, h1⟩ := h1
    simp only [exceptPure_eq, Except.ok.injEq, Prod.mk.injEq] at h1
    obtain ⟨rfl, rfl⟩ := h1
    have := ih m ts' ts'' ts2 l' l2 hrest h2
    rw [show k + 1 + m = k + m + 1 from by omega]
    show loadN p (k + m + 1) ts = _
    unfold loadN
    rw [okBind hstep]
    simp only [exceptBind_ok]
    rw [okBind this]
    rfl

/-- An in-memory declaration table whose only attribute is flagged unused,
for the claim C6 counterexample. -/
def c6Attrs : List VAttr :=
  [{ flag := some 255, offset := some 0, declType := .float3, declUsage := .position }]

/-- Claim C6 counterexample: saving an in-memory table of N = 1 attributes
does not always write N + 1 = 2 rows — an unused-flagged in-memory attribute
is skipped, so only the sentinel row is written (5 tokens rather than the
1 + 4·2 = 9 of two rows) even though the count field still says 2. -/
theorem C6_counterexample :
    exportDecl c6Attrs = .ok ([.dword 2, .word 255, .word 0, .word 17, .word 0], 0) ∧
    ([Tok.dword 2, .word 255, .word 0, .word 17, .word 0].length ≠ 1 + 4 * 2) := by
  exact ⟨rfl, by decide⟩

/-- Claim C6 (amended): loading a table of N rows followed by the trailing
unused-flagged sentinel yields exactly the N leading attributes; saving an
in-memory table of N attributes writes a count field of N + 1 and one 4-word
row per attribute not flagged unused plus the sentinel — in particular,
when no attribute is flagged unused, exactly N + 1 rows (4(N+1) row words)
are written, the retained rows marked used with sequentially accumulated
byte offsets, and parsing them back and dropping the sentinel recovers the
N laid-out attributes. -/
theorem C6_theorem (attrs : List VAttr) (t : Toks) (sz : ℕ)
    (hU : ∀ a ∈ attrs, a.flag ≠ some vaUNUSED)
    (h : exportDecl attrs = .ok (t, sz)) :
    (∃ rows, t = .dword (attrs.length + 1) :: rows ∧ rows.length = 4 * (attrs.length + 1)) ∧
    sz = (attrs.map attrSize).sum ∧
    (∀ rest, loadN VAttr.loadRow (attrs.length + 1) (t.tail ++ rest) =
      .ok (layoutAttrs 0 attrs ++ [sentinelAttr], rest)) ∧
    (layoutAttrs 0 attrs ++ [sentinelAttr]).getLast? = some sentinelAttr ∧
    sentinelAttr.flag = some vaUNUSED ∧
    (layoutAttrs 0 attrs ++ [sentinelAttr]).dropLast = layoutAttrs 0 attrs ∧
    (layoutAttrs 0 attrs).length = attrs.length ∧
    (∀ a' ∈ layoutAttrs 0 attrs, a'.flag = some vaUSED) := by
  unfold exportDecl at h
  rw [bindOk_iff] at h
  obtain ⟨cnt, hcnt, h⟩ := h
  rw [bindOk_iff] at h
  obtain ⟨⟨rows, declSize⟩, hrows, h⟩ := h
  simp only [exceptPure_eq, Except.ok.injEq, Prod.mk.injEq] at h
  obtain ⟨rfl, rfl⟩ := h
  rw [wDword_ok_iff] at hcnt
  obtain ⟨_, rfl⟩ := hcnt
  obtain ⟨hsz, hlen, hparse⟩ := declRows_spec attrs 0 rows declSize hU hrows
  refine ⟨⟨rows ++ sentinelRow, by simp, by (simp [hlen, sentinelRow]; omega)⟩,
    by simpa using hsz, ?_, List.getLast?_concat _, rfl, List.dropLast_concat,
    layoutAttrs_length 0 attrs, layoutAttrs_flags 0 attrs⟩
  intro rest
  show loadN VAttr.loadRow (attrs.length + 1) ((rows ++ sentinelRow) ++ rest) = _
  rw [List.append_assoc]
  exact loadN_add VAttr.loadRow attrs.length 1 _ _ _ _ _
    (hparse (sentinelRow ++ rest)) rfl

/-- A concrete declaration table used to witness the amended claim C6. -/
def c6wAttrs : List VAttr :=
  [{ declType := .float3, declUsage := .position },
   { declType := .d3dcolor, declUsage := .color }]

/-- Witness for the amended claim C6 at a two-attribute table. -/
theorem C6_witness :
    (∃ rows, [Tok.dword 3, .word 0, .word 0, .word 2, .word 0,
        .word 0, .word 12, .word 4, .word 10, .word 255, .word 0, .word 17, .word 0] =
      .dword (c6wAttrs.length + 1) :: rows ∧ rows.length = 4 * (c6wAttrs.length + 1)) ∧
    (16 : ℕ) = (c6wAttrs.map attrSize).sum ∧
    (∀ rest, loadN VAttr.loadRow (c6wAttrs.length + 1)
      ([Tok.dword 3, .word 0, .word 0, .word 2, .word 0, .word 0, .word 12, .word 4,
        .word 10, .word 255, .word 0, .word 17, .word 0].tail ++ rest) =
      .ok (layoutAttrs 0 c6wAttrs ++ [sentinelAttr], rest)) ∧
    (layoutAttrs 0 c6wAttrs ++ [sentinelAttr]).getLast? = some sentinelAttr ∧
    sentinelAttr.flag = some vaUNUSED ∧
    (layoutAttrs 0 c6wAttrs ++ [sentinelAttr]).dropLast = layoutAttrs 0 c6wAttrs ∧
    (layoutAttrs 0 c6wAttrs).length = c6wAttrs.length ∧
    (∀ a' ∈ layoutAttrs 0 c6wAttrs, a'.flag = some vaUSED) :=
  C6_theorem c6wAttrs _ 16 (by decide) (by rfl)

theorem decodeVertexAux_err_of_bad :
    ∀ (attrs : List VAttr) (a : VAttr), a ∈ attrs → a.flag ≠ some vaUNUSED →
    a.declType.getStructFmt = none →
    ∀ (declSize : ℕ) (buf : List VCell) (i : ℕ) (v : Vertex),
    ∃ e, decodeVertexAux declSize buf i attrs v = .error e := by
  intro attrs
  induction attrs with
  | nil => intro a ha; cases ha
  | cons b rest ih =>
    intro a ha hflag hfmt declSize buf i v
    rcases List.mem_cons.mp ha with h | h
    · subst h
      refine ⟨.unsupportedVertexFormat, ?_⟩
      unfold decodeVertexAux decodeAttr
      rw [if_neg hflag, hfmt]
      rfl
    · unfold decodeVertexAux
      cases hd : decodeAttr declSize buf i b v with
      | error e => exact ⟨e, rfl⟩
      | ok v' =>
        obtain ⟨e, he⟩ := ih a h hflag hfmt declSize buf i v'
        exact ⟨e, he⟩

/-- Claim C8: decoding the vertices of a material whose declaration table
contains a used row with an element type outside the supported subset never
produces a vertex list — decode fails with a fatal error — and when that row
is the first one examined the error is precisely the unsupported-format
error (the `KeyError` of `get_struct_fmt`, `UnsupportedVertexFormat` in the
spec's taxonomy). -/
theorem C8_theorem (declSize : ℕ) (attrs : List VAttr) (buf : List VCell)
    (mat : Material) (vs vn : ℕ) (a : VAttr)
    (hvs : mat.vstart = some vs) (hvn : mat.vnum = some vn) (hpos : 0 < vn)
    (ha : a ∈ attrs) (hflag : a.flag ≠ some vaUNUSED)
    (hfmt : a.declType.getStructFmt = none) :
    (∃ e, Material.loadVertices declSize attrs buf mat = .error e) ∧
    (∀ rest, Material.loadVertices declSize (a :: rest) buf mat =
      .error .unsupportedVertexFormat) := by
  constructor
  · obtain ⟨k, rfl⟩ : ∃ k, vn = k + 1 := ⟨vn - 1, by omega⟩
    obtain ⟨e, he⟩ := decodeVertexAux_err_of_bad attrs a ha hflag hfmt declSize buf vs {}
    refine ⟨e, ?_⟩
    unfold Material.loadVertices
    rw [hvs, hvn]
    simp only [loadVerticesRange]
    rw [he]
    rfl
  · intro rest
    obtain ⟨k, rfl⟩ : ∃ k, vn = k + 1 := ⟨vn - 1, by omega⟩
    have he : decodeVertexAux declSize buf vs (a :: rest) {} =
        .error .unsupportedVertexFormat := by
      unfold decodeVertexAux decodeAttr
      rw [if_neg hflag, hfmt]
      rfl
    unfold Material.loadVertices
    rw [hvs, hvn]
    simp only [loadVerticesRange]
    rw [he]
    rfl

/-- A used declaration row of type UBYTE4 (outside the supported subset). -/
def c8AttrU : VAttr :=
  { flag := some 0, offset := some 0, declType := .ubyte4, declUsage := .position }

/-- A used declaration row of type SHORT2 (outside the supported subset). -/
def c8AttrS : VAttr :=
  { flag := some 0, offset := some 0, declType := .short2, declUsage := .texcoord0 }

/-- A one-vertex material range for the claim C8 witness. -/
def c8Mat : Material := { vstart := some 0, vnum := some 1 }

/-- Witness for claim C8: a table whose first row is a used UBYTE4 row, and
one whose first row is a used SHORT2 row, both fail with the
unsupported-format error on a one-vertex material. -/
theorem C8_witness :
    (∃ e, Material.loadVertices 4 [c8AttrU] [] c8Mat = .error e) ∧
    (Material.loadVertices 4 [c8AttrS] [] c8Mat = .error .unsupportedVertexFormat) :=
  ⟨(C8_theorem 4 [c8AttrU] [] c8Mat 0 1 c8AttrU rfl rfl (by decide)
      (List.mem_singleton.mpr rfl) (by decide) rfl).1,
   (C8_theorem 4 [c8AttrS] [] c8Mat 0 1 c8AttrS rfl rfl (by decide)
      (List.mem_singleton.mpr rfl) (by decide) rfl).2 []⟩

theorem calcBounds_shape {mat : Material} {mn mx : Vec3} {m' : Material}
    (h : Material.calcBounds mat = .ok (mn, mx, m')) :
    m' = { mat with minB := some mn, maxB := some mx } := by
  unfold Material.calcBounds at h
  match hv : mat.vertices with
  | [] => rw [hv] at h; cases h
  | v0 :: vs =>
    rw [hv] at h
    rw [bindOk_iff] at h
    obtain ⟨p0, hp0, h⟩ := h
    rw [bindOk_iff] at h
    obtain ⟨ps, hps, h⟩ := h
    simp only [exceptPure_eq, Except.ok.injEq, Prod.mk.injEq] at h
    obtain ⟨rfl, rfl, rfl⟩ := h
    rfl

theorem getSortingPlanes_shape {gp : GeoParams} {mat : Material}
    {planes : List Plane} {m' : Material}
    (h : Material.getSortingPlanes gp mat = .ok (planes, m')) :
    ∃ mn mx, m' = { mat with minB := some mn, maxB := some mx } ∧
      planes.length = ALPHA_BLEND_FACE_SET_COUNT := by
  unfold Material.getSortingPlanes at h
  rw [bindOk_iff] at h
  obtain ⟨⟨mn, mx, mb⟩, hcb, h⟩ := h
  simp only [exceptPure_eq, Except.ok.injEq, Prod.mk.injEq] at h
  obtain ⟨rfl, rfl⟩ := h
  exact ⟨mn, mx, calcBounds_shape hcb, by simp⟩

/-- Claim C10: `_save_faces_alpha_blend` never writes back to `face_sets` or
`faces` — the regenerated per-plane orderings go only to the output index
buffer, so after a save the material still holds whatever face sets were
loaded (or none, for a freshly built document). -/
theorem C10_theorem (gp : GeoParams) (istart : ℕ) (mat : Material)
    (out : Material × List ℕ × ℕ)
    (h : Material.saveFacesAlphaBlend gp istart mat = .ok out) :
    out.1.faceSets = mat.faceSets ∧ out.1.faces = mat.faces := by
  unfold Material.saveFacesAlphaBlend at h
  rw [bindOk_iff] at h
  obtain ⟨⟨planes, m'⟩, hplanes, h⟩ := h
  rw [bindOk_iff] at h
  obtain ⟨mids, hmids, h⟩ := h
  simp only [exceptPure_eq, Except.ok.injEq] at h
  subst h
  obtain ⟨mn, mx, rfl, -⟩ := getSortingPlanes_shape hplanes
  exact ⟨rfl, rfl⟩

/-- A concrete ALPHA_BLEND material (used to witness claim C10): its loaded
face sets survive the save untouched. -/
def c10Mat : Material :=
  { vertices := [mkPosVertex 0 0 0, mkPosVertex 1 0 0, mkPosVertex 0 1 0],
    faces := [(0, 1, 2)], alphaMode := some .amBlend,
    faceSets := some [[(0, 1, 2)], [(2, 1, 0)]] }

/-- Witness for claim C10 at a concrete ALPHA_BLEND material. -/
theorem C10_witness :
    ∃ out, Material.saveFacesAlphaBlend ⟨fun _ => 0, fun _ => ⟨0, 0, -1⟩⟩ 0 c10Mat =
      .ok out ∧ out.1.faceSets = c10Mat.faceSets ∧ out.1.faces = c10Mat.faces := by
  refine ⟨_, rfl, ?_⟩
  exact C10_theorem ⟨fun _ => 0, fun _ => ⟨0, 0, -1⟩⟩ 0 c10Mat _ rfl

theorem pyInsert_perm {α : Type} (le : α → α → Bool) (x : α) (l : List α) :
    (pyInsert le x l).Perm (x :: l) := by
  induction l with
  | nil => exact List.Perm.refl _
  | cons y ys ih =>
    unfold pyInsert
    split
    · exact List.Perm.refl _
    · exact (ih.cons y).trans (List.Perm.swap x y ys)

theorem pySorted_perm {α : Type} (le : α → α → Bool) (l : List α) :
    (pySorted le l).Perm l := by
  induction l with
  | nil => exact List.Perm.refl _
  | cons x xs ih => exact (pyInsert_perm le x (pySorted le xs)).trans (ih.cons x)

theorem pyInsert_pairwise {α : Type} (le : α → α → Bool)
    (htot : ∀ a b, le a b = true ∨ le b a = true)
    (htrans : ∀ a b c, le a b = true → le b c = true → le a c = true)
    (x : α) (l : List α) (hl : l.Pairwise (fun a b => le a b = true)) :
    (pyInsert le x l).Pairwise (fun a b => le a b = true) := by
  induction l with
  | nil => simp [pyInsert]
  | cons y ys ih =>
    rcases List.pairwise_cons.mp hl with ⟨hy, hys⟩
    unfold pyInsert
    split
    case isTrue h =>
      refine List.pairwise_cons.mpr ⟨?_, hl⟩
      intro z hz
      rcases List.mem_cons.mp hz with rfl | hz
      · exact h
      · exact htrans _ _ _ h (hy z hz)
    case isFalse h =>
      refine List.pairwise_cons.mpr ⟨?_, ih hys⟩
      intro z hz
      have hz' := (pyInsert_perm le x ys).mem_iff.mp hz
      rcases List.mem_cons.mp hz' with rfl | hz'
      · rcases htot z y with h1 | h1
        · exact absurd h1 h
        · exact h1
      · exact hy z hz'

theorem pySorted_pairwise {α : Type} (le : α → α → Bool)
    (htot : ∀ a b, le a b = true ∨ le b a = true)
    (htrans : ∀ a b c, le a b = true → le b c = true → le a c = true)
    (l : List α) : (pySorted le l).Pairwise (fun a b => le a b = true) := by
  induction l with
  | nil => simp [pySorted]
  | cons x xs ih => exact pyInsert_pairwise le htot htrans x (pySorted le xs) ih

theorem faceLt_iff (f g : Face3) : faceLt f g = true ↔
    (f.1 < g.1 ∨ (f.1 = g.1 ∧ (f.2.1 < g.2.1 ∨ (f.2.1 = g.2.1 ∧ f.2.2 < g.2.2)))) := by
  simp [faceLt, Bool.or_eq_true, Bool.and_eq_true, decide_eq_true_eq]

theorem pairLe_iff (a b : ℚ × Face3) : pairLe a b = true ↔
    (a.1 < b.1 ∨ (a.1 = b.1 ∧ (faceLt a.2 b.2 = true ∨ a.2 = b.2))) := by
  simp [pairLe, Bool.or_eq_true, Bool.and_eq_true, decide_eq_true_eq]

theorem face_trichot (f g : Face3) :
    faceLt f g = true ∨ faceLt g f = true ∨ f = g := by
  obtain ⟨fa, fb, fc⟩ := f
  obtain ⟨ga, gb, gc⟩ := g
  rw [faceLt_iff, faceLt_iff]
  simp only [Prod.mk.injEq]
  omega

theorem faceLe_trans (f g h : Face3) :
    (faceLt f g = true ∨ f = g) → (faceLt g h = true ∨ g = h) →
    (faceLt f h = true ∨ f = h) := by
  obtain ⟨fa, fb, fc⟩ := f
  obtain ⟨ga, gb, gc⟩ := g
  obtain ⟨ha, hb, hc⟩ := h
  rw [faceLt_iff, faceLt_iff, faceLt_iff]
  simp only [Prod.mk.injEq]
  omega

theorem pairLe_total (a b : ℚ × Face3) : pairLe a b = true ∨ pairLe b a = true := by
  rw [pairLe_iff, pairLe_iff]
  rcases lt_trichotomy a.1 b.1 with h | h | h
  · exact Or.inl (Or.inl h)
  · rcases face_trichot a.2 b.2 with hf | hf | hf
    · exact Or.inl (Or.inr ⟨h, Or.inl hf⟩)
    · exact Or.inr (Or.inr ⟨h.symm, Or.inl hf⟩)
    · exact Or.inl (Or.inr ⟨h, Or.inr hf⟩)
  · exact Or.inr (Or.inl h)

theorem pairLe_trans (a b c : ℚ × Face3) :
    pairLe a b = true → pairLe b c = true → pairLe a c = true := by
  rw [pairLe_iff, pairLe_iff, pairLe_iff]
  rintro (h1 | ⟨h1, hf1⟩) (h2 | ⟨h2, hf2⟩)
  · exact Or.inl (h1.trans h2)
  · exact Or.inl (h2 ▸ h1)
  · exact Or.inl (h1 ▸ h2)
  · exact Or.inr ⟨h1.trans h2, faceLe_trans _ _ _ hf1 hf2⟩

theorem pairLe_key_le (a b : ℚ × Face3) (h : pairLe a b = true) : a.1 ≤ b.1 := by
  rw [pairLe_iff] at h
  rcases h with h | ⟨h, -⟩
  · exact h.le
  · exact h.le

theorem faceMids_length (verts : List Vertex) :
    ∀ (faces : List Face3) (mids : List Vec3),
    faceMids verts faces = .ok mids → mids.length = faces.length := by
  intro faces
  induction faces with
  | nil => intro mids h; cases h; rfl
  | cons f fs ih =>
    intro mids h
    unfold faceMids at h
    rw [bindOk_iff] at h
    obtain ⟨c, -, h⟩ := h
    rw [bindOk_iff] at h
    obtain ⟨cs, hcs, h⟩ := h
    simp only [exceptPure_eq, Except.ok.injEq] at h
    subst h
    simp [ih cs hcs]

/-- The sort the claim describes, written from the spec's words: a stable
sort of the keyed faces ascending by the distance key alone, ties keeping
their original relative order.  Used only to compare against the code's
`planeBlock`. -/
def specStableBlock (pl : Plane) (mids : List Vec3) (faces : List Face3) : List ℕ :=
  ((pySorted (fun a b => decide (a.1 ≤ b.1)) ((mids.map (sortKey pl)).zip faces)).map
    (fun p => [p.2.1, p.2.2.1, p.2.2.2])).flatten

/-- The three vertices used by the claim C2 counterexample. -/
def c2Verts : List Vertex := [mkPosVertex 0 0 0, mkPosVertex 1 0 0, mkPosVertex 0 1 0]

/-- Two distinct faces over the same vertex set — identical centroids, hence
identical sort keys for every plane. -/
def c2Faces : List Face3 := [(1, 2, 0), (0, 1, 2)]

/-- A concrete sorting plane through the origin. -/
def c2Plane : Plane := ⟨⟨0, 0, 0⟩, ⟨0, 0, 1⟩⟩

/-- Claim C2 counterexample: two faces with equal sort keys do not keep their
original relative order — Python sorts the (distance, face) pairs, so the tie
is broken by comparing the face index triples, reversing the original order
here.  The written block differs from the claim's stable-by-key-only sort. -/
theorem C2_counterexample :
    faceMids c2Verts c2Faces = .ok [⟨1/3, 1/3, 0⟩, ⟨1/3, 1/3, 0⟩] ∧
    planeBlock c2Plane [⟨1/3, 1/3, 0⟩, ⟨1/3, 1/3, 0⟩] c2Faces = [0, 1, 2, 1, 2, 0] ∧
    specStableBlock c2Plane [⟨1/3, 1/3, 0⟩, ⟨1/3, 1/3, 0⟩] c2Faces = [1, 2, 0, 0, 1, 2] ∧
    ([0, 1, 2, 1, 2, 0] : List ℕ) ≠ [1, 2, 0, 0, 1, 2] := by
  refine ⟨?_, ?_, ?_, by decide⟩
  · simp [faceMids, faceCentroid, vertPos, posToVec3, c2Verts, c2Faces, mkPosVertex,
      Vec3.add, Vec3.scale]
  · simp [planeBlock, pySorted, pyInsert, pairLe, faceLt, sortKey, c2Plane, c2Faces,
      Vec3.sub, Vec3.dot]
  · simp [specStableBlock, pySorted, pyInsert, sortKey, c2Plane, c2Faces,
      Vec3.sub, Vec3.dot]

/-- Claim C2 (amended): for every ALPHA_BLEND material and every sorting
plane, the block written for that plane is the keyed face list — each face
paired with the absolute dot product of (centroid − plane point) with the
plane normal — sorted ascending by Python tuple comparison: ascending in the
key with ties broken by ascending lexicographic order of the face triple.
The output is a permutation of the keyed faces, pairwise sorted under that
order, and ascending in the key. -/
theorem C2_theorem (pl : Plane) (verts : List Vertex) (faces : List Face3)
    (mids : List Vec3) (hm : faceMids verts faces = .ok mids) :
    planeBlock pl mids faces =
      ((pySorted pairLe ((mids.map (sortKey pl)).zip faces)).map
        (fun p => [p.2.1, p.2.2.1, p.2.2.2])).flatten ∧
    (pySorted pairLe ((mids.map (sortKey pl)).zip faces)).Perm
      ((mids.map (sortKey pl)).zip faces) ∧
    ((pySorted pairLe ((mids.map (sortKey pl)).zip faces)).map Prod.snd).Perm faces ∧
    (pySorted pairLe ((mids.map (sortKey pl)).zip faces)).Pairwise
      (fun a b => pairLe a b = true) ∧
    ((pySorted pairLe ((mids.map (sortKey pl)).zip faces)).map Prod.fst).Pairwise (· ≤ ·) := by
  have hperm := pySorted_perm pairLe ((mids.map (sortKey pl)).zip faces)
  have hpw := pySorted_pairwise pairLe pairLe_total pairLe_trans
    ((mids.map (sortKey pl)).zip faces)
  refine ⟨rfl, hperm, ?_, hpw, ?_⟩
  · have hlen : faces.length ≤ (mids.map (sortKey pl)).length := by
      rw [List.length_map, faceMids_length verts faces mids hm]
    have hsnd : ((mids.map (sortKey pl)).zip faces).map Prod.snd = faces :=
      List.map_snd_zip _ _ hlen
    have hp2 := hperm.map Prod.snd
    rw [hsnd] at hp2
    exact hp2
  · rw [List.pairwise_map]
    exact hpw.imp (fun h => pairLe_key_le _ _ h)

/-- Witness for the amended claim C2 at the concrete two-face material. -/
theorem C2_witness :
    planeBlock c2Plane [⟨1/3, 1/3, 0⟩, ⟨1/3, 1/3, 0⟩] c2Faces =
      ((pySorted pairLe (([⟨1/3, 1/3, 0⟩, ⟨1/3, 1/3, 0⟩].map (sortKey c2Plane)).zip c2Faces)).map
        (fun p => [p.2.1, p.2.2.1, p.2.2.2])).flatten ∧
    (pySorted pairLe (([⟨1/3, 1/3, 0⟩, ⟨1/3, 1/3, 0⟩].map (sortKey c2Plane)).zip c2Faces)).Perm
      (([⟨1/3, 1/3, 0⟩, ⟨1/3, 1/3, 0⟩].map (sortKey c2Plane)).zip c2Faces) ∧
    ((pySorted pairLe (([⟨1/3, 1/3, 0⟩, ⟨1/3, 1/3, 0⟩].map (sortKey c2Plane)).zip c2Faces)).map
      Prod.snd).Perm c2Faces ∧
    (pySorted pairLe (([⟨1/3, 1/3, 0⟩, ⟨1/3, 1/3, 0⟩].map (sortKey c2Plane)).zip c2Faces)).Pairwise
      (fun a b => pairLe a b = true) ∧
    ((pySorted pairLe (([⟨1/3, 1/3, 0⟩, ⟨1/3, 1/3, 0⟩].map (sortKey c2Plane)).zip c2Faces)).map
      Prod.fst).Pairwise (· ≤ ·) :=
  C2_theorem c2Plane c2Verts c2Faces [⟨1/3, 1/3, 0⟩, ⟨1/3, 1/3, 0⟩]
    (by simp [faceMids, faceCentroid, vertPos, posToVec3, c2Verts, c2Faces, mkPosVertex,
      Vec3.add, Vec3.scale])

/-- The header tokens written by a successful `MeshHeader.save`. -/
def headerToks (v : ℕ) : Toks :=
  [.dword 0, .dword v, .dword 0, .dword 0, .dword 0, .byte 0]

theorem meshHeaderSave_ok {v : ℕ} {t : Toks} (h : MeshHeader.save v = .ok t) :
    t = headerToks v := by
  unfold MeshHeader.save at h
  rw [show wDword 0 = Except.ok [Tok.dword 0] from rfl,
    show wByte 0 = Except.ok [Tok.byte 0] from rfl] at h
  simp only [exceptBind_ok] at h
  rw [bindOk_iff] at h
  obtain ⟨tb, hb, h⟩ := h
  rw [wDword_ok_iff] at hb
  obtain ⟨-, rfl⟩ := hb
  simp only [exceptPure_eq, Except.ok.injEq] at h
  subst h
  rfl

/-- The geometry-skeleton tokens: one lod-count dword per geom. -/
def skelToks (gs : List Geom) : Toks := gs.map (fun g => Tok.dword g.lods.length)

theorem geomSkels_ok : ∀ {gs : List Geom} {t : Toks}, geomSkels gs = .ok t →
    t = skelToks gs := by
  intro gs
  induction gs with
  | nil => intro t h; cases h; rfl
  | cons g rest ih =>
    intro t h
    unfold geomSkels at h
    rw [bindOk_iff] at h
    obtain ⟨t1, h1, h⟩ := h
    rw [bindOk_iff] at h
    obtain ⟨t2, h2, h⟩ := h
    simp only [exceptPure_eq, Except.ok.injEq] at h
    subst h
    rw [show Geom.saveSkel g = wDword g.lods.length from rfl, wDword_ok_iff] at h1
    obtain ⟨-, rfl⟩ := h1
    rw [ih h2]
    rfl

theorem wWords_ok : ∀ {l : List ℕ} {t : Toks}, wWords l = .ok t →
    t = l.map Tok.word := by
  intro l
  induction l with
  | nil => intro t h; cases h; rfl
  | cons n ns ih =>
    intro t h
    unfold wWords at h
    rw [bindOk_iff] at h
    obtain ⟨t1, h1, h⟩ := h
    rw [bindOk_iff] at h
    obtain ⟨t2, h2, h⟩ := h
    simp only [exceptPure_eq, Except.ok.injEq] at h
    subst h
    rw [wWord_ok_iff] at h1
    obtain ⟨-, rfl⟩ := h1
    rw [ih h2]
    rfl

/-- The full shape of a successful export: every section named, with the
complete token stream as their concatenation. -/
theorem bf2Export_shape {gp : GeoParams} {v : ℕ} {transp : Bool} {d : Doc} {t : Toks}
    (h : bf2Export gp v transp d = .ok t) :
    ∃ geoms1 cells idxs vEnd iEnd hab declSize dtoks geoms2 bounds mats,
      exportDecl d.vertexAttributes = .ok (dtoks, declSize) ∧
      saveGeomBuffers transp gp d.vertexAttributes d.geoms 0 0 =
        .ok (geoms1, cells, idxs, vEnd, iEnd, hab) ∧
      saveBoundsGeoms geoms1 = .ok (geoms2, bounds) ∧
      saveMatTablesGeoms transp geoms2 = .ok mats ∧
      declSize ≠ 0 ∧
      t = headerToks v ++ [.dword d.geoms.length] ++ skelToks d.geoms ++ dtoks ++
          [.dword 4, .dword declSize, .dword (cellsBytes cells / declSize), .vraw cells,
           .dword idxs.length] ++ idxs.map Tok.word ++
          (if transp then [.dword (if hab then ALPHA_BLEND_FACE_SET_COUNT else 0)] else []) ++
          bounds ++ mats := by
  unfold bf2Export at h
  rw [bindOk_iff] at h
  obtain ⟨hdr, hhdr, h⟩ := h
  rw [bindOk_iff] at h
  obtain ⟨gc, hgc, h⟩ := h
  rw [bindOk_iff] at h
  obtain ⟨skel, hskel, h⟩ := h
  rw [bindOk_iff] at h
  obtain ⟨⟨dtoks, declSize⟩, hdecl, h⟩ := h
  rw [bindOk_iff] at h
  obtain ⟨prim, hprim, h⟩ := h
  rw [bindOk_iff] at h
  obtain ⟨dsz, hdsz, h⟩ := h
  rw [bindOk_iff] at h
  obtain ⟨⟨geoms1, cells, idxs, vEnd, iEnd, hab⟩, hbuf, h⟩ := h
  dsimp only at h
  by_cases hdsz0 : declSize = 0
  · rw [if_pos hdsz0] at h
    simp at h
  · rw [if_neg hdsz0] at h
    rw [bindOk_iff] at h
    obtain ⟨vcnt, hvcnt, h⟩ := h
    rw [bindOk_iff] at h
    obtain ⟨icnt, hicnt, h⟩ := h
    rw [bindOk_iff] at h
    obtain ⟨iToks, hiToks, h⟩ := h
    rw [wDword_ok_iff] at hgc hprim hdsz hvcnt hicnt
    obtain ⟨-, rfl⟩ := hgc
    obtain ⟨-, rfl⟩ := hprim
    obtain ⟨-, rfl⟩ := hdsz
    obtain ⟨-, rfl⟩ := hvcnt
    obtain ⟨-, rfl⟩ := hicnt
    cases transp with
    | false =>
      rw [if_neg (by simp)] at h
      rw [bindOk_iff] at h
      obtain ⟨ab0, hab0, h⟩ := h
      injection hab0 with hab0e
      subst hab0e
      rw [bindOk_iff] at h
      obtain ⟨gb, hbounds, h⟩ := h
      rw [bindOk_iff] at h
      obtain ⟨mats, hmats, h⟩ := h
      injection h with h2
      subst h2
      refine ⟨geoms1, cells, idxs, vEnd, iEnd, hab, declSize, dtoks, gb.1, gb.2, mats,
        hdecl, hbuf, hbounds, hmats, hdsz0, ?_⟩
      rw [meshHeaderSave_ok hhdr, geomSkels_ok hskel, wWords_ok hiToks]
      simp [headerToks, List.append_assoc]
    | true =>
      rw [if_pos rfl] at h
      rw [bindOk_iff] at h
      obtain ⟨abTok, habTok, h⟩ := h
      rw [bindOk_iff] at h
      obtain ⟨gb, hbounds, h⟩ := h
      rw [bindOk_iff] at h
      obtain ⟨mats, hmats, h⟩ := h
      injection h with h2
      subst h2
      have habTok' : abTok = [Tok.dword (if hab then ALPHA_BLEND_FACE_SET_COUNT else 0)] := by
        cases hab with
        | true =>
          rw [if_pos rfl] at habTok
          rw [wDword_ok_iff] at habTok
          simp [habTok.2]
        | false =>
          rw [if_neg (by simp)] at habTok
          rw [wDword_ok_iff] at habTok
          simp [habTok.2]
      refine ⟨geoms1, cells, idxs, vEnd, iEnd, hab, declSize, dtoks, gb.1, gb.2, mats,
        hdecl, hbuf, hbounds, hmats, hdsz0, ?_⟩
      rw [meshHeaderSave_ok hhdr, geomSkels_ok hskel, wWords_ok hiToks, habTok']
      simp [headerToks, List.append_assoc]

theorem flatten_triples_length : ∀ (l : List Face3),
    ((l.map (fun f => [f.1, f.2.1, f.2.2])).flatten).length = 3 * l.length := by
  intro l
  induction l with
  | nil => rfl
  | cons f fs ih => simp [ih]; omega

/-- One plane's written block: 3·(face count) indices, and a flattening of a
permutation of the material's faces. -/
theorem planeBlock_spec (pl : Plane) (mids : List Vec3) (faces : List Face3)
    (hlen : mids.length = faces.length) :
    (planeBlock pl mids faces).length = 3 * faces.length ∧
    ∃ fs : List Face3, fs.Perm faces ∧
      planeBlock pl mids faces = (fs.map (fun f => [f.1, f.2.1, f.2.2])).flatten := by
  have hlen2 : faces.length ≤ (mids.map (sortKey pl)).length := by
    rw [List.length_map, hlen]
  have hsnd : ((mids.map (sortKey pl)).zip faces).map Prod.snd = faces :=
    List.map_snd_zip _ _ hlen2
  have hperm := pySorted_perm pairLe ((mids.map (sortKey pl)).zip faces)
  have hfs : ((pySorted pairLe ((mids.map (sortKey pl)).zip faces)).map Prod.snd).Perm faces := by
    have hp2 := hperm.map Prod.snd
    rw [hsnd] at hp2
    exact hp2
  have hshape : planeBlock pl mids faces =
      (((pySorted pairLe ((mids.map (sortKey pl)).zip faces)).map Prod.snd).map
        (fun f => [f.1, f.2.1, f.2.2])).flatten := by
    unfold planeBlock
    rw [List.map_map]
    rfl
  constructor
  · rw [hshape, flatten_triples_length, List.length_map, hperm.length_eq,
      List.length_zip, List.length_map, hlen, Nat.min_self]
  · exact ⟨_, hfs, hshape⟩

/-- The sections of a successful `_save_faces_alpha_blend`: 8 sorting planes,
one block per plane, output the concatenation of the per-plane blocks. -/
theorem saveFacesAlphaBlend_shape {gp : GeoParams} {istart : ℕ} {m m2 : Material}
    {out : List ℕ} {ret : ℕ}
    (h : Material.saveFacesAlphaBlend gp istart m = .ok (m2, out, ret)) :
    ∃ (planes : List Plane) (mids : List Vec3), faceMids m.vertices m.faces = .ok mids ∧
      planes.length = ALPHA_BLEND_FACE_SET_COUNT ∧
      mids.length = m.faces.length ∧
      out = (planes.map (fun pl => planeBlock pl mids m.faces)).flatten ∧
      ret = (m.faces.length * 3) * planes.length := by
  unfold Material.saveFacesAlphaBlend at h
  rw [bindOk_iff] at h
  obtain ⟨⟨planes, m1⟩, hplanes, h⟩ := h
  rw [bindOk_iff] at h
  obtain ⟨mids, hmids, h⟩ := h
  injection h with h2
  rw [Prod.mk.injEq, Prod.mk.injEq] at h2
  obtain ⟨-, h4, h5⟩ := h2
  subst h4
  subst h5
  obtain ⟨-, -, -, hplen⟩ := getSortingPlanes_shape hplanes
  exact ⟨planes, mids, hmids, hplen, faceMids_length m.vertices m.faces mids hmids,
    rfl, rfl⟩

theorem saveVertices_shape {attrs : List VAttr} {vs : ℕ} {m m1 : Material}
    {cells : List VCell} (h : Material.saveVertices attrs vs m = .ok (m1, cells)) :
    m1 = { m with vstart := some vs, vnum := some m.vertices.length } ∧
    encodeVertices attrs m.vertices = .ok cells := by
  unfold Material.saveVertices at h
  rw [bindOk_iff] at h
  obtain ⟨c, hc, h⟩ := h
  injection h with h2
  rw [Prod.mk.injEq] at h2
  obtain ⟨h3, h4⟩ := h2
  subst h4
  exact ⟨h3.symm, hc⟩

theorem saveMatBuffers_noblend {transp : Bool} {gp : GeoParams} {attrs : List VAttr} :
    ∀ {mats : List Material} {vs is : ℕ}
      {r : List Material × List VCell × List ℕ × ℕ × ℕ × Bool},
    (∀ m ∈ mats, m.alphaMode ≠ some .amBlend) →
    saveMatBuffers transp gp attrs mats vs is = .ok r → r.2.2.2.2.2 = false := by
  intro mats
  induction mats with
  | nil =>
    intro vs is r hnb h
    injection h with h2
    subst h2
    rfl
  | cons m ms ih =>
    intro vs is r hnb h
    unfold saveMatBuffers at h
    rw [bindOk_iff] at h
    obtain ⟨⟨m1, cells⟩, hsv, h⟩ := h
    rw [bindOk_iff] at h
    obtain ⟨⟨m2, idxs, ret⟩, hsf, h⟩ := h
    rw [bindOk_iff] at h
    obtain ⟨⟨ms', cs, ix, vE, iE, hab⟩, hrec, h⟩ := h
    injection h with h2
    subst h2
    have hflag : hab = false := ih (fun x hx => hnb x (List.mem_cons_of_mem m hx)) hrec
    have hm : (decide (m.alphaMode = some AlphaMode.amBlend)) = false := by
      simp [hnb m (List.mem_cons_self m ms)]
    simp [hflag, hm]

theorem saveLodBuffers_noblend {transp : Bool} {gp : GeoParams} {attrs : List VAttr} :
    ∀ {lods : List Lod} {vs is : ℕ}
      {r : List Lod × List VCell × List ℕ × ℕ × ℕ × Bool},
    (∀ l ∈ lods, ∀ m ∈ l.materials, m.alphaMode ≠ some .amBlend) →
    saveLodBuffers transp gp attrs lods vs is = .ok r → r.2.2.2.2.2 = false := by
  intro lods
  induction lods with
  | nil =>
    intro vs is r hnb h
    injection h with h2
    subst h2
    rfl
  | cons l ls ih =>
    intro vs is r hnb h
    unfold saveLodBuffers at h
    rw [bindOk_iff] at h
    obtain ⟨⟨ms', cells, ix, vs1, is1, h1⟩, hmats, h⟩ := h
    rw [bindOk_iff] at h
    obtain ⟨⟨ls', cells2, ix2, vs2, is2, h2f⟩, hrec, h⟩ := h
    injection h with h2
    subst h2
    have ha : h1 = false :=
      saveMatBuffers_noblend (hnb l (List.mem_cons_self l ls)) hmats
    have hb : h2f = false := ih (fun x hx => hnb x (List.mem_cons_of_mem l hx)) hrec
    simp [ha, hb]

theorem saveGeomBuffers_noblend {transp : Bool} {gp : GeoParams} {attrs : List VAttr} :
    ∀ {geoms : List Geom} {vs is : ℕ}
      {r : List Geom × List VCell × List ℕ × ℕ × ℕ × Bool},
    (∀ g ∈ geoms, ∀ l ∈ g.lods, ∀ m ∈ l.materials, m.alphaMode ≠ some .amBlend) →
    saveGeomBuffers transp gp attrs geoms vs is = .ok r → r.2.2.2.2.2 = false := by
  intro geoms
  induction geoms with
  | nil =>
    intro vs is r hnb h
    injection h with h2
    subst h2
    rfl
  | cons g gs ih =>
    intro vs is r hnb h
    unfold saveGeomBuffers at h
    rw [bindOk_iff] at h
    obtain ⟨⟨ls', cells, ix, vs1, is1, h1⟩, hlods, h⟩ := h
    rw [bindOk_iff] at h
    obtain ⟨⟨gs', cells2, ix2, vs2, is2, h2f⟩, hrec, h⟩ := h
    injection h with h2
    subst h2
    have ha : h1 = false :=
      saveLodBuffers_noblend (hnb g (List.mem_cons_self g gs)) hlods
    have hb : h2f = false := ih (fun x hx => hnb x (List.mem_cons_of_mem g hx)) hrec
    simp [ha, hb]

/-- Claim C7: saving a transparency-capable document with exactly one
ALPHA_BLEND material of 2 faces appends exactly 8 contiguous blocks of 6
indices to the shared index buffer (one block per sorting plane, each block a
full ordering of the material's faces), preceded by the index-count dword and
followed by the document-wide alpha-blend face-set-count dword 8; a
transparency-capable document with no ALPHA_BLEND material writes 0 in that
field. -/
theorem C7_theorem (gp : GeoParams) (v : ℕ) (mb xb : Option (FlQ × FlQ × FlQ))
    (m : Material) (attrs : List VAttr) (t : Toks)
    (hblend : m.alphaMode = some .amBlend) (hfaces : m.faces.length = 2)
    (h : bf2Export gp v true
      ⟨[{ lods := [{ minB := mb, maxB := xb, materials := [m] }] }], attrs⟩ = .ok t) :
    (∃ (pre post : Toks) (blocks : List (List ℕ)),
      t = pre ++ [.dword blocks.flatten.length] ++ blocks.flatten.map Tok.word ++
        [.dword 8] ++ post ∧
      blocks.length = 8 ∧
      ∀ b ∈ blocks, b.length = 6 ∧
        ∃ fs : List Face3, fs.Perm m.faces ∧
          b = (fs.map (fun f => [f.1, f.2.1, f.2.2])).flatten) ∧
    (∀ (d2 : Doc) (t2 : Toks),
      (∀ g ∈ d2.geoms, ∀ l ∈ g.lods, ∀ m2 ∈ l.materials, m2.alphaMode ≠ some .amBlend) →
      bf2Export gp v true d2 = .ok t2 →
      ∃ (pre2 post2 : Toks) (idxs2 : List ℕ),
        t2 = pre2 ++ [.dword idxs2.length] ++ idxs2.map Tok.word ++ [.dword 0] ++ post2) := by
  constructor
  · obtain ⟨geoms1, cells, idxs, vEnd, iEnd, hab, declSize, dtoks, geoms2, bounds, mats,
      hdecl, hbuf, hbounds, hmats, hdsz0, ht⟩ := bf2Export_shape h
    unfold saveGeomBuffers at hbuf
    rw [bindOk_iff] at hbuf
    obtain ⟨⟨ls', cellsA, ixA, vs1, is1, h1⟩, hlods, hbuf⟩ := hbuf
    rw [bindOk_iff] at hbuf
    obtain ⟨r2, hr2, hbuf⟩ := hbuf
    rw [show saveGeomBuffers true gp attrs [] vs1 is1 =
      .ok ([], [], [], vs1, is1, false) from rfl] at hr2
    injection hr2 with hr2e
    subst hr2e
    injection hbuf with hbufe
    rw [Prod.mk.injEq, Prod.mk.injEq, Prod.mk.injEq, Prod.mk.injEq, Prod.mk.injEq] at hbufe
    obtain ⟨hg1, hc1, hx1, -, -, hhab⟩ := hbufe
    unfold saveLodBuffers at hlods
    rw [bindOk_iff] at hlods
    obtain ⟨⟨ms', cellsB, ixB, vsB, isB, hB⟩, hmatsb, hlods⟩ := hlods
    rw [bindOk_iff] at hlods
    obtain ⟨rL, hrL, hlods⟩ := hlods
    rw [show saveLodBuffers true gp attrs [] vsB isB =
      .ok ([], [], [], vsB, isB, false) from rfl] at hrL
    injection hrL with hrLe
    subst hrLe
    injection hlods with hlodse
    rw [Prod.mk.injEq, Prod.mk.injEq, Prod.mk.injEq, Prod.mk.injEq, Prod.mk.injEq] at hlodse
    obtain ⟨-, hc2, hx2, -, -, hhab2⟩ := hlodse
    unfold saveMatBuffers at hmatsb
    rw [bindOk_iff] at hmatsb
    obtain ⟨⟨m1, cells1⟩, hsv, hmatsb⟩ := hmatsb
    rw [bindOk_iff] at hmatsb
    obtain ⟨⟨m2, out, ret⟩, hsf, hmatsb⟩ := hmatsb
    rw [bindOk_iff] at hmatsb
    obtain ⟨rM, hrM, hmatsb⟩ := hmatsb
    rw [show saveMatBuffers true gp attrs [] (0 + m.vertices.length) (0 + ret) =
      .ok ([], [], [], 0 + m.vertices.length, 0 + ret, false) from rfl] at hrM
    injection hrM with hrMe
    subst hrMe
    injection hmatsb with hmatsbe
    rw [Prod.mk.injEq, Prod.mk.injEq, Prod.mk.injEq, Prod.mk.injEq, Prod.mk.injEq] at hmatsbe
    obtain ⟨-, hc3, hx3, -, -, hhab3⟩ := hmatsbe
    obtain ⟨hm1, -⟩ := saveVertices_shape hsv
    have hm1a : m1.alphaMode = some .amBlend := by rw [hm1]; exact hblend
    have hm1f : m1.faces = m.faces := by rw [hm1]
    have hm1v : m1.vertices = m.vertices := by rw [hm1]
    unfold Material.saveFacesDispatch at hsf
    rw [if_pos ⟨rfl, hm1a⟩] at hsf
    obtain ⟨planes, mids, hmids, hplen, hmlen, hout, -⟩ := saveFacesAlphaBlend_shape hsf
    rw [hm1f] at hout hmlen
    rw [hm1v, hm1f] at hmids
    have hidxs : idxs = (planes.map (fun pl => planeBlock pl mids m.faces)).flatten := by
      rw [← hx1, ← hx2, ← hx3, hout]
      simp
    have hhabt : hab = true := by
      rw [← hhab, ← hhab2, ← hhab3]
      simp [hblend]
    refine ⟨headerToks v ++ [.dword 1] ++
        skelToks [{ lods := [{ minB := mb, maxB := xb, materials := [m] }] }] ++ dtoks ++
        [.dword 4, .dword declSize, .dword (cellsBytes cells / declSize), .vraw cells],
      bounds ++ mats, planes.map (fun pl => planeBlock pl mids m.faces), ?_, by simp [hplen, ALPHA_BLEND_FACE_SET_COUNT], ?_⟩
    · rw [ht, hhabt, hidxs]
      simp [ALPHA_BLEND_FACE_SET_COUNT, List.append_assoc]
    · intro b hb
      obtain ⟨pl, -, rfl⟩ := List.mem_map.mp hb
      obtain ⟨hlen, fs, hperm, hflat⟩ := planeBlock_spec pl mids m.faces hmlen
      exact ⟨by rw [hlen, hfaces], fs, hperm, hflat⟩
  · intro d2 t2 hnb h2
    obtain ⟨geoms1, cells, idxs, vEnd, iEnd, hab, declSize, dtoks, geoms2, bounds, mats,
      hdecl, hbuf, hbounds, hmats, hdsz0, ht⟩ := bf2Export_shape h2
    have hfalse : hab = false := saveGeomBuffers_noblend hnb hbuf
    refine ⟨headerToks v ++ [.dword d2.geoms.length] ++ skelToks d2.geoms ++ dtoks ++
        [.dword 4, .dword declSize, .dword (cellsBytes cells / declSize), .vraw cells],
      bounds ++ mats, idxs, ?_⟩
    rw [ht, hfalse]
    simp [List.append_assoc]

/-- Concrete geometric parameters for the C7 witness (all sorting-plane
normals degenerate to `(0, 0, -1)`, radius 0). -/
def c7gp : GeoParams := ⟨fun _ => 0, fun _ => ⟨0, 0, -1⟩⟩

/-- The single ALPHA_BLEND material with 2 faces of the C7 witness. -/
def c7Mat : Material :=
  { fxfile := "a.fx", technique := "Base", maps := [],
    vertices := [mkPosVertex 0 0 0, mkPosVertex 1 0 0, mkPosVertex 0 1 0],
    faces := [(0, 1, 2), (0, 2, 1)], alphaMode := some .amBlend }

/-- The same material with ALPHA_TEST instead, for the zero-count half. -/
def c7bMat : Material := { c7Mat with alphaMode := some .amTest }

/-- The declaration table of the C7 witness. -/
def c7Attrs : List VAttr := [{ declType := .float3, declUsage := .position }]

/-- The exported token stream of the ALPHA_TEST variant document. -/
def bf2ExportTestToks : Toks :=
  [.dword 0, .dword 11, .dword 0, .dword 0, .dword 0, .byte 0, .dword 1, .dword 1,
   .dword 2, .word 0, .word 0, .word 2, .word 0, .word 255, .word 0, .word 17, .word 0,
   .dword 4, .dword 12, .dword 3,
   .vraw [.f 0, .f 0, .f 0, .f 1, .f 0, .f 0, .f 0, .f 1, .f 0],
   .dword 6, .word 0, .word 1, .word 2, .word 0, .word 2, .word 1,
   .dword 0,
   .flt (.q 0), .flt (.q 0), .flt (.q 0), .flt (.q 1), .flt (.q 1), .flt (.q 0),
   .dword 1, .dword 2, .str "a.fx", .str "Base", .dword 0, .dword 0, .dword 0,
   .dword 6, .dword 3, .dword 0, .dword 0]

set_option maxHeartbeats 2000000 in
/-- The exported token stream of the one-ALPHA_BLEND-material document. -/
def c7Toks : Toks :=
  [.dword 0, .dword 11, .dword 0, .dword 0, .dword 0, .byte 0, .dword 1, .dword 1,
   .dword 2, .word 0, .word 0, .word 2, .word 0, .word 255, .word 0, .word 17, .word 0,
   .dword 4, .dword 12, .dword 3,
   .vraw [.f 0, .f 0, .f 0, .f 1, .f 0, .f 0, .f 0, .f 1, .f 0],
   .dword 48,
   .word 0, .word 1, .word 2, .word 0, .word 2, .word 1,
   .word 0, .word 1, .word 2, .word 0, .word 2, .word 1,
   .word 0, .word 1, .word 2, .word 0, .word 2, .word 1,
   .word 0, .word 1, .word 2, .word 0, .word 2, .word 1,
   .word 0, .word 1, .word 2, .word 0, .word 2, .word 1,
   .word 0, .word 1, .word 2, .word 0, .word 2, .word 1,
   .word 0, .word 1, .word 2, .word 0, .word 2, .word 1,
   .word 0, .word 1, .word 2, .word 0, .word 2, .word 1,
   .dword 8,
   .flt (.q 0), .flt (.q 0), .flt (.q 0), .flt (.q 1), .flt (.q 1), .flt (.q 0),
   .dword 1, .dword 1, .str "a.fx", .str "Base", .dword 0, .dword 0, .dword 0,
   .dword 6, .dword 3, .dword 0, .dword 0]

set_option maxHeartbeats 2000000 in
/-- Witness for claim C7: the concrete one-ALPHA_BLEND-material export carries
8 blocks of 6 indices and the face-set-count dword 8; the ALPHA_TEST variant
carries the face-set-count dword 0. -/
theorem C7_witness :
    (∃ (pre post : Toks) (blocks : List (List ℕ)),
      c7Toks = pre ++ [.dword blocks.flatten.length] ++ blocks.flatten.map Tok.word ++
        [.dword 8] ++ post ∧
      blocks.length = 8 ∧
      ∀ b ∈ blocks, b.length = 6 ∧
        ∃ fs : List Face3, fs.Perm c7Mat.faces ∧
          b = (fs.map (fun f => [f.1, f.2.1, f.2.2])).flatten) ∧
    (∃ (pre2 post2 : Toks) (idxs2 : List ℕ),
      bf2ExportTestToks = pre2 ++ [.dword idxs2.length] ++ idxs2.map Tok.word ++
        [.dword 0] ++ post2) := by
  have h1 : bf2Export c7gp 11 true ⟨[{ lods := [{ materials := [c7Mat] }] }], c7Attrs⟩ =
      .ok c7Toks := by
    simp [bf2Export, MeshHeader.save, wDword, wByte, geomSkels, Geom.saveSkel,
      exportDecl, declRows, VAttr.saveRow, optWord, wWord, saveGeomBuffers, saveLodBuffers,
      saveMatBuffers, Material.saveVertices, encodeVertices, encodeVertex, packCells,
      cellsMatchFmt, Material.saveFacesDispatch, Material.saveFacesAlphaBlend,
      Material.getSortingPlanes, Material.calcBounds, posToVec3, positionsOf, calcBoundsVecs,
      faceMids, faceCentroid, vertPos, Vec3.add, Vec3.scale, sortKey, Vec3.sub, Vec3.dot,
      planeBlock, pySorted, pyInsert, pairLe, faceLt, wWords, saveBoundsGeoms, saveBoundsLods,
      Lod.savePartsRigs, savePartsRigsGo, updMin, updMax, FlQ.ltQ, saveMatTablesGeoms,
      saveMatTablesLods, Lod.saveMaterials, matRows, Material.saveRow, Material.saveCommon,
      wString, optDword, AlphaMode.code, cellsBytes, VCell.width, fmtSize, CellKind.width,
      ALPHA_BLEND_FACE_SET_COUNT, c7Mat, c7Attrs, c7gp, sentinelRow, mkPosVertex, Vertex.get,
      vaUSED, vaUNUSED, D3DDECLTYPE.getStructFmt, D3DDECLTYPE.code, D3DDECLUSAGE.code,
      VCell.kind, vmin, vmax, c7Toks]
  have h2 : bf2Export c7gp 11 true ⟨[{ lods := [{ materials := [c7bMat] }] }], c7Attrs⟩ =
      .ok bf2ExportTestToks := by
    simp [bf2Export, MeshHeader.save, wDword, wByte, geomSkels, Geom.saveSkel,
      exportDecl, declRows, VAttr.saveRow, optWord, wWord, saveGeomBuffers, saveLodBuffers,
      saveMatBuffers, Material.saveVertices, encodeVertices, encodeVertex, packCells,
      cellsMatchFmt, Material.saveFacesDispatch, Material.saveFacesPlain,
      Material.calcBounds, posToVec3, positionsOf, calcBoundsVecs,
      wWords, saveBoundsGeoms, saveBoundsLods,
      Lod.savePartsRigs, savePartsRigsGo, updMin, updMax, FlQ.ltQ, saveMatTablesGeoms,
      saveMatTablesLods, Lod.saveMaterials, matRows, Material.saveRow, Material.saveCommon,
      wString, optDword, AlphaMode.code, cellsBytes, VCell.width, fmtSize, CellKind.width,
      ALPHA_BLEND_FACE_SET_COUNT, c7bMat, c7Mat, c7Attrs, c7gp, sentinelRow, mkPosVertex,
      Vertex.get, vaUSED, vaUNUSED, D3DDECLTYPE.getStructFmt, D3DDECLTYPE.code,
      D3DDECLUSAGE.code, VCell.kind, vmin, vmax, bf2ExportTestToks]
  obtain ⟨p1, p2⟩ := C7_theorem c7gp 11 none none c7Mat c7Attrs c7Toks rfl rfl h1
  refine ⟨p1, p2 ⟨[{ lods := [{ materials := [c7bMat] }] }], c7Attrs⟩ bf2ExportTestToks ?_ h2⟩
  intro g hg l hl m2 hm2
  rcases List.mem_singleton.mp hg with rfl
  rcases List.mem_singleton.mp hl with rfl
  rcases List.mem_singleton.mp hm2 with rfl
  simp [c7bMat, c7Mat]

/-- The structural content of a material named by the round-trip claim:
shader string, technique string, texture maps, vertices and faces. -/
def matKey (m : Material) : String × String × List String × List Vertex × List (ℕ × ℕ × ℕ) :=
  (m.fxfile, m.technique, m.maps, m.vertices, m.faces)

/-- A vertex is clean for a declaration table when every channel that no
declaration row names is unset (the spec's data-model invariant: a channel
absent from the declaration table is always unset). -/
def vertexClean (attrs : List VAttr) (vtx : Vertex) : Prop :=
  ∀ u : D3DDECLUSAGE, (∀ a ∈ attrs, a.declUsage ≠ u) → vtx.get u = none

theorem packCells_ok {fmt : List CellKind} {vals p : List VCell}
    (h : packCells fmt vals = .ok p) : p = vals ∧ cellsMatchFmt fmt vals = true := by
  unfold packCells at h
  split at h
  · cases h
    exact ⟨rfl, by assumption⟩
  · cases h

theorem cellsMatchFmt_bytes : ∀ {fmt : List CellKind} {vals : List VCell},
    cellsMatchFmt fmt vals = true → cellsBytes vals = fmtSize fmt := by
  intro fmt
  induction fmt with
  | nil =>
    intro vals h
    cases vals with
    | nil => rfl
    | cons v vs => simp [cellsMatchFmt] at h
  | cons k ks ih =>
    intro vals h
    cases vals with
    | nil => simp [cellsMatchFmt] at h
    | cons v vs =>
      simp only [cellsMatchFmt, Bool.and_eq_true, decide_eq_true_eq] at h
      obtain ⟨hk, hrest⟩ := h
      simp [cellsBytes, fmtSize] at ih ⊢
      rw [ih hrest, ← hk]
      cases v <;> simp [VCell.width, VCell.kind, CellKind.width]

theorem cellWidth_pos (c : VCell) : 0 < c.width := by
  cases c <;> simp [VCell.width]

theorem takeCells_zero (cs : List VCell) : takeCells cs 0 = some [] := by
  cases cs <;> rfl

theorem dropCells_zero (cs : List VCell) : dropCells cs 0 = some cs := by
  cases cs <;> rfl

theorem takeCells_succ (c : VCell) (cs : List VCell) (n : ℕ) :
    takeCells (c :: cs) (n + 1) =
      if c.width ≤ n + 1 then (takeCells cs (n + 1 - c.width)).map (c :: ·) else none := rfl

theorem dropCells_succ (c : VCell) (cs : List VCell) (n : ℕ) :
    dropCells (c :: cs) (n + 1) =
      if c.width ≤ n + 1 then dropCells cs (n + 1 - c.width) else none := rfl

theorem takeCells_prefix : ∀ (xs ys : List VCell),
    takeCells (xs ++ ys) (cellsBytes xs) = some xs := by
  intro xs
  induction xs with
  | nil =>
    intro ys
    show takeCells ys 0 = some []
    exact takeCells_zero ys
  | cons c cs ih =>
    intro ys
    have hw := cellWidth_pos c
    have hcw : cellsBytes (c :: cs) = c.width + cellsBytes cs := by simp [cellsBytes]
    obtain ⟨k, hk⟩ : ∃ k, cellsBytes (c :: cs) = k + 1 := ⟨cellsBytes (c :: cs) - 1, by omega⟩
    rw [hk]
    show takeCells (c :: (cs ++ ys)) (k + 1) = some (c :: cs)
    rw [takeCells_succ, if_pos (by omega)]
    have harg : k + 1 - c.width = cellsBytes cs := by omega
    rw [harg, ih ys]
    rfl

theorem dropCells_suffix : ∀ (xs ys : List VCell),
    dropCells (xs ++ ys) (cellsBytes xs) = some ys := by
  intro xs
  induction xs with
  | nil =>
    intro ys
    show dropCells ys 0 = some ys
    exact dropCells_zero ys
  | cons c cs ih =>
    intro ys
    have hw := cellWidth_pos c
    have hcw : cellsBytes (c :: cs) = c.width + cellsBytes cs := by simp [cellsBytes]
    obtain ⟨k, hk⟩ : ∃ k, cellsBytes (c :: cs) = k + 1 := ⟨cellsBytes (c :: cs) - 1, by omega⟩
    rw [hk]
    show dropCells (c :: (cs ++ ys)) (k + 1) = some ys
    rw [dropCells_succ, if_pos (by omega)]
    have harg : k + 1 - c.width = cellsBytes cs := by omega
    rw [harg, ih ys]

theorem dropCells_add : ∀ (buf l : List VCell) (n k : ℕ),
    dropCells buf n = some l → dropCells buf (n + k) = dropCells l k := by
  intro buf
  induction buf with
  | nil =>
    intro l n k h
    cases n with
    | zero =>
      rw [dropCells_zero] at h
      injection h with h
      subst h
      rw [Nat.zero_add]
    | succ n' => cases h
  | cons c cs ih =>
    intro l n k h
    cases n with
    | zero =>
      rw [dropCells_zero] at h
      injection h with h
      subst h
      rw [Nat.zero_add]
    | succ n' =>
      rw [dropCells_succ] at h
      split at h
      case isTrue hle =>
        cases k with
        | zero => rw [dropCells_zero]; rw [Nat.add_zero]; rw [dropCells_succ, if_pos hle]; exact h
        | succ k' =>
          have hstep : n' + 1 + (k' + 1) = (n' + k' + 1) + 1 := by omega
          rw [hstep, dropCells_succ, if_pos (by omega)]
          have h2 := ih l (n' + 1 - c.width) (k' + 1) h
          have harg : n' + k' + 1 + 1 - c.width = (n' + 1 - c.width) + (k' + 1) := by omega
          rw [harg]
          exact h2
      case isFalse => cases h

theorem Vertex.get_default (u : D3DDECLUSAGE) : (({} : Vertex)).get u = none := by
  cases u <;> rfl

theorem Vertex.get_set_same (u : D3DDECLUSAGE) (x : List VCell) (v : Vertex) :
    (v.set u x).get u = some x := by
  cases u <;> rfl

theorem Vertex.get_set_other (u u' : D3DDECLUSAGE) (x : List VCell) (v : Vertex)
    (h : u ≠ u') : (v.set u' x).get u = v.get u := by
  cases u <;> cases u' <;> first | exact absurd rfl h | rfl

theorem Vertex.ext_get (v w : Vertex) (h : ∀ u, v.get u = w.get u) : v = w := by
  have h1 := h .position
  have h2 := h .blendweight
  have h3 := h .blendindices
  have h4 := h .normal
  have h5 := h .psize
  have h6 := h .texcoord0
  have h7 := h .texcoord1
  have h8 := h .texcoord2
  have h9 := h .texcoord3
  have h10 := h .texcoord4
  have h11 := h .tangent
  have h12 := h .binormal
  have h13 := h .tessfactor
  have h14 := h .positiont
  have h15 := h .color
  have h16 := h .fog
  have h17 := h .depth
  have h18 := h .sample
  cases v
  cases w
  simp only [Vertex.get] at h1 h2 h3 h4 h5 h6 h7 h8 h9 h10 h11 h12 h13 h14 h15 h16 h17 h18
  simp only [Vertex.mk.injEq]
  exact ⟨h1, h2, h3, h4, h5, h6, h7, h8, h9, h10, h11, h12, h13, h14, h15, h16, h17, h18⟩

theorem attrSize_of_fmt {a : VAttr} {fmt : List CellKind}
    (h : a.declType.getStructFmt = some fmt) : attrSize a = fmtSize fmt := by
  simp [attrSize, h]

theorem encodeVertex_bytes : ∀ (attrs : List VAttr) (vtx : Vertex) (cells : List VCell),
    (∀ a ∈ attrs, a.flag ≠ some vaUNUSED) →
    encodeVertex attrs vtx = .ok cells →
    cellsBytes cells = (attrs.map attrSize).sum := by
  intro attrs
  induction attrs with
  | nil =>
    intro vtx cells _ h
    cases h
    rfl
  | cons a rest ih =>
    intro vtx cells hU h
    unfold encodeVertex at h
    rw [if_neg (hU a (by simp))] at h
    cases hfmt : a.declType.getStructFmt with
    | none => rw [hfmt] at h; cases h
    | some fmt =>
      rw [hfmt] at h
      cases hv : vtx.get a.declUsage with
      | none => rw [hv] at h; cases h
      | some value =>
        rw [hv] at h
        dsimp only at h
        rw [bindOk_iff] at h
        obtain ⟨packed, hpack, h⟩ := h
        rw [bindOk_iff] at h
        obtain ⟨tl, htl, h⟩ := h
        injection h with h
        subst h
        obtain ⟨hpv, hmatch⟩ := packCells_ok hpack
        subst hpv
        have hbytes := cellsMatchFmt_bytes hmatch
        have hrest := ih vtx tl (fun a' ha' => hU a' (by simp [ha'])) htl
        simp [cellsBytes] at hbytes hrest ⊢
        rw [hbytes, hrest, attrSize_of_fmt hfmt]

theorem encodeVertices_bytes : ∀ (verts : List Vertex) (attrs : List VAttr)
    (cells : List VCell),
    (∀ a ∈ attrs, a.flag ≠ some vaUNUSED) →
    encodeVertices attrs verts = .ok cells →
    cellsBytes cells = verts.length * (attrs.map attrSize).sum := by
  intro verts
  induction verts with
  | nil =>
    intro attrs cells _ h
    cases h
    simp [cellsBytes]
  | cons v vs ih =>
    intro attrs cells hU h
    unfold encodeVertices at h
    rw [bindOk_iff] at h
    obtain ⟨c, hc, h⟩ := h
    rw [bindOk_iff] at h
    obtain ⟨cs, hcs, h⟩ := h
    injection h with h
    subst h
    have h1 := encodeVertex_bytes attrs v c hU hc
    have h2 := ih attrs cs hU hcs
    simp [cellsBytes] at h1 h2 ⊢
    rw [h1, h2]
    ring

/-- Decoding the laid-out declaration rows of a record written by
`encodeVertex` recovers every channel of the encoded vertex. -/
theorem decodeVertexAux_of_encode :
    ∀ (attrs : List VAttr) (acc : ℕ) (vtx v0 : Vertex) (cells tail buf : List VCell)
      (declSize i : ℕ),
    (∀ a ∈ attrs, a.flag ≠ some vaUNUSED) →
    encodeVertex attrs vtx = .ok cells →
    dropCells buf (i * declSize + acc) = some (cells ++ tail) →
    (∀ u, v0.get u = vtx.get u ∨ (v0.get u = none ∧ ∃ a ∈ attrs, a.declUsage = u)) →
    ∃ vout, decodeVertexAux declSize buf i (layoutAttrs acc attrs) v0 = .ok vout ∧
      ∀ u, vout.get u = vtx.get u := by
  intro attrs
  induction attrs with
  | nil =>
    intro acc vtx v0 cells tail buf declSize i _ henc _ hinv
    refine ⟨v0, rfl, ?_⟩
    intro u
    rcases hinv u with h | ⟨_, a, ha, _⟩
    · exact h
    · cases ha
  | cons a rest ih =>
    intro acc vtx v0 cells tail buf declSize i hU henc hdrop hinv
    unfold encodeVertex at henc
    rw [if_neg (hU a (by simp))] at henc
    cases hfmt : a.declType.getStructFmt with
    | none => rw [hfmt] at henc; cases henc
    | some fmt =>
      rw [hfmt] at henc
      cases hv : vtx.get a.declUsage with
      | none => rw [hv] at henc; cases henc
      | some value =>
        rw [hv] at henc
        dsimp only at henc
        rw [bindOk_iff] at henc
        obtain ⟨packed, hpack, henc⟩ := henc
        rw [bindOk_iff] at henc
        obtain ⟨tl, htl, henc⟩ := henc
        injection henc with henc
        subst henc
        obtain ⟨hpv, hmatch⟩ := packCells_ok hpack
        subst hpv
        have hbytes := cellsMatchFmt_bytes hmatch
        rw [List.append_assoc] at hdrop
        have hslice : sliceCells buf (i * declSize + acc) (fmtSize fmt) = some packed := by
          rw [sliceCells, hdrop]
          show takeCells (packed ++ (tl ++ tail)) (fmtSize fmt) = some packed
          rw [← hbytes]
          exact takeCells_prefix packed (tl ++ tail)
        have hstep : decodeAttr declSize buf i
            { a with flag := some vaUSED, offset := some acc } v0 =
            .ok (v0.set a.declUsage packed) := by
          unfold decodeAttr
          rw [if_neg (by simp [vaUSED, vaUNUSED])]
          simp only [hfmt, hslice, unpackCells]
          rw [if_pos hmatch]
          rfl
        have hdrop' : dropCells buf (i * declSize + (acc + attrSize a)) =
            some (tl ++ tail) := by
          have h1 : i * declSize + (acc + attrSize a) =
              (i * declSize + acc) + cellsBytes packed := by
            rw [attrSize_of_fmt hfmt, ← hbytes]
            omega
          rw [h1, dropCells_add buf (packed ++ (tl ++ tail)) _ _ hdrop]
          exact dropCells_suffix packed (tl ++ tail)
        have hinv' : ∀ u, (v0.set a.declUsage packed).get u = vtx.get u ∨
            ((v0.set a.declUsage packed).get u = none ∧ ∃ b ∈ rest, b.declUsage = u) := by
          intro u
          by_cases hu : u = a.declUsage
          · subst hu
            left
            rw [Vertex.get_set_same, hv]
          · rw [Vertex.get_set_other u a.declUsage packed v0 hu]
            rcases hinv u with h | ⟨hn, b, hb, hbu⟩
            · exact Or.inl h
            · right
              refine ⟨hn, b, ?_, hbu⟩
              rcases List.mem_cons.mp hb with h | h
              · exact absurd (h ▸ hbu) (Ne.symm hu)
              · exact h
        obtain ⟨vout, hrun, hget⟩ := ih (acc + attrSize a) vtx (v0.set a.declUsage packed)
          tl tail buf declSize i (fun b hb => hU b (by simp [hb])) htl hdrop' hinv'
        refine ⟨vout, ?_, hget⟩
        show (do
          let v' ← decodeAttr declSize buf i
            { a with flag := some vaUSED, offset := some acc } v0
          decodeVertexAux declSize buf i (layoutAttrs (acc + attrSize a) rest) v') = .ok vout
        rw [hstep]
        exact hrun

/-- Decoding a run of records written by `encodeVertices` from position `i` of
the shared buffer recovers the encoded vertex list, provided every channel
outside the declaration table is unset. -/
theorem loadVerticesRange_of_encode :
    ∀ (verts : List Vertex) (attrs : List VAttr) (declSize i : ℕ)
      (cellsM tail buf : List VCell),
    (∀ a ∈ attrs, a.flag ≠ some vaUNUSED) →
    (attrs.map attrSize).sum = declSize →
    (∀ vtx ∈ verts, vertexClean attrs vtx) →
    encodeVertices attrs verts = .ok cellsM →
    dropCells buf (i * declSize) = some (cellsM ++ tail) →
    loadVerticesRange declSize (layoutAttrs 0 attrs) buf i verts.length = .ok verts := by
  intro verts
  induction verts with
  | nil =>
    intro attrs declSize i cellsM tail buf _ _ _ _ _
    rfl
  | cons v vs ih =>
    intro attrs declSize i cellsM tail buf hU hds hclean henc hdrop
    unfold encodeVertices at henc
    rw [bindOk_iff] at henc
    obtain ⟨c, hc, henc⟩ := henc
    rw [bindOk_iff] at henc
    obtain ⟨cs, hcs, henc⟩ := henc
    injection henc with henc
    subst henc
    have hdrop0 : dropCells buf (i * declSize + 0) = some (c ++ (cs ++ tail)) := by
      rw [Nat.add_zero, hdrop, List.append_assoc]
    have hinv0 : ∀ u, (({} : Vertex)).get u = v.get u ∨
        ((({} : Vertex)).get u = none ∧ ∃ a ∈ attrs, a.declUsage = u) := by
      intro u
      by_cases hex : ∃ a ∈ attrs, a.declUsage = u
      · exact Or.inr ⟨Vertex.get_default u, hex⟩
      · left
        rw [Vertex.get_default u]
        have : ∀ a ∈ attrs, a.declUsage ≠ u := by
          intro a ha hau
          exact hex ⟨a, ha, hau⟩
        exact (hclean v (by simp) u this).symm
    obtain ⟨vout, hrun, hget⟩ := decodeVertexAux_of_encode attrs 0 v {} c (cs ++ tail)
      buf declSize i hU hc hdrop0 hinv0
    have hvout : vout = v := Vertex.ext_get vout v hget
    rw [hvout] at hrun
    have hdrop' : dropCells buf ((i + 1) * declSize) = some (cs ++ tail) := by
      have h1 : (i + 1) * declSize = i * declSize + cellsBytes c := by
        rw [encodeVertex_bytes attrs v c hU hc, hds]
        ring
      rw [h1, dropCells_add buf (c ++ cs ++ tail) _ _ hdrop]
      rw [List.append_assoc] at hdrop ⊢
      exact dropCells_suffix c (cs ++ tail)
    have hrest := ih attrs declSize (i + 1) cs tail buf hU hds
      (fun vtx hv => hclean vtx (by simp [hv])) hcs hdrop'
    show (do
      let v' ← decodeVertexAux declSize buf i (layoutAttrs 0 attrs) {}
      let vs' ← loadVerticesRange declSize (layoutAttrs 0 attrs) buf (i + 1) vs.length
      .ok (v' :: vs')) = .ok (v :: vs)
    rw [hrun, hrest]
    rfl

/-- The indices `save_faces` appends for a face list. -/
def flatFaces (faces : List Face3) : List ℕ :=
  (faces.map (fun f => [f.1, f.2.1, f.2.2])).flatten

theorem ibGet_append (P R : List ℕ) (k : ℕ) : ibGet (P ++ R) (P.length + k) = ibGet R k := by
  unfold ibGet
  rw [List.get?_append_right (Nat.le_add_right P.length k), Nat.add_sub_cancel_left]

/-- Reading index triples back from a flattened face list placed at the read
position recovers the faces. -/
theorem readFaceTriples_of_flat :
    ∀ (faces : List Face3) (ibP ibTail : List ℕ),
    readFaceTriples (ibP ++ (flatFaces faces ++ ibTail)) ibP.length faces.length =
      .ok faces := by
  intro faces
  induction faces with
  | nil => intro ibP ibTail; rfl
  | cons f fs ih =>
    intro ibP ibTail
    obtain ⟨a, b, c⟩ := f
    have hib : flatFaces ((a, b, c) :: fs) ++ ibTail =
        a :: b :: c :: (flatFaces fs ++ ibTail) := by
      simp [flatFaces]
    rw [hib]
    have h0 : ibGet (ibP ++ (a :: b :: c :: (flatFaces fs ++ ibTail))) ibP.length = .ok a := by
      have h := ibGet_append ibP (a :: b :: c :: (flatFaces fs ++ ibTail)) 0
      rw [Nat.add_zero] at h
      rw [h]
      rfl
    have h1 : ibGet (ibP ++ (a :: b :: c :: (flatFaces fs ++ ibTail)))
        (ibP.length + 1) = .ok b := by
      rw [ibGet_append ibP (a :: b :: c :: (flatFaces fs ++ ibTail)) 1]
      rfl
    have h2 : ibGet (ibP ++ (a :: b :: c :: (flatFaces fs ++ ibTail)))
        (ibP.length + 2) = .ok c := by
      rw [ibGet_append ibP (a :: b :: c :: (flatFaces fs ++ ibTail)) 2]
      rfl
    have h3 : readFaceTriples (ibP ++ (a :: b :: c :: (flatFaces fs ++ ibTail)))
        (ibP.length + 3) fs.length = .ok fs := by
      have h := ih (ibP ++ [a, b, c]) ibTail
      simp only [List.append_assoc, List.cons_append, List.nil_append,
        List.length_append, List.length_cons, List.length_nil] at h
      convert h using 2
    show readFaceTriples (ibP ++ (a :: b :: c :: (flatFaces fs ++ ibTail)))
      ibP.length (fs.length + 1) = .ok ((a, b, c) :: fs)
    unfold readFaceTriples
    rw [okBind h0, okBind h1, okBind h2, okBind h3]

/-- The geometry skeleton that load reconstructs from the lod counts:
same geom count, same lod count per geom, empty lods. -/
def skelOf (gs : List Geom) : List Geom :=
  gs.map (fun g => { lods := List.replicate g.lods.length {} })

theorem loadSkels_of_toks : ∀ (gs : List Geom) (r : Toks),
    loadN Geom.loadSkel gs.length (skelToks gs ++ r) = .ok (skelOf gs, r) := by
  intro gs
  induction gs with
  | nil => intro r; rfl
  | cons g rest ih =>
    intro r
    show loadN Geom.loadSkel (rest.length + 1) (.dword g.lods.length :: (skelToks rest ++ r)) = _
    rw [show rest.length + 1 = 1 + rest.length from by omega]
    have h1 : loadN Geom.loadSkel 1 (.dword g.lods.length :: (skelToks rest ++ r)) =
        .ok ([{ lods := List.replicate g.lods.length {} }], skelToks rest ++ r) := rfl
    have := loadN_add Geom.loadSkel 1 rest.length
      (.dword g.lods.length :: (skelToks rest ++ r)) (skelToks rest ++ r) r
      [{ lods := List.replicate g.lods.length {} }] (skelOf rest) h1 (ih r)
    simpa [skelOf] using this

theorem readWords_of_map : ∀ (idxs : List ℕ) (r : Toks),
    readWords idxs.length (idxs.map Tok.word ++ r) = .ok (idxs, r) := by
  intro idxs
  induction idxs with
  | nil => intro r; rfl
  | cons n ns ih =>
    intro r
    show readWords (ns.length + 1) (.word n :: (ns.map Tok.word ++ r)) = _
    unfold readWords
    rw [readWord_cons]
    simp only [exceptBind_ok]
    rw [okBind (ih r)]

/-- Parsing one sentinel row yields the sentinel attribute. -/
theorem loadRow_sentinel (r : Toks) :
    loadN VAttr.loadRow 1 (sentinelRow ++ r) = .ok ([sentinelAttr], r) := rfl

/-- Parsing back the written preamble (header, skeleton, declaration table)
pops the sentinel and yields exactly the laid-out attributes. -/
theorem loadPreamble_of_export (v : ℕ) (gs : List Geom) (attrs : List VAttr)
    (dtoks : Toks) (declSize : ℕ) (rest : Toks)
    (hU : ∀ a ∈ attrs, a.flag ≠ some vaUNUSED)
    (hdecl : exportDecl attrs = .ok (dtoks, declSize)) :
    loadPreamble (headerToks v ++ [.dword gs.length] ++ skelToks gs ++ dtoks ++ rest) =
      .ok ((v, skelOf gs, layoutAttrs 0 attrs), rest) := by
  unfold exportDecl at hdecl
  rw [bindOk_iff] at hdecl
  obtain ⟨cnt, hcnt, hdecl⟩ := hdecl
  rw [bindOk_iff] at hdecl
  obtain ⟨⟨rows, sz⟩, hrows, hdecl⟩ := hdecl
  simp only [exceptPure_eq, Except.ok.injEq, Prod.mk.injEq] at hdecl
  obtain ⟨hdt, hsz⟩ := hdecl
  subst hdt hsz
  rw [wDword_ok_iff] at hcnt
  obtain ⟨hlt, rfl⟩ := hcnt
  obtain ⟨-, -, hparse⟩ := declRows_spec attrs 0 rows sz hU hrows
  unfold loadPreamble
  have hhdr : MeshHeader.load (headerToks v ++ [.dword gs.length] ++ skelToks gs ++
      ([.dword (attrs.length + 1)] ++ rows ++ sentinelRow) ++ rest) =
      .ok (v, [.dword gs.length] ++ skelToks gs ++
        ([.dword (attrs.length + 1)] ++ rows ++ sentinelRow) ++ rest) := rfl
  rw [okBind hhdr]
  simp only [exceptBind_ok, List.cons_append, List.nil_append, List.append_assoc,
    readDword_cons]
  rw [okBind (loadSkels_of_toks gs
      (.dword (attrs.length + 1) :: (rows ++ (sentinelRow ++ rest))))]
  simp only [exceptBind_ok, readDword_cons]
  have hall : loadN VAttr.loadRow (attrs.length + 1) (rows ++ (sentinelRow ++ rest)) =
      .ok (layoutAttrs 0 attrs ++ [sentinelAttr], rest) :=
    loadN_add VAttr.loadRow attrs.length 1 (rows ++ (sentinelRow ++ rest))
      (sentinelRow ++ rest) rest (layoutAttrs 0 attrs) [sentinelAttr]
      (hparse (sentinelRow ++ rest)) (loadRow_sentinel rest)
  rw [okBind hall]
  simp only [exceptBind_ok]
  rw [List.getLast?_concat]
  show Except.ok ((v, skelOf gs,
    if sentinelAttr.flag = some vaUNUSED then (layoutAttrs 0 attrs ++ [sentinelAttr]).dropLast
    else layoutAttrs 0 attrs ++ [sentinelAttr]), rest) = _
  rw [if_pos (show sentinelAttr.flag = some vaUNUSED from rfl), List.dropLast_concat]

theorem cellsBytes_append (xs ys : List VCell) :
    cellsBytes (xs ++ ys) = cellsBytes xs + cellsBytes ys := by
  simp [cellsBytes]

theorem flatFaces_length (l : List Face3) : (flatFaces l).length = 3 * l.length :=
  flatten_triples_length l

/-- A material row does not depend on the bounds fields. -/
theorem saveRow_bounds (transp : Bool) (m : Material) (x y : Option Vec3) :
    Material.saveRow transp { m with minB := x, maxB := y } =
      Material.saveRow transp m := rfl

/-- The bounds pass only rewrites each material's bounds fields: the written
material rows and the list length are unchanged. -/
theorem savePartsRigsGo_mats (transp : Bool) :
    ∀ (ms : List Material) (mn : FlQ × FlQ × FlQ) (mx : ℚ × ℚ × ℚ)
      (ms' : List Material) (a : FlQ × FlQ × FlQ) (b : ℚ × ℚ × ℚ),
    savePartsRigsGo ms mn mx = .ok (ms', a, b) →
    ms'.length = ms.length ∧ matRows transp ms' = matRows transp ms := by
  intro ms
  induction ms with
  | nil =>
    intro mn mx ms' a b h
    cases h
    exact ⟨rfl, rfl⟩
  | cons m rest ih =>
    intro mn mx ms' a b h
    unfold savePartsRigsGo at h
    rw [bindOk_iff] at h
    obtain ⟨⟨bmin, bmax, m'⟩, hcb, h⟩ := h
    rw [bindOk_iff] at h
    obtain ⟨⟨ms2, mnf, mxf⟩, hrec, h⟩ := h
    simp only [exceptPure_eq, Except.ok.injEq, Prod.mk.injEq] at h
    obtain ⟨rfl, rfl, rfl⟩ := h
    obtain ⟨hlen, hrows⟩ := ih _ _ _ _ _ hrec
    refine ⟨by simp [hlen], ?_⟩
    have hm' := calcBounds_shape hcb
    subst hm'
    unfold matRows
    rw [saveRow_bounds, hrows]

/-- Loading one lod's bounds from any six written floats, above version 6. -/
theorem loadPartsRigs_flts (version : ℕ) (hv : 6 < version) (l : Lod)
    (x1 x2 x3 x4 x5 x6 : FlQ) (r : Toks) :
    Lod.loadPartsRigs version l
      ([.flt x1, .flt x2, .flt x3, .flt x4, .flt x5, .flt x6] ++ r) =
      .ok ({ l with minB := some (x1, x2, x3), maxB := some (x4, x5, x6) }, r) := by
  unfold Lod.loadPartsRigs readVec3F
  simp only [List.cons_append, List.nil_append, readFloat_cons, exceptBind_ok,
    exceptPure_eq]
  rw [if_neg (by omega)]

/-- Loading back the written per-lod bounds of one geom, for a skeleton of
the same lod count: materials stay untouched. -/
theorem loadBoundsLods_of_save (version : ℕ) (hv : 6 < version) :
    ∀ (ls1 sl ls2 : List Lod) (bounds : Toks) (r : Toks),
    saveBoundsLods ls1 = .ok (ls2, bounds) →
    sl.length = ls1.length →
    ∃ sl', loadBoundsLods version sl (bounds ++ r) = .ok (sl', r) ∧
      sl'.map Lod.materials = sl.map Lod.materials := by
  intro ls1
  induction ls1 with
  | nil =>
    intro sl ls2 bounds r h hlen
    cases h
    rw [List.length_nil, List.length_eq_zero] at hlen
    subst hlen
    exact ⟨[], rfl, rfl⟩
  | cons l ls ih =>
    intro sl ls2 bounds r h hlen
    cases sl with
    | nil => simp at hlen
    | cons s0 srest =>
      unfold saveBoundsLods at h
      rw [bindOk_iff] at h
      obtain ⟨⟨l', t1⟩, h1, h⟩ := h
      rw [bindOk_iff] at h
      obtain ⟨⟨ls', t2⟩, h2, h⟩ := h
      simp only [exceptPure_eq, Except.ok.injEq, Prod.mk.injEq] at h
      obtain ⟨rfl, rfl⟩ := h
      unfold Lod.savePartsRigs at h1
      rw [bindOk_iff] at h1
      obtain ⟨⟨ms', mn, mx⟩, hgo, h1⟩ := h1
      simp only [exceptPure_eq, Except.ok.injEq, Prod.mk.injEq] at h1
      obtain ⟨rfl, rfl⟩ := h1
      obtain ⟨sl', hload, hmats⟩ := ih srest ls' t2 r h2 (by simpa using hlen)
      refine ⟨({ s0 with minB := some (mn.1, mn.2.1, mn.2.2), maxB := some (.q mx.1, .q mx.2.1, .q mx.2.2) } : Lod) :: sl', ?_, ?_⟩
      · unfold loadBoundsLods
        rw [List.append_assoc, okBind (loadPartsRigs_flts version hv s0 _ _ _ _ _ _ (t2 ++ r))]
        simp only [exceptBind_ok]
        rw [okBind hload]
      · simp only [List.map_cons, hmats]

/-- Loading back the whole written bounds section against the load-side
skeleton: geom and lod structure survives, materials stay untouched. -/
theorem loadBoundsGeoms_of_save (version : ℕ) (hv : 6 < version) :
    ∀ (gs1 sg gs2 : List Geom) (bounds : Toks) (r : Toks),
    saveBoundsGeoms gs1 = .ok (gs2, bounds) →
    sg.map (fun g => g.lods.length) = gs1.map (fun g => g.lods.length) →
    ∃ sg', loadBoundsGeoms version sg (bounds ++ r) = .ok (sg', r) ∧
      sg'.map (fun g => g.lods.map Lod.materials) =
        sg.map (fun g => g.lods.map Lod.materials) := by
  intro gs1
  induction gs1 with
  | nil =>
    intro sg gs2 bounds r h hlen
    cases h
    simp only [List.map_nil, List.map_eq_nil_iff] at hlen
    subst hlen
    exact ⟨[], rfl, rfl⟩
  | cons g gs ih =>
    intro sg gs2 bounds r h hlen
    cases sg with
    | nil => simp at hlen
    | cons s0 srest =>
      simp only [List.map_cons, List.cons.injEq] at hlen
      obtain ⟨hlen0, hlenrest⟩ := hlen
      unfold saveBoundsGeoms at h
      rw [bindOk_iff] at h
      obtain ⟨⟨ls', t1⟩, h1, h⟩ := h
      rw [bindOk_iff] at h
      obtain ⟨⟨gs', t2⟩, h2, h⟩ := h
      simp only [exceptPure_eq, Except.ok.injEq, Prod.mk.injEq] at h
      obtain ⟨rfl, rfl⟩ := h
      obtain ⟨sl', hloadl, hmatsl⟩ :=
        loadBoundsLods_of_save version hv g.lods s0.lods ls' t1 (t2 ++ r) h1 hlen0
      obtain ⟨sg', hloadg, hmatsg⟩ := ih srest gs' t2 r h2 hlenrest
      refine ⟨{ lods := sl' } :: sg', ?_, ?_⟩
      · unfold loadBoundsGeoms
        rw [List.append_assoc, okBind hloadl]
        simp only [exceptBind_ok]
        rw [okBind hloadg]
      · simp only [List.map_cons, hmatsg, List.cons.injEq]
        exact ⟨hmatsl, trivial⟩

/-- The in-memory material parsed back from a written material row: the
original strings and map list, the offsets assigned during buffer saving,
zeroed reserved dwords, and (for a transparency-capable mesh) the original
alpha mode and the document's face-set count. -/
def loadedMat (transp : Bool) (abn : Option ℕ) (m : Material) (vstart istart : ℕ) : Material :=
  { fxfile := m.fxfile, technique := m.technique, maps := m.maps,
    vstart := some vstart, istart := some istart,
    inum := some (m.faces.length * 3), vnum := some m.vertices.length,
    u4 := some 0, u5 := some 0,
    alphaMode := if transp then m.alphaMode else none,
    alphaBlendIndexnum := if transp then abn else none }

/-- The heart of the round-trip: materials saved into the shared buffers at
running offsets parse back from the written table rows, and decoding their
vertex and face ranges from the shared buffers recovers the original
structural content (`matKey`). Also establishes the offset bookkeeping. -/
theorem saveMatBuffers_roundtrip (transp : Bool) (gp : GeoParams) (attrs : List VAttr)
    (declSize : ℕ) (abn : Option ℕ)
    (hU : ∀ a ∈ attrs, a.flag ≠ some vaUNUSED)
    (hds : (attrs.map attrSize).sum = declSize) :
    ∀ (msIn : List Material) (vstart istart : ℕ) (ms1 : List Material)
      (cellsL : List VCell) (ixL : List ℕ) (vE iE : ℕ) (habL : Bool),
    saveMatBuffers transp gp attrs msIn vstart istart = .ok (ms1, cellsL, ixL, vE, iE, habL) →
    (∀ m ∈ msIn, m.alphaMode ≠ some .amBlend) →
    (∀ m ∈ msIn, ∀ vtx ∈ m.vertices, vertexClean attrs vtx) →
    ms1.length = msIn.length ∧
    vE = vstart + (msIn.map (fun m => m.vertices.length)).sum ∧
    cellsBytes cellsL = (msIn.map (fun m => m.vertices.length)).sum * declSize ∧
    iE = istart + ixL.length ∧
    (∀ (rowToks r : Toks), matRows transp ms1 = .ok rowToks →
     ∀ (vbuf cellTail : List VCell),
       dropCells vbuf (vstart * declSize) = some (cellsL ++ cellTail) →
     ∀ (ib : List ℕ) (ibP ibTail : List ℕ),
       ib = ibP ++ (ixL ++ ibTail) → ibP.length = istart →
     ∃ rows, loadN (Material.loadRow transp abn) msIn.length (rowToks ++ r) = .ok (rows, r) ∧
       ∃ enriched, enrichMats transp declSize (layoutAttrs 0 attrs) vbuf ib rows =
           .ok enriched ∧
         enriched.map matKey = msIn.map matKey) := by
  intro msIn
  induction msIn with
  | nil =>
    intro vstart istart ms1 cellsL ixL vE iE habL hsave hnb hclean
    injection hsave with h2
    injection h2 with hms h2
    injection h2 with hcells h2
    injection h2 with hix h2
    injection h2 with hvE h2
    injection h2 with hiE hhab
    subst hms hcells hix hvE hiE
    refine ⟨rfl, by simp, by simp [cellsBytes], by simp, ?_⟩
    intro rowToks r hrows vbuf cellTail hdrop ib ibP ibTail hib hibP
    cases hrows
    exact ⟨[], rfl, [], rfl, rfl⟩
  | cons m ms ih =>
    intro vstart istart ms1 cellsL ixL vE iE habL hsave hnb hclean
    unfold saveMatBuffers at hsave
    rw [bindOk_iff] at hsave
    obtain ⟨⟨m1, cells⟩, hsv, hsave⟩ := hsave
    rw [bindOk_iff] at hsave
    obtain ⟨⟨m2, idxs, ret⟩, hsf, hsave⟩ := hsave
    rw [bindOk_iff] at hsave
    obtain ⟨⟨ms', cs, ix, vE', iE', hab'⟩, hrec, hsave⟩ := hsave
    simp only [exceptPure_eq, Except.ok.injEq, Prod.mk.injEq] at hsave
    obtain ⟨rfl, rfl, rfl, rfl, rfl, rfl⟩ := hsave
    -- destructure save_vertices
    unfold Material.saveVertices at hsv
    rw [bindOk_iff] at hsv
    obtain ⟨cellsE, henc, hsv⟩ := hsv
    simp only [exceptPure_eq, Except.ok.injEq, Prod.mk.injEq] at hsv
    obtain ⟨hm1, hcellsE⟩ := hsv
    rw [hcellsE] at henc
    -- destructure the face dispatch (no ALPHA_BLEND)
    unfold Material.saveFacesDispatch at hsf
    rw [if_neg (fun hc => hnb m (List.mem_cons_self m ms) (by
      rw [← hm1] at hc
      exact hc.2))] at hsf
    injection hsf with hsf
    rw [← hm1] at hsf
    unfold Material.saveFacesPlain at hsf
    injection hsf with hm2 hsf
    injection hsf with hidxs hret
    subst hm2
    have hnb' : ∀ x ∈ ms, x.alphaMode ≠ some .amBlend :=
      fun x hx => hnb x (List.mem_cons_of_mem m hx)
    have hclean' : ∀ x ∈ ms, ∀ vtx ∈ x.vertices, vertexClean attrs vtx :=
      fun x hx => hclean x (List.mem_cons_of_mem m hx)
    obtain ⟨ihlen, ihvE, ihbytes, ihiE, ihload⟩ :=
      ih (vstart + m.vertices.length) (istart + ret) ms' cs ix vE' iE' hab' hrec hnb' hclean'
    have hcellbytes : cellsBytes cells = m.vertices.length * declSize := by
      rw [← hds]
      exact encodeVertices_bytes m.vertices attrs cells hU henc
    have hidxlen : idxs.length = ret := by
      rw [← hidxs, ← hret]
      dsimp only
      rw [flatten_triples_length m.faces, Nat.mul_comm]
    refine ⟨by simp [ihlen], by simp [ihvE]; omega,
      by rw [cellsBytes_append, ihbytes, hcellbytes]; simp; ring, ?_, ?_⟩
    · simp only [List.length_append]
      omega
    · intro rowToks r hrows vbuf cellTail hdrop ib ibP ibTail hib hibP
      unfold matRows at hrows
      rw [bindOk_iff] at hrows
      obtain ⟨rowTok, hrowTok, hrows⟩ := hrows
      rw [bindOk_iff] at hrows
      obtain ⟨restRows, hrestRows, hrows⟩ := hrows
      injection hrows with hrows
      subst hrows
      obtain ⟨v0, i0, n0, vn0, hv0, hi0, hn0, hvn0, hloadRow⟩ :=
        @saveRow_parse transp abn _ _ (restRows ++ r) hrowTok
      dsimp only at hv0 hi0 hn0 hvn0
      injection hv0 with hv0
      injection hi0 with hi0
      injection hn0 with hn0
      injection hvn0 with hvn0
      subst hv0 hi0 hn0 hvn0
      have hdrop0 : dropCells vbuf (vstart * declSize) =
          some (cells ++ (cs ++ cellTail)) := by
        rw [hdrop, List.append_assoc]
      have hverts : loadVerticesRange declSize (layoutAttrs 0 attrs) vbuf vstart
          m.vertices.length = .ok m.vertices :=
        loadVerticesRange_of_encode m.vertices attrs declSize vstart cells (cs ++ cellTail)
          vbuf hU hds (hclean m (List.mem_cons_self m ms)) henc hdrop0
      have hfaces : readFaceTriples ib istart ((m.faces.length * 3 + 2) / 3) =
          .ok m.faces := by
        have hsteps : (m.faces.length * 3 + 2) / 3 = m.faces.length := by omega
        rw [hsteps, hib, ← hidxs]
        rw [show (m.faces.map (fun f => [f.1, f.2.1, f.2.2])).flatten = flatFaces m.faces
          from rfl, List.append_assoc (flatFaces m.faces) ix ibTail, ← hibP]
        exact readFaceTriples_of_flat m.faces ibP (ix ++ ibTail)
      have hdrop' : dropCells vbuf ((vstart + m.vertices.length) * declSize) =
          some (cs ++ cellTail) := by
        have h1 : (vstart + m.vertices.length) * declSize =
            vstart * declSize + cellsBytes cells := by
          rw [hcellbytes]
          ring
        rw [h1, dropCells_add vbuf (cells ++ (cs ++ cellTail)) _ _ hdrop0]
        exact dropCells_suffix cells (cs ++ cellTail)
      have hib' : ib = (ibP ++ idxs) ++ (ix ++ ibTail) := by
        rw [hib]
        simp [List.append_assoc]
      have hibP' : (ibP ++ idxs).length = istart + ret := by
        simp [hibP, hidxlen]
      obtain ⟨rows', hrows', enriched', henriched', hkeys'⟩ :=
        ihload restRows r hrestRows vbuf cellTail hdrop' ib (ibP ++ idxs) ibTail hib' hibP'
      refine ⟨loadedMat transp abn m vstart istart :: rows', ?_, ?_⟩
      · show loadN (Material.loadRow transp abn) (ms.length + 1) (rowTok ++ restRows ++ r) = _
        unfold loadN
        rw [List.append_assoc, okBind hloadRow]
        dsimp only
        rw [okBind hrows']
        rfl
      · refine ⟨{ loadedMat transp abn m vstart istart with
            vertices := m.vertices, faces := m.faces } :: enriched', ?_, ?_⟩
        · show enrichMats transp declSize (layoutAttrs 0 attrs) vbuf ib
            (loadedMat transp abn m vstart istart :: rows') = _
          have hlv : Material.loadVertices declSize (layoutAttrs 0 attrs) vbuf
              (loadedMat transp abn m vstart istart) =
              .ok { loadedMat transp abn m vstart istart with vertices := m.vertices } := by
            unfold Material.loadVertices loadedMat
            dsimp only
            rw [okBind hverts]
          have hcnd : ¬(transp = true ∧
              ({ loadedMat transp abn m vstart istart with
                 vertices := m.vertices } : Material).alphaMode = some .amBlend) := by
            intro hc
            obtain ⟨ht, hmode⟩ := hc
            revert hmode
            simp only [loadedMat, ht, if_true]
            exact hnb m (List.mem_cons_self m ms)
          have hlf : Material.loadFacesDispatch transp ib
              { loadedMat transp abn m vstart istart with vertices := m.vertices } =
              .ok { loadedMat transp abn m vstart istart with
                    vertices := m.vertices, faces := m.faces } := by
            unfold Material.loadFacesDispatch
            rw [if_neg hcnd]
            unfold Material.loadFacesPlain loadedMat
            dsimp only
            rw [okBind hfaces]
          unfold enrichMats
          rw [okBind hlv]
          dsimp only
          rw [okBind hlf]
          dsimp only
          rw [okBind henriched']
        · simp only [List.map_cons, hkeys', List.cons.injEq]
          exact ⟨rfl, trivial⟩

/-- Lod level of the round-trip: the written material tables of one geom's
lods parse back against the load-side skeleton lods, and decoding from the
shared buffers recovers each lod's material content. -/
theorem loadMatsLods_of_save (transp : Bool) (gp : GeoParams) (attrs : List VAttr)
    (declSize : ℕ) (abn : Option ℕ)
    (hU : ∀ a ∈ attrs, a.flag ≠ some vaUNUSED)
    (hds : (attrs.map attrSize).sum = declSize) :
    ∀ (lods : List Lod) (vstart istart : ℕ) (lods1 : List Lod)
      (cellsL : List VCell) (ixL : List ℕ) (vE iE : ℕ) (habL : Bool),
    saveLodBuffers transp gp attrs lods vstart istart =
      .ok (lods1, cellsL, ixL, vE, iE, habL) →
    (∀ l ∈ lods, ∀ m ∈ l.materials, m.alphaMode ≠ some .amBlend) →
    (∀ l ∈ lods, ∀ m ∈ l.materials, ∀ vtx ∈ m.vertices, vertexClean attrs vtx) →
    ∀ (lods2 : List Lod) (bounds : Toks), saveBoundsLods lods1 = .ok (lods2, bounds) →
    ∀ (tbl : Toks), saveMatTablesLods transp lods2 = .ok tbl →
    vE = vstart +
      (lods.map (fun l => (l.materials.map (fun m => m.vertices.length)).sum)).sum ∧
    cellsBytes cellsL =
      (lods.map (fun l => (l.materials.map (fun m => m.vertices.length)).sum)).sum *
        declSize ∧
    iE = istart + ixL.length ∧
    (∀ (sl : List Lod), sl.map Lod.materials = List.replicate lods.length [] →
     ∀ (vbuf cellTail : List VCell),
       dropCells vbuf (vstart * declSize) = some (cellsL ++ cellTail) →
     ∀ (ib : List ℕ) (ibP ibTail : List ℕ),
       ib = ibP ++ (ixL ++ ibTail) → ibP.length = istart →
     ∀ (r : Toks),
     ∃ sl', loadMatsLods transp declSize (layoutAttrs 0 attrs) vbuf ib abn sl
         (tbl ++ r) = .ok (sl', r) ∧
       sl'.map (fun l => l.materials.map matKey) =
         lods.map (fun l => l.materials.map matKey)) := by
  intro lods
  induction lods with
  | nil =>
    intro vstart istart lods1 cellsL ixL vE iE habL hsave hnb hclean lods2 bounds
      hbounds tbl htbl
    injection hsave with h2
    injection h2 with hl h2
    injection h2 with hc h2
    injection h2 with hx h2
    injection h2 with hvE h2
    injection h2 with hiE hhab
    subst hl hc hx hvE hiE
    cases hbounds
    cases htbl
    refine ⟨by simp, by simp [cellsBytes], by simp, ?_⟩
    intro sl hsl vbuf cellTail hdrop ib ibP ibTail hib hibP r
    simp only [List.length_nil, List.replicate_zero, List.map_eq_nil_iff] at hsl
    subst hsl
    exact ⟨[], rfl, rfl⟩
  | cons l ls ih =>
    intro vstart istart lods1 cellsL ixL vE iE habL hsave hnb hclean lods2 bounds
      hbounds tbl htbl
    unfold saveLodBuffers at hsave
    rw [bindOk_iff] at hsave
    obtain ⟨⟨ms', cells, ix, vs1, is1, h1⟩, hmats, hsave⟩ := hsave
    rw [bindOk_iff] at hsave
    obtain ⟨⟨ls', cells2, ix2, vs2, is2, h2⟩, hrec, hsave⟩ := hsave
    simp only [exceptPure_eq, Except.ok.injEq, Prod.mk.injEq] at hsave
    obtain ⟨rfl, rfl, rfl, rfl, rfl, rfl⟩ := hsave
    unfold saveBoundsLods at hbounds
    rw [bindOk_iff] at hbounds
    obtain ⟨⟨l2, t1⟩, hb1, hbounds⟩ := hbounds
    rw [bindOk_iff] at hbounds
    obtain ⟨⟨ls2, t2⟩, hb2, hbounds⟩ := hbounds
    simp only [exceptPure_eq, Except.ok.injEq, Prod.mk.injEq] at hbounds
    obtain ⟨rfl, rfl⟩ := hbounds
    unfold Lod.savePartsRigs at hb1
    rw [bindOk_iff] at hb1
    obtain ⟨⟨ms2, mn, mx⟩, hgo, hb1⟩ := hb1
    simp only [exceptPure_eq, Except.ok.injEq, Prod.mk.injEq] at hb1
    obtain ⟨rfl, rfl⟩ := hb1
    unfold saveMatTablesLods at htbl
    rw [bindOk_iff] at htbl
    obtain ⟨tl1, ht1, htbl⟩ := htbl
    rw [bindOk_iff] at htbl
    obtain ⟨tls, htls, htbl⟩ := htbl
    injection htbl with htbl
    subst htbl
    unfold Lod.saveMaterials at ht1
    rw [bindOk_iff] at ht1
    obtain ⟨cnt, hcnt, ht1⟩ := ht1
    rw [bindOk_iff] at ht1
    obtain ⟨rows, hrows, ht1⟩ := ht1
    injection ht1 with ht1
    subst ht1
    dsimp only at hcnt hrows
    obtain ⟨hms2len, hms2rows⟩ := savePartsRigsGo_mats transp ms'
      (.inf, .inf, .inf) (0, 0, 0) ms2 mn mx hgo
    rw [hms2rows] at hrows
    rw [wDword_ok_iff] at hcnt
    obtain ⟨hcntlt, rfl⟩ := hcnt
    obtain ⟨mslen, hvE1, hbytes1, hiE1, hload1⟩ :=
      saveMatBuffers_roundtrip transp gp attrs declSize abn hU hds l.materials
        vstart istart ms' cells ix vs1 is1 h1 hmats
        (hnb l (List.mem_cons_self l ls)) (hclean l (List.mem_cons_self l ls))
    have hnb' : ∀ x ∈ ls, ∀ m ∈ x.materials, m.alphaMode ≠ some .amBlend :=
      fun x hx => hnb x (List.mem_cons_of_mem l hx)
    have hclean' : ∀ x ∈ ls, ∀ m ∈ x.materials, ∀ vtx ∈ m.vertices,
        vertexClean attrs vtx := fun x hx => hclean x (List.mem_cons_of_mem l hx)
    obtain ⟨hvE2, hbytes2, hiE2, hload2⟩ :=
      ih vs1 is1 ls' cells2 ix2 vs2 is2 h2 hrec hnb' hclean' ls2 t2 hb2 tls htls
    refine ⟨by simp only [List.map_cons, List.sum_cons]; omega,
      by simp only [List.map_cons, List.sum_cons, cellsBytes_append, hbytes1, hbytes2]; ring,
      by simp only [List.length_append]; omega, ?_⟩
    intro sl hsl vbuf cellTail hdrop ib ibP ibTail hib hibP r
    cases sl with
    | nil => simp at hsl
    | cons s0 srest =>
      simp only [List.length_cons, List.replicate_succ, List.map_cons,
        List.cons.injEq] at hsl
      obtain ⟨hs0, hsrest⟩ := hsl
      have hdrop0 : dropCells vbuf (vstart * declSize) =
          some (cells ++ (cells2 ++ cellTail)) := by
        rw [hdrop, List.append_assoc]
      have hib0 : ib = ibP ++ (ix ++ (ix2 ++ ibTail)) := by
        rw [hib]
        simp [List.append_assoc]
      obtain ⟨rows0, hrowsParsed, enriched, hEnr, hkeys⟩ :=
        hload1 rows (tls ++ r) hrows vbuf (cells2 ++ cellTail) hdrop0
          ib ibP (ix2 ++ ibTail) hib0 hibP
      have hdrop' : dropCells vbuf (vs1 * declSize) = some (cells2 ++ cellTail) := by
        have he : vs1 * declSize = vstart * declSize + cellsBytes cells := by
          rw [hbytes1, hvE1]
          ring
        rw [he, dropCells_add vbuf (cells ++ (cells2 ++ cellTail)) _ _ hdrop0]
        exact dropCells_suffix cells (cells2 ++ cellTail)
      have hib' : ib = (ibP ++ ix) ++ (ix2 ++ ibTail) := by
        rw [hib0, List.append_assoc]
      have hibP' : (ibP ++ ix).length = is1 := by
        simp only [List.length_append, hibP]
        omega
      obtain ⟨sl', hloadRest, hkeysRest⟩ :=
        hload2 srest hsrest vbuf cellTail hdrop' ib (ibP ++ ix) ibTail hib' hibP' r
      refine ⟨{ s0 with materials := enriched } :: sl', ?_, ?_⟩
      · have hlm : Lod.loadMaterials transp declSize (layoutAttrs 0 attrs) vbuf ib abn s0
            (.dword ms2.length :: (rows ++ (tls ++ r))) =
            .ok ({ s0 with materials := enriched }, tls ++ r) := by
          unfold Lod.loadMaterials
          rw [readDword_cons]
          simp only [exceptBind_ok]
          rw [hms2len, mslen]
          rw [okBind hrowsParsed]
          simp only [exceptBind_ok]
          rw [okBind hEnr]
        simp only [List.cons_append, List.nil_append, List.append_assoc]
        unfold loadMatsLods
        rw [okBind hlm]
        simp only [exceptBind_ok]
        rw [okBind hloadRest]
      · simp only [List.map_cons, hkeysRest, List.cons.injEq]
        exact ⟨hkeys, trivial⟩

/-- Geom level of the round-trip: the whole written material-table section
parses back against the bounds-loaded skeleton, and decoding recovers every
geom's, lod's and material's structural content. -/
theorem loadMatsGeoms_of_save (transp : Bool) (gp : GeoParams) (attrs : List VAttr)
    (declSize : ℕ) (abn : Option ℕ)
    (hU : ∀ a ∈ attrs, a.flag ≠ some vaUNUSED)
    (hds : (attrs.map attrSize).sum = declSize) :
    ∀ (gs : List Geom) (vstart istart : ℕ) (gs1 : List Geom)
      (cellsL : List VCell) (ixL : List ℕ) (vE iE : ℕ) (habL : Bool),
    saveGeomBuffers transp gp attrs gs vstart istart =
      .ok (gs1, cellsL, ixL, vE, iE, habL) →
    (∀ g ∈ gs, ∀ l ∈ g.lods, ∀ m ∈ l.materials, m.alphaMode ≠ some .amBlend) →
    (∀ g ∈ gs, ∀ l ∈ g.lods, ∀ m ∈ l.materials, ∀ vtx ∈ m.vertices,
      vertexClean attrs vtx) →
    ∀ (gs2 : List Geom) (bounds : Toks), saveBoundsGeoms gs1 = .ok (gs2, bounds) →
    ∀ (tbl : Toks), saveMatTablesGeoms transp gs2 = .ok tbl →
    vE = vstart + (gs.map (fun g => (g.lods.map
        (fun l => (l.materials.map (fun m => m.vertices.length)).sum)).sum)).sum ∧
    cellsBytes cellsL = (gs.map (fun g => (g.lods.map
        (fun l => (l.materials.map (fun m => m.vertices.length)).sum)).sum)).sum *
      declSize ∧
    iE = istart + ixL.length ∧
    (∀ (sg : List Geom), sg.map (fun g => g.lods.map Lod.materials) =
        gs.map (fun g => List.replicate g.lods.length []) →
     ∀ (vbuf cellTail : List VCell),
       dropCells vbuf (vstart * declSize) = some (cellsL ++ cellTail) →
     ∀ (ib : List ℕ) (ibP ibTail : List ℕ),
       ib = ibP ++ (ixL ++ ibTail) → ibP.length = istart →
     ∀ (r : Toks),
     ∃ sg', loadMatsGeoms transp declSize (layoutAttrs 0 attrs) vbuf ib abn sg
         (tbl ++ r) = .ok (sg', r) ∧
       sg'.map (fun g => g.lods.map (fun l => l.materials.map matKey)) =
         gs.map (fun g => g.lods.map (fun l => l.materials.map matKey))) := by
  intro gs
  induction gs with
  | nil =>
    intro vstart istart gs1 cellsL ixL vE iE habL hsave hnb hclean gs2 bounds
      hbounds tbl htbl
    injection hsave with h2
    injection h2 with hl h2
    injection h2 with hc h2
    injection h2 with hx h2
    injection h2 with hvE h2
    injection h2 with hiE hhab
    subst hl hc hx hvE hiE
    cases hbounds
    cases htbl
    refine ⟨by simp, by simp [cellsBytes], by simp, ?_⟩
    intro sg hsg vbuf cellTail hdrop ib ibP ibTail hib hibP r
    simp only [List.map_nil, List.map_eq_nil_iff] at hsg
    subst hsg
    exact ⟨[], rfl, rfl⟩
  | cons g gs ih =>
    intro vstart istart gs1 cellsL ixL vE iE habL hsave hnb hclean gs2 bounds
      hbounds tbl htbl
    unfold saveGeomBuffers at hsave
    rw [bindOk_iff] at hsave
    obtain ⟨⟨ls', cells, ix, vs1, is1, h1⟩, hlods, hsave⟩ := hsave
    rw [bindOk_iff] at hsave
    obtain ⟨⟨gs', cells2, ix2, vs2, is2, h2⟩, hrec, hsave⟩ := hsave
    simp only [exceptPure_eq, Except.ok.injEq, Prod.mk.injEq] at hsave
    obtain ⟨rfl, rfl, rfl, rfl, rfl, rfl⟩ := hsave
    unfold saveBoundsGeoms at hbounds
    rw [bindOk_iff] at hbounds
    obtain ⟨⟨ls2, t1⟩, hb1, hbounds⟩ := hbounds
    rw [bindOk_iff] at hbounds
    obtain ⟨⟨gs2', t2⟩, hb2, hbounds⟩ := hbounds
    simp only [exceptPure_eq, Except.ok.injEq, Prod.mk.injEq] at hbounds
    obtain ⟨rfl, rfl⟩ := hbounds
    unfold saveMatTablesGeoms at htbl
    rw [bindOk_iff] at htbl
    obtain ⟨tg1, htg1, htbl⟩ := htbl
    rw [bindOk_iff] at htbl
    obtain ⟨tgs, htgs, htbl⟩ := htbl
    injection htbl with htbl
    subst htbl
    dsimp only at hb1 htg1
    obtain ⟨hvE1, hbytes1, hiE1, hload1⟩ :=
      loadMatsLods_of_save transp gp attrs declSize abn hU hds g.lods vstart istart
        ls' cells ix vs1 is1 h1 hlods (hnb g (List.mem_cons_self g gs))
        (hclean g (List.mem_cons_self g gs)) ls2 t1 hb1 tg1 htg1
    have hnb' : ∀ x ∈ gs, ∀ l ∈ x.lods, ∀ m ∈ l.materials,
        m.alphaMode ≠ some .amBlend := fun x hx => hnb x (List.mem_cons_of_mem g hx)
    have hclean' : ∀ x ∈ gs, ∀ l ∈ x.lods, ∀ m ∈ l.materials, ∀ vtx ∈ m.vertices,
        vertexClean attrs vtx := fun x hx => hclean x (List.mem_cons_of_mem g hx)
    obtain ⟨hvE2, hbytes2, hiE2, hload2⟩ :=
      ih vs1 is1 gs' cells2 ix2 vs2 is2 h2 hrec hnb' hclean' gs2' t2 hb2 tgs htgs
    refine ⟨by simp only [List.map_cons, List.sum_cons]; omega,
      by simp only [List.map_cons, List.sum_cons, cellsBytes_append, hbytes1, hbytes2]; ring,
      by simp only [List.length_append]; omega, ?_⟩
    intro sg hsg vbuf cellTail hdrop ib ibP ibTail hib hibP r
    cases sg with
    | nil => simp at hsg
    | cons s0 srest =>
      simp only [List.map_cons, List.cons.injEq] at hsg
      obtain ⟨hs0, hsrest⟩ := hsg
      have hdrop0 : dropCells vbuf (vstart * declSize) =
          some (cells ++ (cells2 ++ cellTail)) := by
        rw [hdrop, List.append_assoc]
      have hib0 : ib = ibP ++ (ix ++ (ix2 ++ ibTail)) := by
        rw [hib]
        simp [List.append_assoc]
      obtain ⟨sl', hloadLod, hkeysLod⟩ :=
        hload1 s0.lods hs0 vbuf (cells2 ++ cellTail) hdrop0 ib ibP (ix2 ++ ibTail)
          hib0 hibP (tgs ++ r)
      have hdrop' : dropCells vbuf (vs1 * declSize) = some (cells2 ++ cellTail) := by
        have he : vs1 * declSize = vstart * declSize + cellsBytes cells := by
          rw [hbytes1, hvE1]
          ring
        rw [he, dropCells_add vbuf (cells ++ (cells2 ++ cellTail)) _ _ hdrop0]
        exact dropCells_suffix cells (cells2 ++ cellTail)
      have hib' : ib = (ibP ++ ix) ++ (ix2 ++ ibTail) := by
        rw [hib0, List.append_assoc]
      have hibP' : (ibP ++ ix).length = is1 := by
        simp only [List.length_append, hibP]
        omega
      obtain ⟨sg'', hloadRest, hkeysRest⟩ :=
        hload2 srest hsrest vbuf cellTail hdrop' ib (ibP ++ ix) ibTail hib' hibP' r
      refine ⟨{ lods := sl' } :: sg'', ?_, ?_⟩
      · simp only [List.append_assoc]
        unfold loadMatsGeoms
        rw [okBind hloadLod]
        simp only [exceptBind_ok]
        rw [okBind hloadRest]
      · simp only [List.map_cons, hkeysRest, List.cons.injEq]
        exact ⟨hkeysLod, trivial⟩

theorem saveLodBuffers_length {transp : Bool} {gp : GeoParams} {attrs : List VAttr} :
    ∀ {lods : List Lod} {vs is : ℕ} {lods1 : List Lod} {c : List VCell} {x : List ℕ}
      {a b : ℕ} {f : Bool},
    saveLodBuffers transp gp attrs lods vs is = .ok (lods1, c, x, a, b, f) →
    lods1.length = lods.length := by
  intro lods
  induction lods with
  | nil =>
    intro vs is lods1 c x a b f h
    injection h with h2
    injection h2 with hl _
    subst hl
    rfl
  | cons l ls ih =>
    intro vs is lods1 c x a b f h
    unfold saveLodBuffers at h
    rw [bindOk_iff] at h
    obtain ⟨⟨ms', cells, ix, vs1, is1, h1⟩, hm, h⟩ := h
    rw [bindOk_iff] at h
    obtain ⟨⟨ls', cells2, ix2, vs2, is2, h2⟩, hr, h⟩ := h
    simp only [exceptPure_eq, Except.ok.injEq, Prod.mk.injEq] at h
    obtain ⟨rfl, -, -, -, -, -⟩ := h
    simp [ih hr]

theorem saveGeomBuffers_shape {transp : Bool} {gp : GeoParams} {attrs : List VAttr} :
    ∀ {gs : List Geom} {vs is : ℕ} {gs1 : List Geom} {c : List VCell} {x : List ℕ}
      {a b : ℕ} {f : Bool},
    saveGeomBuffers transp gp attrs gs vs is = .ok (gs1, c, x, a, b, f) →
    gs1.map (fun g => g.lods.length) = gs.map (fun g => g.lods.length) := by
  intro gs
  induction gs with
  | nil =>
    intro vs is gs1 c x a b f h
    injection h with h2
    injection h2 with hl _
    subst hl
    rfl
  | cons g grest ih =>
    intro vs is gs1 c x a b f h
    unfold saveGeomBuffers at h
    rw [bindOk_iff] at h
    obtain ⟨⟨ls', cells, ix, vs1, is1, h1⟩, hm, h⟩ := h
    rw [bindOk_iff] at h
    obtain ⟨⟨gs', cells2, ix2, vs2, is2, h2⟩, hr, h⟩ := h
    simp only [exceptPure_eq, Except.ok.injEq, Prod.mk.injEq] at h
    obtain ⟨rfl, -, -, -, -, -⟩ := h
    simp only [List.map_cons, ih hr, List.cons.injEq]
    exact ⟨saveLodBuffers_length hm, trivial⟩

theorem skelOf_materials (gs : List Geom) :
    (skelOf gs).map (fun g => g.lods.map Lod.materials) =
      gs.map (fun g => List.replicate g.lods.length []) := by
  unfold skelOf
  rw [List.map_map]
  apply List.map_congr_left
  intro g _
  simp [List.map_replicate]

theorem skelOf_lodCounts (gs : List Geom) :
    (skelOf gs).map (fun g => g.lods.length) = gs.map (fun g => g.lods.length) := by
  unfold skelOf
  rw [List.map_map]
  apply List.map_congr_left
  intro g _
  simp

/-- The alpha-blend face-set-count read step of load against the token
written by export, uniformly in the transparency flag. -/
theorem abnStep (transp : Bool) (v : ℕ) (X : Toks) :
    (if transp then do
        let (n, ts) ← readDword ((if transp then [Tok.dword v] else []) ++ X)
        .ok (some n, ts)
      else .ok (none, (if transp then [Tok.dword v] else []) ++ X) :
      Except Err (Option ℕ × Toks)) =
    .ok (if transp then some v else none, X) := by
  cases transp
  · simp
  · simp

/-- Full round-trip: loading a file written by export (format version above 6,
no unused-flagged attributes, no ALPHA_BLEND materials, vertex channels
confined to the declaration table) succeeds, rewrites the attributes to their
laid-out form, and recovers the entire geometry tree's structural content. -/
theorem bf2LoadFile_of_export (gp : GeoParams) (version : ℕ) (transp : Bool)
    (d : Doc) (t : Toks)
    (hv : 6 < version)
    (hU : ∀ a ∈ d.vertexAttributes, a.flag ≠ some vaUNUSED)
    (hnb : ∀ g ∈ d.geoms, ∀ l ∈ g.lods, ∀ m ∈ l.materials,
      m.alphaMode ≠ some .amBlend)
    (hclean : ∀ g ∈ d.geoms, ∀ l ∈ g.lods, ∀ m ∈ l.materials, ∀ vtx ∈ m.vertices,
      vertexClean d.vertexAttributes vtx)
    (h : bf2Export gp version transp d = .ok t) :
    ∃ d' : Doc, bf2LoadFile transp t = .ok d' ∧
      d'.vertexAttributes = layoutAttrs 0 d.vertexAttributes ∧
      d'.geoms.map (fun g => g.lods.map (fun l => l.materials.map matKey)) =
        d.geoms.map (fun g => g.lods.map (fun l => l.materials.map matKey)) := by
  obtain ⟨geoms1, cells, idxs, vEnd, iEnd, hab, declSize, dtoks, geoms2, bounds, mats,
    hdecl, hbuf, hboundsSave, hmatsSave, hdsz0, ht⟩ := bf2Export_shape h
  -- record size = sum of element sizes
  have hds : (d.vertexAttributes.map attrSize).sum = declSize := by
    have hdecl2 := hdecl
    unfold exportDecl at hdecl2
    rw [bindOk_iff] at hdecl2
    obtain ⟨cnt, hcnt, hdecl2⟩ := hdecl2
    rw [bindOk_iff] at hdecl2
    obtain ⟨⟨rows, sz⟩, hrows, hdecl2⟩ := hdecl2
    simp only [exceptPure_eq, Except.ok.injEq, Prod.mk.injEq] at hdecl2
    obtain ⟨-, hsz⟩ := hdecl2
    obtain ⟨hsum, -, -⟩ := declRows_spec d.vertexAttributes 0 rows sz hU hrows
    omega
  -- bookkeeping of the geom-level round-trip
  obtain ⟨hvE, hbytes, hiE, hload⟩ :=
    loadMatsGeoms_of_save transp gp d.vertexAttributes declSize
      (if transp then some (if hab then ALPHA_BLEND_FACE_SET_COUNT else 0) else none)
      hU hds d.geoms 0 0 geoms1 cells idxs vEnd iEnd hab hbuf hnb hclean
      geoms2 bounds hboundsSave mats hmatsSave
  -- bounds parse back against the skeleton
  have hlc : (skelOf d.geoms).map (fun g => g.lods.length) =
      geoms1.map (fun g => g.lods.length) := by
    rw [skelOf_lodCounts, saveGeomBuffers_shape hbuf]
  obtain ⟨sg', hboundsLoad, hsgmats⟩ :=
    loadBoundsGeoms_of_save version hv geoms1 (skelOf d.geoms) geoms2 bounds mats
      hboundsSave hlc
  -- material tables parse back and decode
  have hsg : sg'.map (fun g => g.lods.map Lod.materials) =
      d.geoms.map (fun g => List.replicate g.lods.length []) := by
    rw [hsgmats, skelOf_materials]
  have hdrop : dropCells cells (0 * declSize) = some (cells ++ []) := by
    rw [Nat.zero_mul, dropCells_zero, List.append_nil]
  obtain ⟨sg'', hmatsLoad, hkeys⟩ :=
    hload sg' hsg cells [] hdrop idxs [] [] (by simp) rfl []
  rw [List.append_nil] at hmatsLoad
  -- division in the vertex-count dword
  have hdiv : declSize * (cellsBytes cells / declSize) = cellsBytes cells := by
    rw [hbytes, Nat.mul_div_cancel _ (Nat.pos_of_ne_zero hdsz0), Nat.mul_comm]
  -- assemble the load run
  have ht' : t = headerToks version ++ [.dword d.geoms.length] ++ skelToks d.geoms ++
      dtoks ++
      (.dword 4 :: .dword declSize :: .dword (cellsBytes cells / declSize) ::
       .vraw cells :: .dword idxs.length ::
       (idxs.map Tok.word ++
        ((if transp then [.dword (if hab then ALPHA_BLEND_FACE_SET_COUNT else 0)]
          else []) ++ (bounds ++ mats)))) := by
    rw [ht]
    simp [List.append_assoc]
  refine ⟨⟨sg'', layoutAttrs 0 d.vertexAttributes⟩, ?_, rfl, hkeys⟩
  unfold bf2LoadFile bf2Load
  rw [ht', okBind (loadPreamble_of_export version d.geoms d.vertexAttributes dtoks
    declSize _ hU hdecl)]
  dsimp only
  rw [readDword_cons]
  simp only [exceptBind_ok]
  rw [if_pos (by norm_num), if_neg (by norm_num)]
  rw [readDword_cons]
  simp only [exceptBind_ok]
  rw [readDword_cons]
  simp only [exceptBind_ok]
  rw [show readRaw (declSize * (cellsBytes cells / declSize))
      (.vraw cells :: (.dword idxs.length ::
        (idxs.map Tok.word ++
         ((if transp then [.dword (if hab then ALPHA_BLEND_FACE_SET_COUNT else 0)]
           else []) ++ (bounds ++ mats))))) =
      .ok (cells, .dword idxs.length ::
        (idxs.map Tok.word ++
         ((if transp then [.dword (if hab then ALPHA_BLEND_FACE_SET_COUNT else 0)]
           else []) ++ (bounds ++ mats))))
    from by
      show (if cellsBytes cells = declSize * (cellsBytes cells / declSize) then
          (Except.ok (cells, .dword idxs.length ::
            (idxs.map Tok.word ++
             ((if transp then [.dword (if hab then ALPHA_BLEND_FACE_SET_COUNT else 0)]
               else []) ++ (bounds ++ mats)))) : Except Err (List VCell × Toks))
        else .error .corruptFile) = _
      rw [if_pos hdiv.symm]]
  simp only [exceptBind_ok]
  rw [readDword_cons]
  simp only [exceptBind_ok]
  simp only [readWords_of_map]
  simp only [exceptBind_ok]
  rw [abnStep transp (if hab then ALPHA_BLEND_FACE_SET_COUNT else 0) (bounds ++ mats)]
  simp only [exceptBind_ok]
  rw [okBind hboundsLoad]
  simp only [exceptBind_ok]
  rw [okBind hmatsLoad]
  simp only [exceptBind_ok]
  rw [if_pos trivial]

/-- A position-only vertex is clean for any declaration table that names the
position channel. -/
theorem mkPosVertex_clean (a b c : ℚ) (attrs : List VAttr)
    (hpos : ∃ x ∈ attrs, x.declUsage = D3DDECLUSAGE.position) :
    vertexClean attrs (mkPosVertex a b c) := by
  intro u hu
  obtain ⟨x, hx, hxu⟩ := hpos
  cases u
  case position => exact absurd hxu (hu x hx)
  all_goals rfl

/-- Geometric parameters for the claim C1 example (irrelevant: no ALPHA_BLEND
material is sorted). -/
def c1gp : GeoParams := ⟨fun _ => 0, fun _ => ⟨0, 0, 0⟩⟩

/-- The single opaque material of the claim C1 example: one triangle. -/
def c1Mat : Material :=
  { fxfile := "a.fx", technique := "Base", vertices := [mkPosVertex 0 0 0, mkPosVertex 1 0 0, mkPosVertex 0 1 0], faces := [(0, 1, 2)] }

/-- The position declaration row of the claim C1 example. -/
def c1Attr : VAttr :=
  { flag := some vaUSED, offset := some 0, declType := D3DDECLTYPE.float3, declUsage := D3DDECLUSAGE.position }

/-- The one-geom one-lod one-material document of the claim C1 example. -/
def c1Doc : Doc :=
  { geoms := [{ lods := [{ materials := [c1Mat] }] }], vertexAttributes := [c1Attr] }

/-- The token stream export writes for `c1Doc` at format version 6. -/
def c1BadToks : Toks :=
  [.dword 0, .dword 6, .dword 0, .dword 0, .dword 0, .byte 0, .dword 1, .dword 1,
   .dword 2, .word 0, .word 0, .word 2, .word 0, .word 255, .word 0, .word 17, .word 0,
   .dword 4, .dword 12, .dword 3,
   .vraw [.f 0, .f 0, .f 0, .f 1, .f 0, .f 0, .f 0, .f 1, .f 0],
   .dword 3, .word 0, .word 1, .word 2,
   .flt (.q 0), .flt (.q 0), .flt (.q 0), .flt (.q 1), .flt (.q 1), .flt (.q 0),
   .dword 1, .str "a.fx", .str "Base", .dword 0, .dword 0, .dword 0,
   .dword 3, .dword 3, .dword 0, .dword 0]

/-- The token stream export writes for `c1Doc` at format version 11. -/
def c1WToks : Toks :=
  [.dword 0, .dword 11, .dword 0, .dword 0, .dword 0, .byte 0, .dword 1, .dword 1,
   .dword 2, .word 0, .word 0, .word 2, .word 0, .word 255, .word 0, .word 17, .word 0,
   .dword 4, .dword 12, .dword 3,
   .vraw [.f 0, .f 0, .f 0, .f 1, .f 0, .f 0, .f 0, .f 1, .f 0],
   .dword 3, .word 0, .word 1, .word 2,
   .flt (.q 0), .flt (.q 0), .flt (.q 0), .flt (.q 1), .flt (.q 1), .flt (.q 0),
   .dword 1, .str "a.fx", .str "Base", .dword 0, .dword 0, .dword 0,
   .dword 3, .dword 3, .dword 0, .dword 0]

/-- Claim C1 counterexample: at format version 6, decoding the encoder's own
output fails outright (the loader expects the legacy extra bounds vector that
the saver never writes), so the round trip does not hold for every
blend-free document. -/
theorem C1_counterexample :
    bf2Export c1gp 6 false c1Doc = .ok c1BadToks ∧
    bf2LoadFile false c1BadToks = .error .corruptFile := ⟨rfl, rfl⟩

/-- Claim C1 (amended): for a document with no ALPHA_BLEND material, loading
the exported stream recovers the document — provided the format version is
above 6 (below that the loader fails on the saver's own output, see the
counterexample), no attribute is flagged unused, and every vertex channel
outside the declaration table is unset. The load succeeds, the attribute
table comes back in laid-out form (used flags, sequential offsets), and the
geometry tree's structural content — per material its shader strings, map
list, vertices and faces — is recovered exactly; the stored per-material
offsets are regenerated, not preserved. -/
theorem C1_theorem (gp : GeoParams) (version : ℕ) (transp : Bool)
    (d : Doc) (t : Toks)
    (hv : 6 < version)
    (hU : ∀ a ∈ d.vertexAttributes, a.flag ≠ some vaUNUSED)
    (hnb : ∀ g ∈ d.geoms, ∀ l ∈ g.lods, ∀ m ∈ l.materials,
      m.alphaMode ≠ some .amBlend)
    (hclean : ∀ g ∈ d.geoms, ∀ l ∈ g.lods, ∀ m ∈ l.materials, ∀ vtx ∈ m.vertices,
      vertexClean d.vertexAttributes vtx)
    (h : bf2Export gp version transp d = .ok t) :
    ∃ d' : Doc, bf2LoadFile transp t = .ok d' ∧
      d'.vertexAttributes = layoutAttrs 0 d.vertexAttributes ∧
      d'.geoms.map (fun g => g.lods.map (fun l => l.materials.map matKey)) =
        d.geoms.map (fun g => g.lods.map (fun l => l.materials.map matKey)) :=
  bf2LoadFile_of_export gp version transp d t hv hU hnb hclean h

/-- Claim C1 witness: the amended round trip holds at a concrete blend-free
document (one geom, one lod, one triangle material, position-only
declaration) exported at version 11. -/
theorem C1_witness :
    (6 : ℕ) < 11 ∧
    ∃ d' : Doc, bf2LoadFile false c1WToks = .ok d' ∧
      d'.vertexAttributes = layoutAttrs 0 c1Doc.vertexAttributes ∧
      d'.geoms.map (fun g => g.lods.map (fun l => l.materials.map matKey)) =
        c1Doc.geoms.map (fun g => g.lods.map (fun l => l.materials.map matKey)) := by
  refine ⟨by norm_num, ?_⟩
  refine C1_theorem c1gp 11 false c1Doc c1WToks (by norm_num) ?_ ?_ ?_ rfl
  · intro a ha
    rcases List.mem_singleton.mp ha with rfl
    decide
  · intro g hg l hl m hm
    rcases List.mem_singleton.mp hg with rfl
    rcases List.mem_singleton.mp hl with rfl
    rcases List.mem_singleton.mp hm with rfl
    decide
  · intro g hg l hl m hm vtx hv
    rcases List.mem_singleton.mp hg with rfl
    rcases List.mem_singleton.mp hl with rfl
    rcases List.mem_singleton.mp hm with rfl
    have hpos : ∃ x ∈ c1Doc.vertexAttributes, x.declUsage = D3DDECLUSAGE.position :=
      ⟨c1Attr, List.mem_singleton.mpr rfl, rfl⟩
    simp only [c1Mat, List.mem_cons, List.not_mem_nil, or_false] at hv
    rcases hv with rfl | rfl | rfl
    · exact mkPosVertex_clean 0 0 0 _ hpos
    · exact mkPosVertex_clean 1 0 0 _ hpos
    · exact mkPosVertex_clean 0 1 0 _ hpos
